import Mathlib

/-!
Verification development for the MuMuAINovel backend
(`backend/app/api/chapters.py`, `backend/app/api/outlines.py`,
`backend/app/api/wizard_stream.py`, `backend/app/services/plot_analyzer.py`).

The Python code is shallowly embedded: SQLAlchemy rows become Lean
structures, database tables become lists of rows, endpoint handlers become
pure state-transforming functions, and SSE generators become functions that
produce the list of emitted events (plus, where a claim needs it, an
explicit segment model with commit/rollback actions).  Queries with an
`ORDER BY` clause are modelled with `List.insertionSort`; timestamps are
modelled as integer seconds; Python `len` on a string is `String.length`
(both count unicode code points).
-/

namespace MuMu

/-! ### Text helpers mirroring Python string primitives -/

/-- Python `str.strip()` whitespace test for the ASCII whitespace characters
(`' '`, `'\t'`, `'\n'`, `'\r'`, `'\x0b'`, `'\x0c'`). -/
def pyIsSpace (c : Char) : Bool :=
  c = ' ' || c = '\t' || c = '\n' || c = '\r' || c = '\x0b' || c = '\x0c'

/-- Python `s.strip()` on a list of characters. -/
def pyStripList (l : List Char) : List Char :=
  ((l.dropWhile pyIsSpace).reverse.dropWhile pyIsSpace).reverse

/-- Python `s.strip()`. -/
def pyStrip (s : String) : String :=
  String.mk (pyStripList s.data)

/-- Python `s.strip() == ""`: every character is whitespace. -/
def isBlankStr (s : String) : Bool :=
  s.data.all pyIsSpace

/-- Python truthiness of an optional string column
(`None` and `""` are falsy). -/
def truthyStr : Option String → Bool
  | none => false
  | some s => s ≠ ""

/-- Python `s[:n]` on strings (prefix of at most `n` characters). -/
def pyTake (s : String) (n : Nat) : String :=
  String.mk (s.data.take n)

/-- Python `len(s)`. -/
def pyLen (s : String) : Nat :=
  s.data.length

/-! ### C1 — chapter generation prerequisite check
(`chapters.py`, `check_prerequisites` and the pre-stream validation of
`generate_chapter_content_stream`). -/

/-- Row of the `chapters` table (`models/chapter.py`); only the columns the
verified endpoints read or write are carried. -/
structure Chapter where
  id : String
  projectId : String
  chapterNumber : Int
  title : String
  content : Option String
  summary : Option String
  wordCount : Nat
  status : String
  deriving Repr, DecidableEq

/-- `not ch.content or ch.content.strip() == ""`. -/
def chapterContentBlank (ch : Chapter) : Bool :=
  match ch.content with
  | none => true
  | some s => isBlankStr s

/-- The `ORDER BY chapter_number` query result: chapters of the project with
a smaller number, in ascending order. -/
def previousChaptersOf (chapters : List Chapter) (c : Chapter) : List Chapter :=
  List.insertionSort (fun a b => a.chapterNumber ≤ b.chapterNumber)
    (chapters.filter fun ch =>
      ch.projectId = c.projectId && ch.chapterNumber < c.chapterNumber)

/-- Python `', '.join(missing_numbers)` over decimal renderings. -/
def joinNumbers (ns : List Int) : String :=
  String.intercalate ", " (ns.map toString)

/-- The exact error message built by `check_prerequisites`. -/
def prerequisiteErrorMsg (ns : List Int) : String :=
  "需要先完成前置章节：第 " ++ joinNumbers ns ++ " 章"

/-- `check_prerequisites(db, chapter)` from `chapters.py`: returns
`(can_generate, error_msg, previous_chapters)`. -/
def check_prerequisites (chapters : List Chapter) (c : Chapter) :
    Bool × String × List Chapter :=
  if c.chapterNumber = 1 then
    (true, "", [])
  else
    let previous := previousChaptersOf chapters c
    let incomplete := previous.filter chapterContentBlank
    if incomplete.isEmpty then
      (true, "", previous)
    else
      (false, prerequisiteErrorMsg (incomplete.map (·.chapterNumber)), previous)

/-- Outcome of the pre-stream validation in
`generate_chapter_content_stream`: either an HTTP error raised before any
SSE streaming starts, or the prepared previous-chapter data. -/
inductive Precheck where
  | httpError (status : Nat) (detail : String)
  | ok (previousChapters : List Chapter)
  deriving Repr, DecidableEq

/-- The validation performed by `generate_chapter_content_stream` before the
`StreamingResponse` is constructed: 404 when the chapter does not exist,
400 with the prerequisite message when `check_prerequisites` fails. -/
def generateStreamPrecheck (chapters : List Chapter) (chapterId : String) :
    Precheck :=
  match chapters.find? (fun ch => ch.id = chapterId) with
  | none => .httpError 404 "章节不存在"
  | some c =>
    match check_prerequisites chapters c with
    | (true, _, previous) => .ok previous
    | (false, msg, _) => .httpError 400 msg

/-- The ascending list of chapter numbers of incomplete prior chapters. -/
def incompletePriorNumbers (chapters : List Chapter) (c : Chapter) : List Int :=
  ((previousChaptersOf chapters c).filter chapterContentBlank).map
    (·.chapterNumber)

/-! ### C2 — analysis-task auto recovery
(`chapters.py`, `get_analysis_task_status`). -/

inductive TaskStatus where
  | pending | running | completed | failed
  deriving Repr, DecidableEq

/-- Row of the `analysis_tasks` table; timestamps are integer seconds. -/
structure AnalysisTask where
  id : String
  chapterId : String
  status : TaskStatus
  progress : Nat
  errorMessage : Option String
  createdAt : Option Int
  startedAt : Option Int
  completedAt : Option Int
  deriving Repr, DecidableEq

/-- `get_analysis_task_status`, auto-recovery part: given the current time
and the latest task, returns the (possibly updated) task together with the
reported `auto_recovered` flag.  The code compares the elapsed time with
`timedelta(minutes=1)` (resp. `timedelta(minutes=2)`) using strict `>`. -/
def get_analysis_task_status (now : Int) (t : AnalysisTask) :
    AnalysisTask × Bool :=
  match t.status with
  | .running =>
    match t.startedAt with
    | some s =>
      if now - s > 60 then
        ({ t with
            status := .failed
            errorMessage := some "任务超时（超过1分钟未完成，已自动恢复）"
            completedAt := some now
            progress := 0 }, true)
      else (t, false)
    | none => (t, false)
  | .pending =>
    match t.createdAt with
    | some c =>
      if now - c > 120 then
        ({ t with
            status := .failed
            errorMessage := some "任务启动超时（超过2分钟未启动，已自动恢复）"
            completedAt := some now
            progress := 0 }, true)
      else (t, false)
    | none => (t, false)
  | _ => (t, false)

/-- Elapsed-time test of the amended claim: the recorded timestamp exists
and lies strictly more than `limit` seconds before `now`. -/
def timedOutAfter (now : Int) (stamp : Option Int) (limit : Int) : Prop :=
  match stamp with
  | some s => now - s > limit
  | none => False

instance (now : Int) (stamp : Option Int) (limit : Int) :
    Decidable (timedOutAfter now stamp limit) := by
  unfold timedOutAfter; cases stamp <;> infer_instance

/-- Abbreviation for the return shape of the status query. -/
abbrev AnalysisTaskResult := AnalysisTask × Bool

/-- Specification-side restatement of the (amended) auto-recovery rule:
a `running` task whose `started_at` lies strictly more than 60 seconds in
the past, or a `pending` task whose `created_at` lies strictly more than
120 seconds in the past, is failed with progress 0, `completed_at = now`
and a timeout message, and `auto_recovered` is reported; every other query
leaves the task unchanged. -/
def autoRecoverSpec (now : Int) (t : AnalysisTask) : AnalysisTaskResult :=
  if t.status = .running ∧ timedOutAfter now t.startedAt 60 then
    ({ t with
        status := .failed
        errorMessage := some "任务超时（超过1分钟未完成，已自动恢复）"
        completedAt := some now
        progress := 0 }, true)
  else if t.status = .pending ∧ timedOutAfter now t.createdAt 120 then
    ({ t with
        status := .failed
        errorMessage := some "任务启动超时（超过2分钟未启动，已自动恢复）"
        completedAt := some now
        progress := 0 }, true)
  else (t, false)

/-! ### C3 — memory extraction from a parsed analysis
(`services/plot_analyzer.py`, `PlotAnalyzer.extract_memories_from_analysis`
and `PlotAnalyzer._find_text_position`). -/

/-- One entry of the parsed `hooks` array; absent JSON keys are `none`. -/
structure Hook where
  typeName : Option String
  content : Option String
  strength : Option Int
  position : Option String
  keyword : Option String
  deriving Repr, DecidableEq

/-- One entry of the parsed `foreshadows` array. -/
structure Foreshadow where
  content : Option String
  typeName : Option String
  strength : Option Int
  referenceChapter : Option Int
  keyword : Option String
  deriving Repr, DecidableEq

/-- One entry of the parsed `plot_points` array. -/
structure PlotPoint where
  content : Option String
  typeName : Option String
  importance : Option ℚ
  impact : Option String
  keyword : Option String
  deriving Repr, DecidableEq

/-- One entry of the parsed `character_states` array. -/
structure CharState where
  characterName : Option String
  stateBefore : Option String
  stateAfter : Option String
  psychologicalChange : Option String
  deriving Repr, DecidableEq

/-- The parsed top-level `conflict` object. -/
structure Conflict where
  types : List String
  parties : List String
  level : Option Int
  description : Option String
  deriving Repr, DecidableEq

/-- The parsed analysis JSON, restricted to the fields
`extract_memories_from_analysis` reads.  `conflict = none` models both an
absent key and a falsy (empty) dict. -/
structure Analysis where
  summary : Option String
  hooks : List Hook
  foreshadows : List Foreshadow
  plotPoints : List PlotPoint
  characterStates : List CharState
  conflict : Option Conflict
  deriving Repr, DecidableEq

/-- A memory fragment as emitted by the extractor (the dict appended to
`memories`, with its metadata flattened). -/
structure MemoryFragment where
  typeName : String
  content : String
  title : String
  chapterId : String
  chapterNumber : Int
  importance : ℚ
  tags : List String
  isForeshadow : Nat
  relatedCharacters : List String
  textPosition : Option Int
  textLength : Option Nat
  deriving Repr, DecidableEq

/-- `needle` is a leading block of `hay`. -/
def leadsList : List Char → List Char → Bool
  | [], _ => true
  | _ :: _, [] => false
  | a :: as, b :: bs => a = b && leadsList as bs

/-- First index at which `needle` occurs in `hay` (Python `str.find`
without the `-1` encoding). -/
def listFindIdx (needle : List Char) : List Char → Option Nat
  | [] => if leadsList needle [] then some 0 else none
  | hay@(_ :: t) =>
    if leadsList needle hay then some 0 else (listFindIdx needle t).map (· + 1)

/-- Python `hay.find(needle)` (`-1` when absent). -/
def pyFind (hay needle : String) : Int :=
  match listFindIdx needle.data hay.data with
  | some i => (i : Int)
  | none => -1

/-- The punctuation class of the regex in `_find_text_position`. -/
def punctChars : List Char :=
  ['，', '。', '！', '？', '、', '；', '：', '“', '”', '‘', '’',
   '（', '）', '《', '》', '【', '】']

/-- `re.sub(r'[，。！？、；：“”‘’（）《》【】]', '', s)`. -/
def stripPunct (l : List Char) : List Char :=
  l.filter (fun c => ¬ punctChars.contains c)

/-- `PlotAnalyzer._find_text_position(full_text, keyword)`:
`(start, length)`, `(-1, 0)` when not found. -/
def find_text_position (fullText keyword : String) : Int × Nat :=
  if keyword = "" || fullText = "" then (-1, 0)
  else
    let p1 := listFindIdx keyword.data fullText.data
    match p1 with
    | some p => ((p : Int), pyLen keyword)
    | none =>
      let cleanKeyword := stripPunct keyword.data
      let cleanText := stripPunct fullText.data
      match listFindIdx cleanKeyword cleanText with
      | some p => ((p : Int), cleanKeyword.length)
      | none =>
        if pyLen keyword > 10 then
          let part := keyword.data.take (min 15 (pyLen keyword))
          match listFindIdx part fullText.data with
          | some p => ((p : Int), part.length)
          | none => (-1, 0)
        else (-1, 0)

/-- The `chapter_summary` content choice: `analysis.get('summary')` when
truthy, else the join of the first three plot-point contents when the
`plot_points` list is non-empty, else the first 300 characters of the
chapter text with `"..."` appended when it is longer than 300 characters,
else empty. -/
def chapterSummaryText (a : Analysis) (chapterContent : String) : String :=
  if truthyStr a.summary then a.summary.getD ""
  else if !a.plotPoints.isEmpty then
    String.intercalate "；" ((a.plotPoints.take 3).map (fun p => p.content.getD ""))
  else if chapterContent ≠ "" then
    pyTake chapterContent 300 ++ (if pyLen chapterContent > 300 then "..." else "")
  else ""

/-- The fragment built for a strong hook. -/
def hookFragment (chapterId : String) (chapterNumber : Int)
    (chapterContent : String) (h : Hook) : MemoryFragment :=
  let keyword := h.keyword.getD ""
  let pl := find_text_position chapterContent keyword
  { typeName := "hook"
    content := "[" ++ h.typeName.getD "未知" ++ "钩子] " ++ h.content.getD ""
    title := h.typeName.getD "钩子" ++ " - " ++ h.position.getD ""
    chapterId := chapterId
    chapterNumber := chapterNumber
    importance := min ((h.strength.getD 5 : ℚ) / 10) 1
    tags := [h.typeName.getD "钩子", h.position.getD ""]
    isForeshadow := 0
    relatedCharacters := []
    textPosition := some pl.1
    textLength := some pl.2 }

/-- The fragment built for a foreshadow entry. -/
def foreshadowFragment (chapterId : String) (chapterNumber : Int)
    (chapterContent : String) (f : Foreshadow) : MemoryFragment :=
  let isPlanted := f.typeName = some "planted"
  let keyword := f.keyword.getD ""
  let pl := find_text_position chapterContent keyword
  { typeName := "foreshadow"
    content := f.content.getD ""
    title := if isPlanted then "埋下伏笔" else "回收伏笔"
    chapterId := chapterId
    chapterNumber := chapterNumber
    importance := min ((f.strength.getD 5 : ℚ) / 10) 1
    tags := ["伏笔", f.typeName.getD "planted"]
    isForeshadow := if isPlanted then 1 else 2
    relatedCharacters := []
    textPosition := some pl.1
    textLength := some pl.2 }

/-- The fragment built for an important plot point. -/
def plotPointFragment (chapterId : String) (chapterNumber : Int)
    (chapterContent : String) (p : PlotPoint) : MemoryFragment :=
  let keyword := p.keyword.getD ""
  let pl := find_text_position chapterContent keyword
  { typeName := "plot_point"
    content := p.content.getD "" ++ "。影响: " ++ p.impact.getD ""
    title := "情节点 - " ++ p.typeName.getD "未知"
    chapterId := chapterId
    chapterNumber := chapterNumber
    importance := p.importance.getD (1/2)
    tags := ["情节点", p.typeName.getD "未知"]
    isForeshadow := 0
    relatedCharacters := []
    textPosition := some pl.1
    textLength := some pl.2 }

/-- The fragment built for a character-state entry. -/
def charStateFragment (chapterId : String) (chapterNumber : Int)
    (cs : CharState) : MemoryFragment :=
  let name := cs.characterName.getD "未知角色"
  { typeName := "character_event"
    content := name ++ "的状态变化: " ++ cs.stateBefore.getD "" ++ " → " ++
      cs.stateAfter.getD "" ++ "。" ++ cs.psychologicalChange.getD ""
    title := name ++ "的变化"
    chapterId := chapterId
    chapterNumber := chapterNumber
    importance := 7/10
    tags := ["角色", name, "状态变化"]
    isForeshadow := 0
    relatedCharacters := [name]
    textPosition := none
    textLength := none }

/-- The synthetic fragment built for a high-level conflict. -/
def conflictFragment (chapterId : String) (chapterNumber : Int)
    (c : Conflict) : MemoryFragment :=
  { typeName := "plot_point"
    content := "重要冲突: " ++ c.description.getD "" ++ "。冲突各方: " ++
      String.intercalate ", " c.parties
    title := "冲突 - 强度" ++ toString (c.level.getD 0)
    chapterId := chapterId
    chapterNumber := chapterNumber
    importance := min ((c.level.getD 5 : ℚ) / 10) 1
    tags := "冲突" :: c.types
    isForeshadow := 0
    relatedCharacters := []
    textPosition := none
    textLength := none }

/-- The summary fragment (when the chosen summary text is non-empty). -/
def summaryFragments (a : Analysis) (chapterId : String) (chapterNumber : Int)
    (chapterContent chapterTitle : String) : List MemoryFragment :=
  let cs := chapterSummaryText a chapterContent
  if cs ≠ "" then
    [{ typeName := "chapter_summary"
       content := cs
       title := "第" ++ toString chapterNumber ++ "章《" ++ chapterTitle ++ "》摘要"
       chapterId := chapterId
       chapterNumber := chapterNumber
       importance := 6/10
       tags := ["摘要", "章节概览", chapterTitle]
       isForeshadow := 0
       relatedCharacters := []
       textPosition := some 0
       textLength := some (pyLen cs) }]
  else []

/-- `PlotAnalyzer.extract_memories_from_analysis`, written as the source's
sequence of appending loops over the analysis arrays. -/
def extract_memories_from_analysis (a : Analysis) (chapterId : String)
    (chapterNumber : Int) (chapterContent chapterTitle : String) :
    List MemoryFragment :=
  let m0 := summaryFragments a chapterId chapterNumber chapterContent chapterTitle
  let m1 := a.hooks.foldl (fun acc h =>
    if h.strength.getD 0 ≥ 6 then
      acc ++ [hookFragment chapterId chapterNumber chapterContent h]
    else acc) m0
  let m2 := a.foreshadows.foldl (fun acc f =>
    acc ++ [foreshadowFragment chapterId chapterNumber chapterContent f]) m1
  let m3 := a.plotPoints.foldl (fun acc p =>
    if p.importance.getD 0 ≥ 6/10 then
      acc ++ [plotPointFragment chapterId chapterNumber chapterContent p]
    else acc) m2
  let m4 := a.characterStates.foldl (fun acc cs =>
    acc ++ [charStateFragment chapterId chapterNumber cs]) m3
  match a.conflict with
  | some c =>
    if c.level.getD 0 ≥ 7 then m4 ++ [conflictFragment chapterId chapterNumber c]
    else m4
  | none => m4

/-- Specification-side description of the extractor output (amended claim):
the summary fragment (if its content is non-empty), one `hook` fragment per
hook of strength ≥ 6, one `foreshadow` fragment per foreshadow, one
`plot_point` fragment per plot point of importance ≥ 0.6, one
`character_event` fragment per character state, and one synthetic
`plot_point` fragment when the conflict level is ≥ 7 — in that order and
nothing else. -/
def extractMemoriesSpec (a : Analysis) (chapterId : String)
    (chapterNumber : Int) (chapterContent chapterTitle : String) :
    List MemoryFragment :=
  summaryFragments a chapterId chapterNumber chapterContent chapterTitle ++
  (a.hooks.filter (fun h => h.strength.getD 0 ≥ 6)).map
    (hookFragment chapterId chapterNumber chapterContent) ++
  a.foreshadows.map (foreshadowFragment chapterId chapterNumber chapterContent) ++
  (a.plotPoints.filter (fun p => p.importance.getD 0 ≥ 6/10)).map
    (plotPointFragment chapterId chapterNumber chapterContent) ++
  a.characterStates.map (charStateFragment chapterId chapterNumber) ++
  (match a.conflict with
   | some c => if c.level.getD 0 ≥ 7 then [conflictFragment chapterId chapterNumber c] else []
   | none => [])

/-! ### Generic row-update helpers (ORM object identity) -/

/-- Update the first list element satisfying `p` (SQLAlchemy
`scalar_one_or_none` / `first()` followed by attribute assignment; with the
uniqueness well-formedness below the match is unique). -/
def mapFirstP (p : α → Bool) (f : α → α) : List α → List α
  | [] => []
  | x :: xs => if p x then f x :: xs else x :: mapFirstP p f xs

/-! ### C6 — project word-count bookkeeping
(`chapters.py`: `create_chapter`, `update_chapter`, `delete_chapter`, and
the persistence block of `generate_chapter_content_stream`). -/

/-- Row of the `projects` table, restricted to the aggregate counter. -/
structure Project where
  id : String
  currentWords : Int
  deriving Repr, DecidableEq

/-- The store as seen by the chapter CRUD endpoints. -/
structure ChapterDB where
  projects : List Project
  chapters : List Chapter
  deriving Repr, DecidableEq

/-- `ChapterCreate` request body (`schemas/chapter.py`). -/
structure ChapterCreateReq where
  projectId : String
  title : String
  chapterNumber : Int
  content : Option String
  summary : Option String
  status : String
  deriving Repr, DecidableEq

/-- `ChapterUpdate` request body: a field is `some v` when present in the
request (`model_dump(exclude_unset=True)`).  The nullable `content` field
is two-layered: `none` when the key is absent, `some none` when the request
carries an explicit `null` (pydantic keeps an explicitly-set null under
`exclude_unset`), and `some (some s)` when it carries the string `s`. -/
structure ChapterUpdateReq where
  title : Option String
  content : Option (Option String)
  summary : Option String
  status : Option String
  deriving Repr, DecidableEq

/-- True when the request either leaves `content` unset or sets it to a
truthy (non-null, non-empty) string — the condition under which
`update_chapter` keeps the word counts consistent. -/
def contentUpdateTruthy (req : ChapterUpdateReq) : Bool :=
  match req.content with
  | some v => truthyStr v
  | none => true

/-- The chapter row inserted by `create_chapter`. -/
def newChapterRow (req : ChapterCreateReq) (newId body : String) : Chapter :=
  { id := newId, projectId := req.projectId,
    chapterNumber := req.chapterNumber, title := req.title,
    content := some body, summary := req.summary,
    wordCount := pyLen body, status := req.status }

/-- The successful body of `create_chapter`: the chapter is inserted with
`word_count = len(content)` and the project counter is increased. -/
def createChapterOk (db : ChapterDB) (req : ChapterCreateReq)
    (newId body : String) : ChapterDB :=
  { projects := mapFirstP (·.id = req.projectId)
      (fun p => { p with currentWords := p.currentWords + pyLen body }) db.projects
    chapters := db.chapters ++ [newChapterRow req newId body] }

/-- `create_chapter`: 404 when the project is missing; `len(None)` raises
(no commit) when no content is supplied. -/
def create_chapter (db : ChapterDB) (req : ChapterCreateReq) (newId : String) :
    Except String ChapterDB :=
  if !db.projects.any (·.id = req.projectId) then .error "项目不存在"
  else
    match req.content with
    | none => .error "TypeError: len of None"
    | some body => .ok (createChapterOk db req newId body)

/-- Apply the `setattr` loop of `update_chapter` to a chapter row. -/
def applyChapterUpdate (req : ChapterUpdateReq) (c : Chapter) : Chapter :=
  { c with
      title := req.title.getD c.title
      content := match req.content with | some v => v | none => c.content
      summary := match req.summary with | some v => some v | none => c.summary
      status := req.status.getD c.status }

/-- The updated row in the recount branch of `update_chapter`. -/
def recountRow (req : ChapterUpdateReq) (c : Chapter) : Chapter :=
  { applyChapterUpdate req c with
      wordCount := pyLen ((applyChapterUpdate req c).content.getD "") }

/-- The committed body of `update_chapter` once the chapter row is found:
word count (and the project counter) are recomputed only when the request
contains `content` and the resulting content is truthy (non-empty). -/
def updateChapterOk (db : ChapterDB) (chapterId : String)
    (req : ChapterUpdateReq) (c : Chapter) : ChapterDB :=
  if req.content.isSome && truthyStr (applyChapterUpdate req c).content then
    { projects := mapFirstP (·.id = c.projectId)
        (fun p => { p with currentWords :=
            p.currentWords - c.wordCount + pyLen ((applyChapterUpdate req c).content.getD "") })
        db.projects
      chapters := mapFirstP (·.id = chapterId) (fun _ => recountRow req c)
        db.chapters }
  else
    { db with
        chapters := mapFirstP (·.id = chapterId)
          (fun _ => applyChapterUpdate req c) db.chapters }

/-- `update_chapter`. -/
def update_chapter (db : ChapterDB) (chapterId : String)
    (req : ChapterUpdateReq) : Except String ChapterDB :=
  match db.chapters.find? (·.id = chapterId) with
  | none => .error "章节不存在"
  | some c => .ok (updateChapterOk db chapterId req c)

/-- The committed body of `delete_chapter`: the project counter is clamped
at zero. -/
def deleteChapterOk (db : ChapterDB) (chapterId : String) (c : Chapter) :
    ChapterDB :=
  { projects := mapFirstP (·.id = c.projectId)
      (fun p => { p with currentWords := max 0 (p.currentWords - c.wordCount) })
      db.projects
    chapters := db.chapters.eraseP (·.id = chapterId) }

/-- `delete_chapter`. -/
def delete_chapter (db : ChapterDB) (chapterId : String) :
    Except String ChapterDB :=
  match db.chapters.find? (·.id = chapterId) with
  | none => .error "章节不存在"
  | some c => .ok (deleteChapterOk db chapterId c)

/-- The persistence block of `generate_chapter_content_stream` after the
stream has produced `fullContent`: replace the content, recompute the word
count, mark the chapter completed and update the project counter as
`old − previous + new`. -/
def generatedRow (fullContent : String) (ch : Chapter) : Chapter :=
  { ch with
      content := some fullContent
      wordCount := pyLen fullContent
      status := "completed" }

/-- The store written by the persistence block. -/
def generationCommitOk (db : ChapterDB) (chapterId fullContent : String)
    (c : Chapter) : ChapterDB :=
  { projects := mapFirstP (·.id = c.projectId)
      (fun p => { p with currentWords :=
          p.currentWords - c.wordCount + pyLen fullContent })
      db.projects
    chapters := mapFirstP (·.id = chapterId) (generatedRow fullContent)
      db.chapters }

/-- The database effect of a completed streamed generation. -/
def generation_commit (db : ChapterDB) (chapterId : String)
    (fullContent : String) : Except String ChapterDB :=
  match db.chapters.find? (·.id = chapterId) with
  | none => .error "章节不存在"
  | some c => .ok (generationCommitOk db chapterId fullContent c)

/-- Aggregate invariant: every project's `current_words` equals the sum of
its chapters' `word_count`. -/
def projectWordInvariant (db : ChapterDB) : Prop :=
  ∀ p ∈ db.projects,
    p.currentWords =
      ((db.chapters.filter (·.projectId = p.id)).map
        (fun c => (c.wordCount : Int))).sum

instance (db : ChapterDB) : Decidable (projectWordInvariant db) := by
  unfold projectWordInvariant; infer_instance

/-- Per-row invariant: `word_count` equals the character length of the
content (`None` counting as empty). -/
def chapterLenInvariant (db : ChapterDB) : Prop :=
  ∀ c ∈ db.chapters, c.wordCount = pyLen (c.content.getD "")

instance (db : ChapterDB) : Decidable (chapterLenInvariant db) := by
  unfold chapterLenInvariant; infer_instance

/-- The word-count aggregate of one project over a chapters table. -/
def wordSum (chapters : List Chapter) (pid : String) : Int :=
  ((chapters.filter (·.projectId = pid)).map (fun c => (c.wordCount : Int))).sum

/-! ### C4 / C5 — outline↔chapter pairing and `order_index` contiguity
(`outlines.py`: `create_outline`, `update_outline`, `delete_outline`,
`reorder_outlines`). -/

/-- Row of the `outlines` table (columns the verified endpoints touch;
the JSON `structure` column and timestamps are not read by any claim and
are omitted). -/
structure Outline where
  id : String
  projectId : String
  title : String
  content : String
  orderIndex : Int
  deriving Repr, DecidableEq

/-- The store as seen by the outline endpoints. -/
structure StoreDB where
  projectIds : List String
  outlines : List Outline
  chapters : List Chapter
  deriving Repr, DecidableEq

/-- `OutlineCreate` request body. -/
structure OutlineCreateReq where
  projectId : String
  title : String
  content : String
  orderIndex : Int
  deriving Repr, DecidableEq

/-- `OutlineUpdate` request body (only `title` and `content` are
updatable; `order_index` is reorder-only). -/
structure OutlineUpdateReq where
  title : Option String
  content : Option String
  deriving Repr, DecidableEq

/-- `create_outline`: insert the outline and synchronously create the
paired draft chapter (`chapter_number = order_index`, same title, summary
= first 500 characters of the content). -/
def create_outline (db : StoreDB) (req : OutlineCreateReq)
    (newOutlineId newChapterId : String) : Except String StoreDB :=
  if !db.projectIds.contains req.projectId then .error "项目不存在"
  else
    .ok { db with
      outlines := db.outlines ++
        [{ id := newOutlineId, projectId := req.projectId,
           title := req.title, content := req.content,
           orderIndex := req.orderIndex }]
      chapters := db.chapters ++
        [{ id := newChapterId, projectId := req.projectId,
           chapterNumber := req.orderIndex, title := req.title,
           summary := some (pyTake req.content 500),
           content := none, wordCount := 0, status := "draft" }] }

/-- The outline row after the `setattr` loop of `update_outline`. -/
def updatedOutlineRow (req : OutlineUpdateReq) (o : Outline) : Outline :=
  { o with
      title := req.title.getD o.title
      content := req.content.getD o.content }

/-- The title synchronisation applied to the paired chapter. -/
def syncTitleRow (req : OutlineUpdateReq) (o1 : Outline) (c : Chapter) : Chapter :=
  if req.title.isSome then { c with title := o1.title } else c

/-- The full synchronisation (title, then summary) applied to the paired
chapter of `update_outline`. -/
def syncChapterRow (req : OutlineUpdateReq) (o1 : Outline) (c : Chapter) : Chapter :=
  if req.content.isSome then
    { syncTitleRow req o1 c with summary := some (pyTake o1.content 500) }
  else syncTitleRow req o1 c

/-- The committed body of `update_outline` once the outline row is found:
the chapter synchronisation runs only when title or content changed. -/
def updateOutlineOk (db : StoreDB) (outlineId : String)
    (req : OutlineUpdateReq) (o : Outline) : StoreDB :=
  if req.title.isSome || req.content.isSome then
    { db with
        outlines := mapFirstP (·.id = outlineId)
          (fun _ => updatedOutlineRow req o) db.outlines
        chapters := mapFirstP
          (fun c => c.projectId = (updatedOutlineRow req o).projectId &&
            c.chapterNumber = (updatedOutlineRow req o).orderIndex)
          (syncChapterRow req (updatedOutlineRow req o))
          db.chapters }
  else
    { db with
        outlines := mapFirstP (·.id = outlineId)
          (fun _ => updatedOutlineRow req o) db.outlines }

/-- `update_outline`: update the outline fields, then synchronise the
paired chapter's title and summary when title or content changed. -/
def update_outline (db : StoreDB) (outlineId : String)
    (req : OutlineUpdateReq) : Except String StoreDB :=
  match db.outlines.find? (·.id = outlineId) with
  | none => .error "大纲不存在"
  | some o => .ok (updateOutlineOk db outlineId req o)

/-- The outlines table after the outline row itself is deleted. -/
def outlinesAfterErase (db : StoreDB) (outlineId : String) : List Outline :=
  db.outlines.eraseP (·.id = outlineId)

/-- The chapters table after the bulk `DELETE` of the paired chapter. -/
def chaptersAfterDelete (db : StoreDB) (pid : String) (d : Int) : List Chapter :=
  db.chapters.filter (fun c => !(c.projectId = pid && c.chapterNumber = d))

/-- The subsequent outlines of the project, in ascending `order_index`
order (the storage order of the un-`ORDER BY`-ed query). -/
def deleteSubs (db : StoreDB) (outlineId : String) (pid : String) (d : Int) :
    List Outline :=
  List.insertionSort (fun a b => a.orderIndex ≤ b.orderIndex)
    ((outlinesAfterErase db outlineId).filter
      (fun x => x.projectId = pid && d < x.orderIndex))

/-- One pass of the renumbering loop of `delete_outline`: decrement the
subsequent outline and its paired chapter (matched through the old
`chapter_number`). -/
def deleteStep (pid : String) (st : List Outline × List Chapter)
    (sub : Outline) : List Outline × List Chapter :=
  (mapFirstP (·.id = sub.id)
     (fun x => { x with orderIndex := x.orderIndex - 1 }) st.1,
   mapFirstP (fun c => c.projectId = pid && c.chapterNumber = sub.orderIndex)
     (fun c => { c with chapterNumber := sub.orderIndex - 1 }) st.2)

/-- `delete_outline`: delete the paired chapter (bulk `DELETE`), delete the
outline, then renumber the subsequent outlines and chapters. -/
def delete_outline (db : StoreDB) (outlineId : String) : StoreDB :=
  match db.outlines.find? (·.id = outlineId) with
  | none => db
  | some o =>
    { db with
        outlines := ((deleteSubs db outlineId o.projectId o.orderIndex).foldl
          (deleteStep o.projectId)
          (outlinesAfterErase db outlineId,
           chaptersAfterDelete db o.projectId o.orderIndex)).1
        chapters := ((deleteSubs db outlineId o.projectId o.orderIndex).foldl
          (deleteStep o.projectId)
          (outlinesAfterErase db outlineId,
           chaptersAfterDelete db o.projectId o.orderIndex)).2 }

/-- Mid-fold description of an outline row of `delete_outline`: decremented
once its id has been processed. -/
def dPartO (pre : List Outline) (x : Outline) : Outline :=
  if x.id ∈ pre.map (·.id) then { x with orderIndex := x.orderIndex - 1 } else x

/-- One item of the reorder request body. -/
structure ReorderItem where
  id : String
  orderIndex : Int
  deriving Repr, DecidableEq

/-- Python-dict upsert used to build `outline_chapter_map`: an existing key
keeps its position and takes the new value. -/
def upsertItem (acc : List ReorderItem) (it : ReorderItem) : List ReorderItem :=
  if acc.any (·.id = it.id) then mapFirstP (·.id = it.id) (fun _ => it) acc
  else acc ++ [it]

/-- Deduplicate the request items with dict semantics. -/
def dedupItems (items : List ReorderItem) : List ReorderItem :=
  items.foldl upsertItem []

/-- One collected entry of `outline_chapter_map`: the outline, the paired
chapter found through the old `chapter_number` (if any), and the old/new
order.  The outline title is captured here; `reorder_outlines` never
changes outline titles, so reading it in phase two yields the same
value. -/
structure ReorderEntry where
  outlineId : String
  outlineTitle : String
  chapterId : Option String
  oldOrder : Int
  newOrder : Int
  deriving Repr, DecidableEq

/-- Phase one of `reorder_outlines`: the collected map, in request order,
skipping unknown outline ids; all reads are against the pre-state. -/
def collectReorderEntries (db : StoreDB) (items : List ReorderItem) :
    List ReorderEntry :=
  (dedupItems items).filterMap (fun it =>
    (db.outlines.find? (·.id = it.id)).map (fun o =>
      { outlineId := o.id
        outlineTitle := o.title
        chapterId := (db.chapters.find?
          (fun c => c.projectId = o.projectId &&
            c.chapterNumber = o.orderIndex)).map (·.id)
        oldOrder := o.orderIndex
        newOrder := it.orderIndex }))

/-- Phase two of `reorder_outlines`: apply one collected entry. -/
def applyReorderEntry (st : List Outline × List Chapter) (e : ReorderEntry) :
    List Outline × List Chapter :=
  (mapFirstP (·.id = e.outlineId)
     (fun o => { o with orderIndex := e.newOrder }) st.1,
   match e.chapterId with
   | some cid =>
     mapFirstP (·.id = cid)
       (fun c => { c with
                     chapterNumber := e.newOrder
                     title := e.outlineTitle }) st.2
   | none => st.2)

/-- `reorder_outlines`: collect-then-commit. -/
def reorder_outlines (db : StoreDB) (items : List ReorderItem) : StoreDB :=
  { db with
      outlines := ((collectReorderEntries db items).foldl applyReorderEntry
        (db.outlines, db.chapters)).1
      chapters := ((collectReorderEntries db items).foldl applyReorderEntry
        (db.outlines, db.chapters)).2 }

/-- The effect of one collected reorder entry on one outline row (used to
characterise the phase-two fold as a parallel map). -/
def stepO (o : Outline) (e : ReorderEntry) : Outline :=
  if o.id = e.outlineId then { o with orderIndex := e.newOrder } else o

/-- The effect of one collected reorder entry on one chapter row. -/
def stepC (c : Chapter) (e : ReorderEntry) : Chapter :=
  match e.chapterId with
  | some cid =>
    if c.id = cid then
      { c with
          chapterNumber := e.newOrder
          title := e.outlineTitle }
    else c
  | none => c

/-- The effect of one subsequent-outline pass of `delete_outline` on one
outline row. -/
def stepD (x : Outline) (sub : Outline) : Outline :=
  if x.id = sub.id then { x with orderIndex := x.orderIndex - 1 } else x

/-- The aggregate effect of `delete_outline` on a chapter row: chapters of
the project whose number is one of the shifted outline indices are shifted
down by one. -/
def deleteFC (pid : String) (orders : List Int) (c : Chapter) : Chapter :=
  if c.projectId = pid ∧ c.chapterNumber ∈ orders then
    { c with chapterNumber := c.chapterNumber - 1 }
  else c

/-- The order assigned to an outline id by the collected entries. -/
def entryNewOrder (entries : List ReorderEntry) (oid : String) : Int :=
  (((entries.find? (·.outlineId = oid)).map (·.newOrder)).getD 0)

/-- The pairing relation of the claim: the chapter carries the outline's
title and the first 500 characters of its content as summary. -/
def pairedOutline (chapters : List Chapter) (o : Outline) : Bool :=
  chapters.any (fun c =>
    c.projectId = o.projectId && c.chapterNumber = o.orderIndex &&
    c.title = o.title && c.summary = some (pyTake o.content 500))

/-- The pairing invariant over the whole store. -/
def pairedDB (db : StoreDB) : Bool :=
  db.outlines.all (pairedOutline db.chapters)

/-- Store well-formedness enforced by the schema: primary keys are unique,
`(project, order_index)` is unique for outlines and
`(project, chapter_number)` is unique for chapters. -/
def wfStore (db : StoreDB) : Prop :=
  (db.outlines.map (·.id)).Nodup ∧
  (db.chapters.map (·.id)).Nodup ∧
  db.outlines.Pairwise (fun a b => a.projectId = b.projectId → a.orderIndex ≠ b.orderIndex) ∧
  db.chapters.Pairwise (fun a b => a.projectId = b.projectId → a.chapterNumber ≠ b.chapterNumber)

instance (db : StoreDB) : Decidable (wfStore db) := by
  unfold wfStore; infer_instance

/-- `order_index` values of a project's outlines. -/
def ordersOf (db : StoreDB) (pid : String) : List Int :=
  (db.outlines.filter (·.projectId = pid)).map (·.orderIndex)

/-- `[1, …, n]` as integers. -/
def rangeIcc1 (n : Nat) : List Int :=
  (List.range n).map (fun i => ((i : Nat) : Int) + 1)

/-- Decrement a value when it exceeds the deleted order (the arithmetic
effect of the renumbering pass of `delete_outline` on one order value). -/
def decIf (d v : Int) : Int := if d < v then v - 1 else v

/-- Contiguity invariant of the claim: the project's `order_index` values,
sorted, are exactly `1..N`. -/
def contiguousOrders (db : StoreDB) (pid : String) : Prop :=
  List.insertionSort (fun a b => a ≤ b) (ordersOf db pid) =
    rangeIcc1 (ordersOf db pid).length

instance (db : StoreDB) (pid : String) : Decidable (contiguousOrders db pid) := by
  unfold contiguousOrders; infer_instance

/-! ### C7 — wizard character persistence
(`wizard_stream.py`, `characters_generator`: hallucination cleanup and the
four persistence phases). -/

/-- One entry of a character's `relationships_array`. -/
structure RelEntry where
  targetCharacterName : Option String
  relationshipType : Option String
  intimacyLevel : Option Int
  description : Option String
  deriving Repr, DecidableEq

/-- One entry of a character's `organization_memberships`. -/
structure MemEntry where
  organizationName : Option String
  position : Option String
  rank : Option Int
  loyalty : Option Int
  deriving Repr, DecidableEq

/-- One generated character/organization dict of the batch.
`relationshipsArray` (resp. `organizationMemberships`) is `some l` when the
key is present with a list value; `relationshipsLegacy` models the old
`relationships` key when it holds a list. -/
structure CharData where
  name : Option String
  isOrganization : Bool
  roleType : Option String
  relationshipsArray : Option (List RelEntry)
  organizationMemberships : Option (List MemEntry)
  relationshipsLegacy : Option (List RelEntry)
  deriving Repr, DecidableEq

/-- `valid_entity_names`: non-empty names of all batch entities. -/
def validEntityNames (batch : List CharData) : List String :=
  (batch.filterMap (·.name)).filter (· ≠ "")

/-- `valid_organization_names`: non-empty names of batch entities with
`is_organization = true`. -/
def validOrganizationNames (batch : List CharData) : List String :=
  ((batch.filter (·.isOrganization)).filterMap (·.name)).filter (· ≠ "")

/-- The hallucination cleanup applied to one dict: drop relationship
entries whose target is not a batch entity and membership entries whose
organization is not a batch organization. -/
def cleanCharData (ents orgs : List String) (cd : CharData) : CharData :=
  { cd with
      relationshipsArray := cd.relationshipsArray.map
        (·.filter (fun r => ents.contains (r.targetCharacterName.getD "")))
      organizationMemberships := cd.organizationMemberships.map
        (·.filter (fun m => orgs.contains (m.organizationName.getD ""))) }

/-- The cleanup pass over the whole batch. -/
def cleanBatch (batch : List CharData) : List CharData :=
  batch.map (cleanCharData (validEntityNames batch) (validOrganizationNames batch))

/-- A flushed `Character` row; the surrogate `id` is the row's position in
the creation order (phase one creates one row per dict, in order). -/
structure CharRow where
  id : Nat
  name : String
  isOrganization : Bool
  deriving Repr, DecidableEq

/-- Phase one: one `Character` row per batch dict, named
`char_data.get("name", "未命名角色")`. -/
def createdRows (batch : List CharData) : List CharRow :=
  batch.enum.map (fun p =>
    { id := p.1, name := p.2.name.getD "未命名角色",
      isOrganization := p.2.isOrganization })

/-- `character_name_to_obj` lookup: built in creation order with later
rows overwriting earlier ones of the same name. -/
def nameToId (rows : List CharRow) (n : String) : Option Nat :=
  (rows.reverse.find? (·.name = n)).map (·.id)

/-- `organization_name_to_obj` lookup (organisation rows only). -/
def orgNameToId (rows : List CharRow) (n : String) : Option Nat :=
  ((rows.filter (·.isOrganization)).reverse.find? (·.name = n)).map (·.id)

/-- A created `CharacterRelationship` row (ids are `CharRow.id`s). -/
structure RelRow where
  fromId : Nat
  toId : Nat
  relationshipName : String
  deriving Repr, DecidableEq

/-- A created `OrganizationMember` row. -/
structure MemberRow where
  orgId : Nat
  charId : Nat
  position : String
  deriving Repr, DecidableEq

/-- The relationship list used in phase three: the (cleaned)
`relationships_array` or, when that is empty, the legacy `relationships`
list. -/
def relsOf (cd : CharData) : List RelEntry :=
  let a := cd.relationshipsArray.getD []
  if a.isEmpty then cd.relationshipsLegacy.getD [] else a

/-- Phase three: create relationship edges, skipping organisation sources,
falsy target names, unknown targets, and `(from, to)` duplicates. -/
def createRelationships (rows : List CharRow) (batch : List CharData) :
    List RelRow :=
  ((rows.zip batch).foldl (fun acc p =>
    if p.1.isOrganization then acc
    else (relsOf p.2).foldl (fun acc2 rel =>
      match rel.targetCharacterName with
      | none => acc2
      | some tn =>
        if tn = "" then acc2
        else
          match nameToId rows tn with
          | none => acc2
          | some toId =>
            if acc2.any (fun r => r.fromId = p.1.id ∧ r.toId = toId) then acc2
            else acc2 ++
              [{ fromId := p.1.id, toId := toId,
                 relationshipName := rel.relationshipType.getD "未知关系" }]) acc)
    [])

/-- Phase four: create organisation memberships, skipping organisation
sources, falsy organisation names, unknown organisations and duplicates. -/
def createMemberships (rows : List CharRow) (batch : List CharData) :
    List MemberRow :=
  ((rows.zip batch).foldl (fun acc p =>
    if p.1.isOrganization then acc
    else (p.2.organizationMemberships.getD []).foldl (fun acc2 mem =>
      match mem.organizationName with
      | none => acc2
      | some orgName =>
        if orgName = "" then acc2
        else
          match orgNameToId rows orgName with
          | none => acc2
          | some oid =>
            if acc2.any (fun m => m.orgId = oid ∧ m.charId = p.1.id) then acc2
            else acc2 ++
              [{ orgId := oid
                 charId := p.1.id
                 position := mem.position.getD "成员" }]) acc)
    [])

/-- The whole persistence step of the wizard character stage: cleanup,
then rows, edges and memberships. -/
def persistCharacters (batch : List CharData) :
    List CharRow × List RelRow × List MemberRow :=
  let cleaned := cleanBatch batch
  let rows := createdRows cleaned
  (rows, createRelationships rows cleaned, createMemberships rows cleaned)

/-! ### C8 — batch count validation and fence stripping
(`wizard_stream.py` `characters_generator` / `outline_generator`,
`outlines.py` `_parse_ai_response` / `_save_outlines`). -/

/-- `MAX_RETRIES` of the wizard batch loops. -/
def MAX_RETRIES : Nat := 3

/-- Newline characters stripped by `lstrip('\n\r')` / `rstrip('\n\r')`. -/
def isNlCr (c : Char) : Bool := c == '\n' || c == '\r'

/-- `pat` is a leading block of `l` (Python `startswith`). -/
def startsWithList (pat l : List Char) : Bool := leadsList pat l

/-- Python `endswith`. -/
def endsWithList (pat l : List Char) : Bool := leadsList pat.reverse l.reverse

/-- The wizard cleanup step
`if cleaned.startswith('```json') / ('```'): drop and lstrip('\n\r')`. -/
def stripFenceHead (l : List Char) : List Char :=
  if startsWithList ("```json".data) l then (l.drop 7).dropWhile isNlCr
  else if startsWithList ("```".data) l then (l.drop 3).dropWhile isNlCr
  else l

/-- The wizard cleanup step
`if cleaned.endswith('```'): drop and rstrip('\n\r')`. -/
def stripFenceTail (l : List Char) : List Char :=
  if endsWithList ("```".data) l then
    ((l.take (l.length - 3)).reverse.dropWhile isNlCr).reverse
  else l

/-- The fence cleanup of the wizard generators: `strip`, drop a leading
json (or plain) fence plus following newlines, drop a trailing fence plus
preceding newlines, `strip`. -/
def cleanMarkdownList (l0 : List Char) : List Char :=
  pyStripList (stripFenceTail (stripFenceHead (pyStripList l0)))

/-- String version of the wizard fence cleanup. -/
def cleanMarkdownWizard (s : String) : String :=
  String.mk (cleanMarkdownList s.data)

/-- `_parse_ai_response` step `if cleaned.startswith('```json')`. -/
def dropFenceJson (l : List Char) : List Char :=
  if startsWithList ("```json".data) l then l.drop 7 else l

/-- `_parse_ai_response` step `if cleaned.startswith('```')`. -/
def dropFence3 (l : List Char) : List Char :=
  if startsWithList ("```".data) l then l.drop 3 else l

/-- `_parse_ai_response` step `if cleaned.endswith('```')`. -/
def dropFenceEnd (l : List Char) : List Char :=
  if endsWithList ("```".data) l then l.take (l.length - 3) else l

/-- The fence cleanup of `_parse_ai_response` in `outlines.py`
(independent `if`s, no newline stripping between steps). -/
def cleanFencesOutlineList (l0 : List Char) : List Char :=
  pyStripList (dropFenceEnd (dropFence3 (dropFenceJson (pyStripList l0))))

/-- String version of the `_parse_ai_response` fence cleanup. -/
def cleanFencesOutline (s : String) : String :=
  String.mk (cleanFencesOutlineList s.data)

/-- The backtick character (`U+0060`). -/
def btick : Char := Char.ofNat 96

/-- The opening json fence plus newline, as characters. -/
def fenceOpenJson : List Char := "```json\n".data

/-- The newline plus closing fence, as characters. -/
def fenceClose : List Char := "\n```".data

/-- Outcome of one LLM call + JSON parse inside a batch loop. -/
inductive ModelAttempt (α : Type) where
  | parseError
  | items (xs : List α)
  deriving Repr, DecidableEq

/-- Outcome of a whole character batch. -/
inductive BatchOutcome (α : Type) where
  | success (xs : List α)
  | failure (msg : String)
  deriving Repr, DecidableEq

/-- The character-batch retry loop (`while retry_count < MAX_RETRIES and
not batch_success`): a parse error consumes a retry; a count mismatch
(too many *or* too few) retries while `retry_count < MAX_RETRIES - 1` and
otherwise fails the request; only an exact count succeeds. -/
def charactersBatchGo (requested : Nat) (attempts : Nat → ModelAttempt CharData) :
    Nat → Nat → BatchOutcome CharData
  | 0, _ => .failure ("批次在" ++ toString MAX_RETRIES ++ "次重试后仍然失败")
  | fuel + 1, retryCount =>
    match attempts retryCount with
    | .parseError => charactersBatchGo requested attempts fuel (retryCount + 1)
    | .items xs =>
      if xs.length ≠ requested then
        if retryCount < MAX_RETRIES - 1 then
          charactersBatchGo requested attempts fuel (retryCount + 1)
        else
          .failure ("批次生成数量不正确: 期望" ++ toString requested ++
            "个, 实际" ++ toString xs.length ++ "个")
      else .success xs

/-- One wizard character batch. -/
def characters_batch (requested : Nat) (attempts : Nat → ModelAttempt CharData) :
    BatchOutcome CharData :=
  charactersBatchGo requested attempts MAX_RETRIES 0

/-- One parsed outline dict of a generation batch. -/
structure OutlineData where
  chapterNumber : Option Int
  title : Option String
  summary : Option String
  content : Option String
  keyEvents : Option (List String)
  charactersInvolved : Option (List String)
  deriving Repr, DecidableEq

/-- The wizard outline-batch retry loop: a parse error consumes a retry
(after the last one the batch is skipped, yielding `none`); a result with
*fewer* items than expected retries while `retry_count < MAX_RETRIES - 1`
and is otherwise accepted as-is; more items than expected are accepted
without truncation at batch level. -/
def outlineBatchGo (expected : Nat) (attempts : Nat → ModelAttempt OutlineData) :
    Nat → Nat → Option (List OutlineData)
  | 0, _ => none
  | fuel + 1, retryCount =>
    match attempts retryCount with
    | .parseError => outlineBatchGo expected attempts fuel (retryCount + 1)
    | .items xs =>
      if xs.length < expected ∧ retryCount < MAX_RETRIES - 1 then
        outlineBatchGo expected attempts fuel (retryCount + 1)
      else some xs

/-- One wizard outline batch. -/
def outline_batch (expected : Nat) (attempts : Nat → ModelAttempt OutlineData) :
    Option (List OutlineData) :=
  outlineBatchGo expected attempts MAX_RETRIES 0

/-- The persistence step of the wizard outline stage: only
`outline_data[:chapter_count]` is saved; each saved dict creates one
outline row and one paired draft chapter. -/
def wizardSaveOutlines (projectId : String) (outlineData : List OutlineData)
    (chapterCount : Nat) (newIds : Nat → String × String) :
    List Outline × List Chapter :=
  let rows := (outlineData.take chapterCount).enum.map (fun p =>
    let index : Int := (p.1 : Int) + 1
    let chapterNum := p.2.chapterNumber.getD index
    let title := p.2.title.getD ("第" ++ toString chapterNum ++ "章")
    let body := match p.2.summary with
      | some s => s
      | none => p.2.content.getD ""
    let summaryVal := if p.2.summary.isSome || p.2.content.isSome
      then pyTake body 500 else ""
    (({ id := (newIds p.1).1
        projectId := projectId
        title := title
        content := body
        orderIndex := chapterNum } : Outline),
     ({ id := (newIds p.1).2
        projectId := projectId
        chapterNumber := chapterNum
        title := title
        summary := some summaryVal
        content := none
        wordCount := 0
        status := "draft" } : Chapter)))
  (rows.map (·.1), rows.map (·.2))

/-- `_save_outlines` of `outlines.py` (used by outline continuation): every
parsed dict is saved — there is no count validation or truncation — with
`order_index = chapter_data.get("chapter_number", start_index + idx)` and
the extra `key_events` / `characters_involved` blocks appended. -/
def save_outlines (projectId : String) (outlineData : List OutlineData)
    (startIndex : Int) (newIds : Nat → String × String) :
    List Outline × List Chapter :=
  let rows := outlineData.enum.map (fun p =>
    let orderIdx := p.2.chapterNumber.getD (startIndex + (p.1 : Int))
    let title := p.2.title.getD ("第" ++ toString orderIdx ++ "章")
    let base := if truthyStr p.2.summary then p.2.summary.getD ""
                else p.2.content.getD ""
    let withEvents := match p.2.keyEvents with
      | some evs => base ++ "\n\n关键事件：" ++ String.intercalate "、" evs
      | none => base
    let body := match p.2.charactersInvolved with
      | some cs => withEvents ++ "\n涉及角色：" ++ String.intercalate "、" cs
      | none => withEvents
    (({ id := (newIds p.1).1
        projectId := projectId
        title := title
        content := body
        orderIndex := orderIdx } : Outline),
     ({ id := (newIds p.1).2
        projectId := projectId
        chapterNumber := orderIdx
        title := title
        summary := some (pyTake body 500)
        content := none
        wordCount := 0
        status := "draft" } : Chapter)))
  (rows.map (·.1), rows.map (·.2))

/-! ### C9 — SSE event ordering
(`chapters.py` `generate_chapter_content_stream.event_generator`,
`outlines.py` `new_outline_generator`, `wizard_stream.py`
`world_building_generator`).  The `SSEResponse` helpers live outside
`src/`; each helper frames exactly one event of the named kind (spec §4.5),
so the generators are modelled by the list of event kinds they yield. -/

/-- SSE event kinds (spec §4.5 plus the chapter generator's `start`,
`content` (= chunk) and `analysis_started` kinds). -/
inductive Ev where
  | start | progress | chunk | heartbeat | result | error | done
  | analysisStarted
  deriving Repr, DecidableEq

/-- Possible runs of the chapter generator. -/
inductive ChapterRun where
  | notFound
  | failed (chunksBefore : Nat)
  | completed (nChunks : Nat)
  deriving Repr, DecidableEq

/-- Events emitted by `generate_chapter_content_stream.event_generator`:
`start`, one `content` per streamed chunk, then — after persistence —
`done` followed by `analysis_started`; validation failures yield a bare
`error`, and an exception after `k` chunks yields the prefix plus
`error`. -/
def chapterGenTrace : ChapterRun → List Ev
  | .notFound => [.error]
  | .failed k => .start :: (List.replicate k .chunk ++ [.error])
  | .completed n => .start :: (List.replicate n .chunk ++ [.done, .analysisStarted])

/-- The chunk-loop block of `world_building_generator`: each chunk is
yielded, every 5th chunk adds a progress event, every 20th a heartbeat. -/
def worldChunkBlock (i : Nat) : List Ev :=
  [.chunk] ++ (if (i + 1) % 5 = 0 then [.progress] else []) ++
    (if (i + 1) % 20 = 0 then [.heartbeat] else [])

/-- The events of `world_building_generator` before its `result` event:
three progress events, the chunk loop, then two more progress events. -/
def worldBuildingPre (n : Nat) : List Ev :=
  [.progress, .progress, .progress] ++ (List.range n).flatMap worldChunkBlock ++
    [.progress, .progress]

/-- Successful world-building run: pre-events, `result`, final progress,
`done`. -/
def worldBuildingSuccess (n : Nat) : List Ev :=
  worldBuildingPre n ++ [.result, .progress, .done]

/-- Failed world-building run: the exception interrupts at an await point
before the `result` event; a single `error` is emitted and the generator
ends (missing-parameter validation is the `k = 1` instance). -/
def worldBuildingError (n k : Nat) : List Ev :=
  (worldBuildingPre n).take k ++ [.error]

/-- Successful run of `new_outline_generator`: `m` progress events (their
number depends on the MCP branches), then `result`, a final progress and
`done`. -/
def newOutlineSuccess (m : Nat) : List Ev :=
  List.replicate m .progress ++ [.result, .progress, .done]

/-- Failed run of `new_outline_generator` (including the project-not-found
validation): progress events then a terminal `error`. -/
def newOutlineError (k : Nat) : List Ev :=
  List.replicate k .progress ++ [.error]

/-- The events strictly after the first occurrence of `e`. -/
def eventsAfterFirst (e : Ev) : List Ev → List Ev
  | [] => []
  | x :: xs => if x == e then xs else eventsAfterFirst e xs

/-! ### C10 — cancellation semantics of the streamed generators
(`chapters.py` `event_generator` `GeneratorExit` handler, `outlines.py`
`continue_outline_generator` `GeneratorExit` handler).  A generator is a
list of segments; each segment performs its store actions and then yields
one event.  Closing the stream after `k` emitted events runs exactly the
first `k` segments and then the `GeneratorExit` handler, which rolls the
open transaction back when `db_committed` is still false and emits
nothing. -/

/-- Store actions a segment can perform before yielding. -/
inductive GenAction where
  | stageWrite
  | commitMain
  | stageTask
  | commitTask
  | spawnWorker
  | commitBatch
  deriving Repr, DecidableEq

/-- One segment: actions, then a yield. -/
structure Segment where
  actions : List GenAction
  ev : Ev
  deriving Repr, DecidableEq

/-- Run-time state of a streamed generator and its store session. -/
structure GenState where
  pendingWrites : Nat
  contentCommitted : Bool
  taskCommitted : Bool
  workerSpawned : Bool
  committedBatches : Nat
  dbCommittedFlag : Bool
  emitted : List Ev
  deriving Repr, DecidableEq

/-- The initial state. -/
def initGenState : GenState :=
  { pendingWrites := 0, contentCommitted := false, taskCommitted := false,
    workerSpawned := false, committedBatches := 0, dbCommittedFlag := false,
    emitted := [] }

/-- Effect of one store action. -/
def applyGenAction (s : GenState) : GenAction → GenState
  | .stageWrite => { s with pendingWrites := s.pendingWrites + 1 }
  | .commitMain =>
    { s with pendingWrites := 0, contentCommitted := true, dbCommittedFlag := true }
  | .stageTask => { s with pendingWrites := s.pendingWrites + 1 }
  | .commitTask => { s with pendingWrites := 0, taskCommitted := true }
  | .spawnWorker => { s with workerSpawned := true }
  | .commitBatch =>
    { s with pendingWrites := 0, committedBatches := s.committedBatches + 1 }

/-- Run one segment: perform its actions, then yield its event. -/
def runSegment (s : GenState) (seg : Segment) : GenState :=
  let s1 := seg.actions.foldl applyGenAction s
  { s1 with emitted := s1.emitted ++ [seg.ev] }

/-- The `GeneratorExit` handler shared by the generators: roll back the
open transaction unless `db_committed` was already set; no event is
emitted. -/
def generatorExitHandler (s : GenState) : GenState :=
  if s.dbCommittedFlag then s else { s with pendingWrites := 0 }

/-- Close the stream after `k` emitted events: run the first `k` segments,
then the handler. -/
def runCancelled (segs : List Segment) (k : Nat) : GenState :=
  generatorExitHandler ((segs.take k).foldl runSegment initGenState)

/-- Segment model of the chapter generator with `n` streamed chunks: the
persistence (content commit, analysis-task commit, worker spawn) happens
between the last chunk yield and the `done` yield. -/
def chapterSegments (n : Nat) : List Segment :=
  { actions := [], ev := .start } ::
  (List.replicate n { actions := [], ev := .chunk } ++
   [{ actions := [.stageWrite, .commitMain, .stageTask, .commitTask, .spawnWorker],
      ev := .done },
    { actions := [], ev := .analysisStarted }])

/-- Segment model of `continue_outline_generator` with `b` batches: each
batch stages writes and commits them before yielding its progress event;
`db_committed` is set only after the last batch, so the handler rolls back
exactly the uncommitted tail. -/
def continueSegments (b : Nat) : List Segment :=
  { actions := [], ev := .progress } ::
  ((List.range b).flatMap (fun _ =>
    [{ actions := [], ev := .progress },
     { actions := [.stageWrite, .commitBatch], ev := .progress }]) ++
   [{ actions := [], ev := .result },
    { actions := [], ev := .progress },
    { actions := [], ev := .done }])

/-- Number of committed batches recorded in a list of segments. -/
def commitBatchCount (segs : List Segment) : Nat :=
  (segs.map (fun seg => seg.actions.count GenAction.commitBatch)).sum

/-! ### Concrete stores and inputs used by witnesses and counterexamples -/

/-- A running analysis task started at time 0. -/
def exTaskRunning : AnalysisTask :=
  { id := "task1", chapterId := "c1", status := .running, progress := 50,
    errorMessage := none, createdAt := some 0, startedAt := some 0,
    completedAt := none }

/-- An analysis with no summary, hooks, plot points, states or conflict. -/
def emptyAnalysis : Analysis :=
  { summary := none, hooks := [], foreshadows := [], plotPoints := [],
    characterStates := [], conflict := none }

/-- A 301-character chapter text. -/
def exLongContent : String := String.mk (List.replicate 301 'x')

/-- A one-project, one-chapter store satisfying both word-count
invariants. -/
def exChapterDB : ChapterDB :=
  { projects := [{ id := "p1", currentWords := 2 }]
    chapters := [{ id := "ch1", projectId := "p1", chapterNumber := 1,
                   title := "t", content := some "ab", summary := none,
                   wordCount := 2, status := "draft" }] }

/-- The update request that sets the chapter content to `""`. -/
def exEmptyContentReq : ChapterUpdateReq :=
  { title := none, content := some (some ""), summary := none, status := none }

/-- The update request `{"content": null}`: the key is present with an
explicit null, which `model_dump(exclude_unset=True)` keeps. -/
def exNullContentReq : ChapterUpdateReq :=
  { title := none, content := some none, summary := none, status := none }

/-- The update request that replaces the content with three characters. -/
def exXyzContentReq : ChapterUpdateReq :=
  { title := none, content := some (some "xyz"), summary := none, status := none }

/-- `exChapterDB` after the three-character update. -/
def exChapterDBXyz : ChapterDB :=
  { projects := [{ id := "p1", currentWords := 3 }]
    chapters := [{ id := "ch1", projectId := "p1", chapterNumber := 1,
                   title := "t", content := some "xyz", summary := none,
                   wordCount := 3, status := "draft" }] }

/-- A two-outline store satisfying the pairing and contiguity
invariants. -/
def exStoreDB : StoreDB :=
  { projectIds := ["p1"]
    outlines := [{ id := "o1", projectId := "p1", title := "A",
                   content := "x", orderIndex := 1 },
                 { id := "o2", projectId := "p1", title := "B",
                   content := "y", orderIndex := 2 }]
    chapters := [{ id := "c1", projectId := "p1", chapterNumber := 1,
                   title := "A", content := none, summary := some "x",
                   wordCount := 0, status := "draft" },
                 { id := "c2", projectId := "p1", chapterNumber := 2,
                   title := "B", content := none, summary := some "y",
                   wordCount := 0, status := "draft" }] }

/-- A swap request over the two outlines of the store. -/
def exReorderItems : List ReorderItem :=
  [{ id := "o1", orderIndex := 2 }, { id := "o2", orderIndex := 1 }]

/-- A one-outline store satisfying the invariants. -/
def exStoreOne : StoreDB :=
  { projectIds := ["p1"]
    outlines := [{ id := "o1", projectId := "p1", title := "A",
                   content := "x", orderIndex := 1 }]
    chapters := [{ id := "c1", projectId := "p1", chapterNumber := 1,
                   title := "A", content := none, summary := some "x",
                   wordCount := 0, status := "draft" }] }

/-- A chapter with whitespace-only content (blank prerequisite). -/
def exPrereqC1 : Chapter :=
  { id := "c1", projectId := "p1", chapterNumber := 1, title := "一",
    content := some "  ", summary := none, wordCount := 0, status := "draft" }

/-- The generation target: chapter 2 of the same project. -/
def exPrereqC2 : Chapter :=
  { id := "c2", projectId := "p1", chapterNumber := 2, title := "二",
    content := none, summary := none, wordCount := 0, status := "draft" }

/-- A two-chapter project whose first chapter is blank. -/
def exPrereqChapters : List Chapter := [exPrereqC1, exPrereqC2]

/-- A batch of three valid character dicts. -/
def exCharTriple : List CharData :=
  [{ name := some "甲", isOrganization := false, roleType := none,
     relationshipsArray := none, organizationMemberships := none,
     relationshipsLegacy := none },
   { name := some "乙", isOrganization := false, roleType := none,
     relationshipsArray := none, organizationMemberships := none,
     relationshipsLegacy := none },
   { name := some "丙", isOrganization := false, roleType := none,
     relationshipsArray := none, organizationMemberships := none,
     relationshipsLegacy := none }]

/-! ## Theorems -/

/-! ### Shared list lemmas -/

theorem foldl_append_singleton {α β : Type _} (f : α → β) :
    ∀ (l : List α) (init : List β),
      l.foldl (fun acc x => acc ++ [f x]) init = init ++ l.map f := by
  intro l
  induction l with
  | nil => simp
  | cons x xs ih => intro init; simp [List.foldl_cons, ih]

theorem foldl_ite_append {α β : Type _} (p : α → Prop) [DecidablePred p]
    (f : α → β) :
    ∀ (l : List α) (init : List β),
      l.foldl (fun acc x => if p x then acc ++ [f x] else acc) init =
        init ++ (l.filter fun x => p x).map f := by
  intro l
  induction l with
  | nil => simp
  | cons x xs ih =>
    intro init
    by_cases hx : p x <;> simp [List.foldl_cons, ih, List.filter_cons, hx]

/-! ### C2 — analysis-task auto recovery -/

/-- C2 (corrected): the status query recovers a `running` task exactly when
strictly more than 60 seconds have elapsed since `started_at`, and a
`pending` task exactly when strictly more than 120 seconds have elapsed
since `created_at` (failing it with progress 0, `completed_at = now`,
`auto_recovered = true` and a timeout message); every other query leaves
the task unchanged and reports `auto_recovered = false`. -/
theorem analysis_task_auto_recovery (now : Int) (t : AnalysisTask) :
    get_analysis_task_status now t = autoRecoverSpec now t := by
  unfold get_analysis_task_status autoRecoverSpec timedOutAfter
  cases h : t.status <;> cases hs : t.startedAt <;> cases hc : t.createdAt <;>
    simp [h, hs, hc]

/-- C2 counterexample: at exactly 60 elapsed seconds the claim ("at least
60 seconds") demands a transition to `failed`, but the query leaves the
running task unchanged. -/
theorem analysis_task_auto_recovery_boundary :
    exTaskRunning.status = .running ∧
    exTaskRunning.startedAt = some 0 ∧
    (60 : Int) - 0 ≥ 60 ∧
    (get_analysis_task_status 60 exTaskRunning).1 = exTaskRunning ∧
    (get_analysis_task_status 60 exTaskRunning).2 = false := by
  refine ⟨rfl, rfl, by decide, ?_, ?_⟩ <;> rfl

/-! ### C9 — SSE event ordering -/

/-- C9 counterexample: the chapter generator emits an `analysis_started`
event after its terminal `done` event, so "after a terminal `done` … no
further events of any kind are emitted" fails on the completed chapter
run. -/
theorem chapter_trace_event_after_done :
    eventsAfterFirst .done (chapterGenTrace (.completed 0)) =
      [.analysisStarted] ∧
    eventsAfterFirst .done (chapterGenTrace (.completed 0)) ≠ [] := by
  constructor <;> decide

theorem eventsAfterFirst_of_not_mem {e : Ev} {A : List Ev} (h : e ∉ A) :
    eventsAfterFirst e A = [] := by
  induction A with
  | nil => rfl
  | cons a A ih =>
    simp only [List.mem_cons, not_or] at h
    have ha : a ≠ e := fun hae => h.1 hae.symm
    simpa [eventsAfterFirst, ha] using ih h.2

theorem eventsAfterFirst_append {e : Ev} {A B : List Ev} (h : e ∉ A) :
    eventsAfterFirst e (A ++ B) = eventsAfterFirst e B := by
  induction A with
  | nil => rfl
  | cons a A ih =>
    simp only [List.mem_cons, not_or] at h
    have ha : a ≠ e := fun hae => h.1 hae.symm
    simpa [eventsAfterFirst, ha] using ih h.2

theorem worldChunkBlock_mem {i : Nat} {x : Ev} (hx : x ∈ worldChunkBlock i) :
    x = .chunk ∨ x = .progress ∨ x = .heartbeat := by
  unfold worldChunkBlock at hx
  split_ifs at hx <;> simp at hx <;> tauto

theorem worldBuildingPre_mem {n : Nat} {x : Ev} (hx : x ∈ worldBuildingPre n) :
    x = .progress ∨ x = .chunk ∨ x = .heartbeat := by
  unfold worldBuildingPre at hx
  rcases List.mem_append.1 hx with h | h
  · rcases List.mem_append.1 h with h | h
    · simp at h; tauto
    · rcases List.mem_flatMap.1 h with ⟨i, _, hib⟩
      rcases worldChunkBlock_mem hib with h | h | h <;> tauto
  · simp at h; tauto

/-- C9 (corrected): in every modelled generator run, at most one `result`
event is emitted; when a `result` is emitted it is followed exactly by the
final progress event and the terminal `done`; nothing follows a terminal
`error`; and nothing follows a terminal `done` except that the chapter
generator emits exactly one `analysis_started` event after its `done`. -/
theorem sse_event_ordering :
    (∀ run, (chapterGenTrace run).count .result = 0 ∧
       eventsAfterFirst .error (chapterGenTrace run) = [] ∧
       (eventsAfterFirst .done (chapterGenTrace run) = [] ∨
        eventsAfterFirst .done (chapterGenTrace run) = [.analysisStarted])) ∧
    (∀ n, (worldBuildingSuccess n).count .result = 1 ∧
       eventsAfterFirst .result (worldBuildingSuccess n) = [.progress, .done] ∧
       eventsAfterFirst .done (worldBuildingSuccess n) = [] ∧
       eventsAfterFirst .error (worldBuildingSuccess n) = []) ∧
    (∀ n k, (worldBuildingError n k).count .result = 0 ∧
       eventsAfterFirst .error (worldBuildingError n k) = [] ∧
       eventsAfterFirst .done (worldBuildingError n k) = []) ∧
    (∀ m, (newOutlineSuccess m).count .result = 1 ∧
       eventsAfterFirst .result (newOutlineSuccess m) = [.progress, .done] ∧
       eventsAfterFirst .done (newOutlineSuccess m) = [] ∧
       eventsAfterFirst .error (newOutlineSuccess m) = []) ∧
    (∀ k, (newOutlineError k).count .result = 0 ∧
       eventsAfterFirst .error (newOutlineError k) = [] ∧
       eventsAfterFirst .done (newOutlineError k) = []) := by
  have hchunk : ∀ (j : Nat) (e : Ev), e ≠ .chunk →
      e ∉ List.replicate j Ev.chunk := by
    intro j e he hmem
    exact he (List.eq_of_mem_replicate hmem)
  have hpre : ∀ (n : Nat) (e : Ev),
      e = .result ∨ e = .done ∨ e = .error → e ∉ worldBuildingPre n := by
    intro n e he hmem
    rcases worldBuildingPre_mem hmem with h | h | h <;>
      rcases he with he | he | he <;> simp [he] at h
  have hpretake : ∀ (n k : Nat) (e : Ev),
      e = .result ∨ e = .done ∨ e = .error →
      e ∉ (worldBuildingPre n).take k := by
    intro n k e he hmem
    exact hpre n e he (List.mem_of_mem_take hmem)
  have hprog : ∀ (j : Nat) (e : Ev), e ≠ .progress →
      e ∉ List.replicate j Ev.progress := by
    intro j e he hmem
    exact he (List.eq_of_mem_replicate hmem)
  refine ⟨?_, ?_, ?_, ?_, ?_⟩
  · intro run
    cases run with
    | notFound => refine ⟨by decide, by decide, by decide⟩
    | failed k =>
      have h1 : Ev.result ∉ Ev.start :: (List.replicate k Ev.chunk ++ [Ev.error]) := by
        simp only [List.mem_cons, List.mem_append]
        push_neg
        exact ⟨by decide, hchunk k _ (by decide), by decide⟩
      have h2 : Ev.error ∉ Ev.start :: List.replicate k Ev.chunk := by
        simp only [List.mem_cons]
        push_neg
        exact ⟨by decide, hchunk k _ (by decide)⟩
      have h3 : Ev.done ∉ Ev.start :: (List.replicate k Ev.chunk ++ [Ev.error]) := by
        simp only [List.mem_cons, List.mem_append]
        push_neg
        exact ⟨by decide, hchunk k _ (by decide), by decide⟩
      refine ⟨List.count_eq_zero.2 h1, ?_, Or.inl (eventsAfterFirst_of_not_mem h3)⟩
      have := eventsAfterFirst_append (B := [Ev.error]) h2
      simpa [chapterGenTrace, List.cons_append] using this
    | completed n =>
      have h2 : Ev.done ∉ Ev.start :: List.replicate n Ev.chunk := by
        simp only [List.mem_cons]
        push_neg
        exact ⟨by decide, hchunk n _ (by decide)⟩
      have h1 : Ev.result ∉
          Ev.start :: (List.replicate n Ev.chunk ++ [Ev.done, Ev.analysisStarted]) := by
        simp only [List.mem_cons, List.mem_append]
        push_neg
        exact ⟨by decide, hchunk n _ (by decide), by decide⟩
      have h3 : Ev.error ∉
          Ev.start :: (List.replicate n Ev.chunk ++ [Ev.done, Ev.analysisStarted]) := by
        simp only [List.mem_cons, List.mem_append]
        push_neg
        exact ⟨by decide, hchunk n _ (by decide), by decide⟩
      refine ⟨List.count_eq_zero.2 h1, eventsAfterFirst_of_not_mem h3, Or.inr ?_⟩
      have := eventsAfterFirst_append (B := [Ev.done, Ev.analysisStarted]) h2
      simpa [chapterGenTrace, List.cons_append] using this
  · intro n
    have hres := hpre n .result (by tauto)
    have hdone := hpre n .done (by tauto)
    have herr : Ev.error ∉ worldBuildingSuccess n := by
      intro hmem
      unfold worldBuildingSuccess at hmem
      rcases List.mem_append.1 hmem with h | h
      · exact hpre n .error (by tauto) h
      · simp at h
    refine ⟨?_, ?_, ?_, eventsAfterFirst_of_not_mem herr⟩
    · unfold worldBuildingSuccess
      rw [List.count_append, List.count_eq_zero.2 hres]
      decide
    · unfold worldBuildingSuccess
      rw [eventsAfterFirst_append hres]
      decide
    · have : Ev.done ∉ worldBuildingPre n ++ [Ev.result, Ev.progress] := by
        intro hmem
        rcases List.mem_append.1 hmem with h | h
        · exact hdone h
        · simp at h
      have := eventsAfterFirst_append (B := [Ev.done]) this
      simpa [worldBuildingSuccess, List.append_assoc] using this
  · intro n k
    have hres := hpretake n k .result (by tauto)
    have herr := hpretake n k .error (by tauto)
    have hdone : Ev.done ∉ worldBuildingError n k := by
      intro hmem
      unfold worldBuildingError at hmem
      rcases List.mem_append.1 hmem with h | h
      · exact hpretake n k .done (by tauto) h
      · simp at h
    refine ⟨?_, ?_, eventsAfterFirst_of_not_mem hdone⟩
    · unfold worldBuildingError
      rw [List.count_append, List.count_eq_zero.2 hres]
      decide
    · unfold worldBuildingError
      rw [eventsAfterFirst_append herr]
      decide
  · intro m
    have hres := hprog m .result (by decide)
    have hdone := hprog m .done (by decide)
    have herr : Ev.error ∉ newOutlineSuccess m := by
      intro hmem
      unfold newOutlineSuccess at hmem
      rcases List.mem_append.1 hmem with h | h
      · exact hprog m .error (by decide) h
      · simp at h
    refine ⟨?_, ?_, ?_, eventsAfterFirst_of_not_mem herr⟩
    · unfold newOutlineSuccess
      rw [List.count_append, List.count_eq_zero.2 hres]
      decide
    · unfold newOutlineSuccess
      rw [eventsAfterFirst_append hres]
      decide
    · have hd2 : Ev.done ∉ List.replicate m Ev.progress ++ [Ev.result, Ev.progress] := by
        intro hmem
        rcases List.mem_append.1 hmem with h | h
        · exact hdone h
        · simp at h
      have := eventsAfterFirst_append (B := [Ev.done]) hd2
      simpa [newOutlineSuccess, List.append_assoc] using this
  · intro k
    have hres := hprog k .result (by decide)
    have herr := hprog k .error (by decide)
    have hdone : Ev.done ∉ newOutlineError k := by
      intro hmem
      unfold newOutlineError at hmem
      rcases List.mem_append.1 hmem with h | h
      · exact hprog k .done (by decide) h
      · simp at h
    refine ⟨?_, ?_, eventsAfterFirst_of_not_mem hdone⟩
    · unfold newOutlineError
      rw [List.count_append, List.count_eq_zero.2 hres]
      decide
    · unfold newOutlineError
      rw [eventsAfterFirst_append herr]
      decide

/-! ### C10 — cancellation commits no further state -/

theorem applyGenAction_emitted (s : GenState) (a : GenAction) :
    (applyGenAction s a).emitted = s.emitted := by
  cases a <;> rfl

theorem foldl_applyGenAction_emitted (acts : List GenAction) :
    ∀ s : GenState, (acts.foldl applyGenAction s).emitted = s.emitted := by
  induction acts with
  | nil => intro s; rfl
  | cons a acts ih => intro s; rw [List.foldl_cons, ih, applyGenAction_emitted]

theorem runSegment_emitted (s : GenState) (seg : Segment) :
    (runSegment s seg).emitted = s.emitted ++ [seg.ev] := by
  simp [runSegment, foldl_applyGenAction_emitted]

theorem runSegments_emitted (segs : List Segment) :
    ∀ s : GenState,
      (segs.foldl runSegment s).emitted = s.emitted ++ segs.map (·.ev) := by
  induction segs with
  | nil => intro s; simp
  | cons seg segs ih =>
    intro s
    rw [List.foldl_cons, ih, runSegment_emitted]
    simp

theorem applyGenAction_commitBatches (s : GenState) (a : GenAction) :
    (applyGenAction s a).committedBatches =
      s.committedBatches + (if a = GenAction.commitBatch then 1 else 0) := by
  cases a <;> simp [applyGenAction]

theorem foldl_applyGenAction_commitBatches (acts : List GenAction) :
    ∀ s : GenState,
      (acts.foldl applyGenAction s).committedBatches =
        s.committedBatches + acts.count GenAction.commitBatch := by
  induction acts with
  | nil => intro s; simp
  | cons a acts ih =>
    intro s
    rw [List.foldl_cons, ih, applyGenAction_commitBatches, List.count_cons]
    by_cases ha : a = GenAction.commitBatch <;> (simp [ha]; try omega)

theorem runSegments_commitBatches (segs : List Segment) :
    ∀ s : GenState,
      (segs.foldl runSegment s).committedBatches =
        s.committedBatches + commitBatchCount segs := by
  induction segs with
  | nil => intro s; simp [commitBatchCount]
  | cons seg segs ih =>
    intro s
    rw [List.foldl_cons, ih]
    show (runSegment s seg).committedBatches + _ = _
    unfold runSegment
    rw [foldl_applyGenAction_commitBatches]
    simp [commitBatchCount]
    omega

theorem chapterSegments_flush {n : Nat} {seg : Segment}
    (h : seg ∈ chapterSegments n) :
    ∀ s : GenState, s.pendingWrites = 0 → (runSegment s seg).pendingWrites = 0 := by
  intro s hs
  unfold chapterSegments at h
  rcases List.mem_cons.1 h with h | h
  · subst h; simpa [runSegment] using hs
  · rcases List.mem_append.1 h with h | h
    · have := List.eq_of_mem_replicate h
      subst this; simpa [runSegment] using hs
    · rcases List.mem_cons.1 h with h | h
      · subst h; simp [runSegment, applyGenAction]
      · rcases List.mem_cons.1 h with h | h
        · subst h; simpa [runSegment] using hs
        · simp at h

theorem continueSegments_flush {b : Nat} {seg : Segment}
    (h : seg ∈ continueSegments b) :
    ∀ s : GenState, s.pendingWrites = 0 → (runSegment s seg).pendingWrites = 0 := by
  intro s hs
  unfold continueSegments at h
  rcases List.mem_cons.1 h with h | h
  · subst h; simpa [runSegment] using hs
  · rcases List.mem_append.1 h with h | h
    · rcases List.mem_flatMap.1 h with ⟨i, _, hib⟩
      rcases List.mem_cons.1 hib with h | h
      · subst h; simpa [runSegment] using hs
      · rcases List.mem_cons.1 h with h | h
        · subst h; simp [runSegment, applyGenAction]
        · simp at h
    · rcases List.mem_cons.1 h with h | h
      · subst h; simpa [runSegment] using hs
      · rcases List.mem_cons.1 h with h | h
        · subst h; simpa [runSegment] using hs
        · rcases List.mem_cons.1 h with h | h
          · subst h; simpa [runSegment] using hs
          · simp at h

theorem foldl_pending_zero {segs : List Segment}
    (hde : ∀ seg ∈ segs, ∀ s : GenState, s.pendingWrites = 0 →
      (runSegment s seg).pendingWrites = 0) :
    ∀ s : GenState, s.pendingWrites = 0 →
      (segs.foldl runSegment s).pendingWrites = 0 := by
  induction segs with
  | nil => intro s hs; exact hs
  | cons seg segs ih =>
    intro s hs
    rw [List.foldl_cons]
    exact ih (fun g hg => hde g (List.mem_cons_of_mem _ hg))
      _ (hde seg (List.mem_cons_self _ _) s hs)

/-- Segments without store actions leave all store fields untouched. -/
theorem runSegment_pure {seg : Segment} (h : seg.actions = [])
    (s : GenState) :
    (runSegment s seg) = { s with emitted := s.emitted ++ [seg.ev] } := by
  unfold runSegment
  rw [h]
  rfl

theorem foldl_pure_segments {segs : List Segment}
    (h : ∀ seg ∈ segs, seg.actions = []) :
    ∀ s : GenState,
      segs.foldl runSegment s = { s with emitted := s.emitted ++ segs.map (·.ev) } := by
  induction segs with
  | nil => intro s; simp
  | cons seg segs ih =>
    intro s
    rw [List.foldl_cons, runSegment_pure (h seg (List.mem_cons_self _ _)),
      ih (fun g hg => h g (List.mem_cons_of_mem _ hg))]
    simp

theorem take_chapterSegments_pure {n k : Nat} (hk : k < n + 2) :
    ∀ seg ∈ (chapterSegments n).take k, seg.actions = [] := by
  intro seg hmem
  have hsub : (chapterSegments n).take k =
      (({ actions := [], ev := .start } :: List.replicate n { actions := [], ev := .chunk } :
        List Segment)).take k := by
    unfold chapterSegments
    rw [← List.cons_append, List.take_append_of_le_length]
    simp
    omega
  rw [hsub] at hmem
  have hmem2 := List.mem_of_mem_take hmem
  rcases List.mem_cons.1 hmem2 with h | h
  · subst h; rfl
  · have := List.eq_of_mem_replicate h
    subst this; rfl

/-- C10 (confirmed): closing the stream after `k` events runs no further
code: the handler rolls back whatever is uncommitted (no pending writes
survive), the emitted events are exactly the first `k`, a chapter
generation cancelled before its `done` event has committed nothing —
in particular no analysis task exists and no worker was spawned — and the
continuation generator's committed state is exactly the batches whose
commits had already executed. -/
theorem sse_cancellation_rolls_back (n b k : Nat) :
    (runCancelled (chapterSegments n) k).pendingWrites = 0 ∧
    (runCancelled (chapterSegments n) k).emitted =
      ((chapterSegments n).map (·.ev)).take k ∧
    (k < n + 2 →
      (runCancelled (chapterSegments n) k).contentCommitted = false ∧
      (runCancelled (chapterSegments n) k).taskCommitted = false ∧
      (runCancelled (chapterSegments n) k).workerSpawned = false) ∧
    (runCancelled (continueSegments b) k).pendingWrites = 0 ∧
    (runCancelled (continueSegments b) k).emitted =
      ((continueSegments b).map (·.ev)).take k ∧
    (runCancelled (continueSegments b) k).committedBatches =
      commitBatchCount ((continueSegments b).take k) := by
  have hhandler_pending : ∀ s : GenState, s.pendingWrites = 0 →
      (generatorExitHandler s).pendingWrites = 0 := by
    intro s hs
    unfold generatorExitHandler
    split <;> simp [hs]
  have hhandler_emitted : ∀ s : GenState,
      (generatorExitHandler s).emitted = s.emitted := by
    intro s; unfold generatorExitHandler; split <;> rfl
  have hhandler_cb : ∀ s : GenState,
      (generatorExitHandler s).committedBatches = s.committedBatches := by
    intro s; unfold generatorExitHandler; split <;> rfl
  refine ⟨?_, ?_, ?_, ?_, ?_, ?_⟩
  · exact hhandler_pending _ (foldl_pending_zero
      (fun seg hseg => chapterSegments_flush (List.mem_of_mem_take hseg)) _ rfl)
  · rw [runCancelled, hhandler_emitted, runSegments_emitted, List.map_take]
    rfl
  · intro hk
    have := foldl_pure_segments (take_chapterSegments_pure hk) initGenState
    unfold runCancelled
    rw [this]
    unfold generatorExitHandler
    split <;> exact ⟨rfl, rfl, rfl⟩
  · exact hhandler_pending _ (foldl_pending_zero
      (fun seg hseg => continueSegments_flush (List.mem_of_mem_take hseg)) _ rfl)
  · rw [runCancelled, hhandler_emitted, runSegments_emitted, List.map_take]
    rfl
  · rw [runCancelled, hhandler_cb, runSegments_commitBatches]
    show 0 + _ = _
    rw [Nat.zero_add]

/-! ### C1 — prerequisite check -/

/-- C1 (confirmed): on a store whose chapter numbers start at 1, the
generate-stream request on chapter `c` is rejected before any streaming
begins — with status 400 and exactly the message
`需要先完成前置章节：第 n1, n2, … 章` over the ascending incomplete prior
chapter numbers — if and only if `c.chapter_number > 1` and some chapter
of the same project with a smaller number has empty or whitespace-only
content; for `chapter_number = 1` the check always passes. -/
theorem prerequisite_rejection (chapters : List Chapter) (cid : String)
    (c : Chapter)
    (hfind : chapters.find? (fun ch => ch.id = cid) = some c)
    (hpos : ∀ ch ∈ chapters, 1 ≤ ch.chapterNumber) :
    (generateStreamPrecheck chapters cid =
        .httpError 400 (prerequisiteErrorMsg (incompletePriorNumbers chapters c)) ↔
      1 < c.chapterNumber ∧ ∃ ch ∈ chapters, ch.projectId = c.projectId ∧
        ch.chapterNumber < c.chapterNumber ∧ chapterContentBlank ch = true) ∧
    (c.chapterNumber = 1 → generateStreamPrecheck chapters cid = .ok []) ∧
    (incompletePriorNumbers chapters c).Sorted (· ≤ ·) ∧
    (incompletePriorNumbers chapters c).Perm
      ((chapters.filter (fun ch => chapterContentBlank ch &&
          (ch.projectId = c.projectId && ch.chapterNumber < c.chapterNumber))).map
        (·.chapterNumber)) := by
  haveI instTot : IsTotal Chapter (fun a b => a.chapterNumber ≤ b.chapterNumber) :=
    ⟨fun a b => Int.le_total _ _⟩
  haveI instTrans : IsTrans Chapter (fun a b => a.chapterNumber ≤ b.chapterNumber) :=
    ⟨fun _ _ _ hab hbc => le_trans hab hbc⟩
  have hmemc : c ∈ chapters := List.mem_of_find?_eq_some hfind
  have hprev_mem : ∀ ch : Chapter, ch ∈ previousChaptersOf chapters c ↔
      (ch ∈ chapters ∧ (ch.projectId = c.projectId ∧
        ch.chapterNumber < c.chapterNumber)) := by
    intro ch
    unfold previousChaptersOf
    rw [List.mem_insertionSort, List.mem_filter]
    simp
  have hsorted : (incompletePriorNumbers chapters c).Sorted (· ≤ ·) := by
    unfold incompletePriorNumbers previousChaptersOf
    have hs := List.sorted_insertionSort
      (fun a b : Chapter => a.chapterNumber ≤ b.chapterNumber)
      (chapters.filter fun ch =>
        ch.projectId = c.projectId && ch.chapterNumber < c.chapterNumber)
    exact List.pairwise_map.2 ((hs.filter chapterContentBlank).imp (fun h => h))
  have hperm : (incompletePriorNumbers chapters c).Perm
      ((chapters.filter (fun ch => chapterContentBlank ch &&
          (ch.projectId = c.projectId && ch.chapterNumber < c.chapterNumber))).map
        (·.chapterNumber)) := by
    unfold incompletePriorNumbers previousChaptersOf
    refine List.Perm.map _ ?_
    have hp := (List.perm_insertionSort
      (fun a b : Chapter => a.chapterNumber ≤ b.chapterNumber)
      (chapters.filter fun ch =>
        ch.projectId = c.projectId && ch.chapterNumber < c.chapterNumber)).filter
      chapterContentBlank
    rw [List.filter_filter] at hp
    exact hp
  have hpre : generateStreamPrecheck chapters cid =
      (match check_prerequisites chapters c with
       | (true, _, previous) => .ok previous
       | (false, msg, _) => .httpError 400 msg) := by
    unfold generateStreamPrecheck
    rw [hfind]
  refine ⟨?_, ?_, hsorted, hperm⟩
  · by_cases h1 : c.chapterNumber = 1
    · have hcp : check_prerequisites chapters c = (true, "", []) := by
        unfold check_prerequisites
        rw [if_pos h1]
      rw [hpre, hcp]
      constructor
      · intro h; cases h
      · rintro ⟨hlt, -⟩
        exact absurd h1 (by omega)
    · have h1lt : 1 < c.chapterNumber := lt_of_le_of_ne (hpos c hmemc) (Ne.symm h1)
      by_cases hemp :
          ((previousChaptersOf chapters c).filter chapterContentBlank).isEmpty
      · have hcp : check_prerequisites chapters c =
            (true, "", previousChaptersOf chapters c) := by
          unfold check_prerequisites
          rw [if_neg h1, if_pos hemp]
        rw [hpre, hcp]
        constructor
        · intro h; cases h
        · rintro ⟨-, ch, hch, hproj, hlt, hblank⟩
          have hmemf : ch ∈ (previousChaptersOf chapters c).filter chapterContentBlank :=
            List.mem_filter.2 ⟨(hprev_mem ch).2 ⟨hch, hproj, hlt⟩, hblank⟩
          rw [List.isEmpty_iff] at hemp
          simp [hemp] at hmemf
      · have hcp : check_prerequisites chapters c =
            (false, prerequisiteErrorMsg (incompletePriorNumbers chapters c),
              previousChaptersOf chapters c) := by
          unfold check_prerequisites
          rw [if_neg h1, if_neg hemp]
          rfl
        rw [hpre, hcp]
        constructor
        · intro _
          refine ⟨h1lt, ?_⟩
          have hne : ((previousChaptersOf chapters c).filter chapterContentBlank) ≠ [] := by
            intro hx
            rw [hx] at hemp
            simp at hemp
          obtain ⟨ch, hch⟩ := List.exists_mem_of_ne_nil _ hne
          have hm := List.mem_filter.1 hch
          exact ⟨ch, ((hprev_mem ch).1 hm.1).1,
            ((hprev_mem ch).1 hm.1).2.1, ((hprev_mem ch).1 hm.1).2.2, hm.2⟩
        · intro _
          rfl
  · intro h1
    have hcp : check_prerequisites chapters c = (true, "", []) := by
      unfold check_prerequisites
      rw [if_pos h1]
    rw [hpre, hcp]

/-! ### C3 — memory extraction -/

/-- C3 (corrected): the extractor output is exactly the summary fragment
(importance 0.6; content = `analysis.summary` when truthy, else the join of
the first three plot-point contents when `plot_points` is non-empty, else
the first 300 characters of the chapter text with `"..."` appended when
longer; no fragment when that text is empty), one `hook` fragment per hook
with strength ≥ 6 (importance `min (strength/10) 1`), one `foreshadow`
fragment per foreshadow (planted/resolved by its `type`), one `plot_point`
fragment per plot point with importance ≥ 0.6, one `character_event`
fragment per character state naming that character, and one synthetic
`plot_point` fragment exactly when the conflict level is ≥ 7 — in that
order and nothing else. -/
theorem extract_memories_characterisation (a : Analysis) (cid : String)
    (n : Int) (content title : String) :
    extract_memories_from_analysis a cid n content title =
      extractMemoriesSpec a cid n content title := by
  unfold extract_memories_from_analysis extractMemoriesSpec
  simp only [foldl_ite_append, foldl_append_singleton]
  cases a.conflict with
  | none => simp
  | some cf =>
    by_cases hc : cf.level.getD 0 ≥ 7 <;> simp [hc]

/-- C3 counterexample: with no summary and no plot points and a
301-character chapter text, the emitted `chapter_summary` content is the
first 300 characters *plus* `"..."`, not the first 300 characters as the
claim states. -/
theorem extract_memories_ellipsis_counterexample :
    (extract_memories_from_analysis emptyAnalysis "c1" 1 exLongContent "t").map
        (·.content) = [pyTake exLongContent 300 ++ "..."] ∧
    pyTake exLongContent 300 ++ "..." ≠ pyTake exLongContent 300 := by
  have hdata : exLongContent.data = List.replicate 301 'x' := rfl
  have hlen : pyLen exLongContent = 301 := by
    unfold pyLen
    rw [hdata, List.length_replicate]
  have hne : exLongContent ≠ "" := by
    intro h
    have h2 : List.replicate 301 'x' = ([] : List Char) := by
      have h3 := congrArg String.data h
      rw [hdata] at h3
      exact h3
    have h4 := congrArg List.length h2
    rw [List.length_replicate] at h4
    exact absurd h4 (by decide)
  have htakedata : (pyTake exLongContent 300).data = List.replicate 300 'x' := by
    show (exLongContent.data.take 300) = _
    rw [hdata, List.take_replicate]
    norm_num
  have hlenTake : pyLen (pyTake exLongContent 300) = 300 := by
    unfold pyLen
    rw [htakedata, List.length_replicate]
  have hlenApp : pyLen (pyTake exLongContent 300 ++ "...") = 303 := by
    unfold pyLen
    rw [String.data_append, List.length_append, htakedata,
      List.length_replicate]
    decide
  have hneApp : pyTake exLongContent 300 ++ "..." ≠ "" := by
    intro h
    have h2 := congrArg pyLen h
    rw [hlenApp] at h2
    exact absurd h2 (by decide)
  have hcs : chapterSummaryText emptyAnalysis exLongContent =
      pyTake exLongContent 300 ++ "..." := by
    unfold chapterSummaryText emptyAnalysis
    simp only [truthyStr, Bool.false_eq_true, if_false, List.isEmpty_nil,
      Bool.not_true]
    rw [if_pos hne, hlen, if_pos (by decide)]
  constructor
  · rw [extract_memories_characterisation]
    have hspec : extractMemoriesSpec emptyAnalysis "c1" 1 exLongContent "t" =
        summaryFragments emptyAnalysis "c1" 1 exLongContent "t" := by
      unfold extractMemoriesSpec emptyAnalysis
      simp
    rw [hspec]
    unfold summaryFragments
    rw [hcs, if_pos hneApp]
    rfl
  · intro h
    have h2 := congrArg pyLen h
    rw [hlenApp, hlenTake] at h2
    exact absurd h2 (by decide)

/-! ### C8 — batch validation, truncation and fence stripping -/

theorem leadsList_append_self (pat : List Char) :
    ∀ rest : List Char, leadsList pat (pat ++ rest) = true := by
  induction pat with
  | nil => intro rest; rfl
  | cons a p ih => intro rest; simpa [leadsList] using ih rest

theorem isNlCr_pyIsSpace {c : Char} (h : isNlCr c = true) :
    pyIsSpace c = true := by
  unfold isNlCr at h
  rw [Bool.or_eq_true] at h
  rcases h with h | h <;>
    · rw [beq_iff_eq] at h
      subst h
      decide

theorem pyStripList_dropWhile {l : List Char} (h : pyStripList l = l) :
    l.dropWhile pyIsSpace = l := by
  have h1 : (pyStripList l).length ≤ (l.dropWhile pyIsSpace).length := by
    unfold pyStripList
    rw [List.length_reverse]
    calc ((l.dropWhile pyIsSpace).reverse.dropWhile pyIsSpace).length
        ≤ (l.dropWhile pyIsSpace).reverse.length :=
          (List.dropWhile_sublist pyIsSpace).length_le
      _ = (l.dropWhile pyIsSpace).length := List.length_reverse _
  rw [h] at h1
  exact (List.dropWhile_sublist pyIsSpace).eq_of_length
    (le_antisymm (List.dropWhile_sublist pyIsSpace).length_le h1)

theorem dropWhile_fix_of_imp {p q : Char → Bool}
    (hpq : ∀ c, q c = true → p c = true) {l : List Char}
    (h : l.dropWhile p = l) : l.dropWhile q = l := by
  cases l with
  | nil => rfl
  | cons c r =>
    have hc : p c = false := by
      by_contra hx
      rw [Bool.not_eq_false] at hx
      rw [List.dropWhile_cons, if_pos hx] at h
      have hlen := congrArg List.length h
      have hle := (List.dropWhile_sublist (l := r) p).length_le
      simp at hlen
      omega
    have hqc : q c = false := by
      by_contra hx
      rw [Bool.not_eq_false] at hx
      rw [hpq c hx] at hc
      cases hc
    rw [List.dropWhile_cons, if_neg (by simp [hqc])]

theorem pyStripList_head {b : Char} {t : List Char}
    (h : pyStripList (b :: t) = b :: t) : pyIsSpace b = false := by
  have hd := pyStripList_dropWhile h
  by_contra hb
  rw [Bool.not_eq_false] at hb
  rw [List.dropWhile_cons, if_pos hb] at hd
  have hlen := congrArg List.length hd
  have hle := (List.dropWhile_sublist (l := t) pyIsSpace).length_le
  simp at hlen
  omega

theorem pyStripList_reverse_fix {l : List Char} (h : pyStripList l = l) :
    l.reverse.dropWhile pyIsSpace = l.reverse := by
  have hd := pyStripList_dropWhile h
  have h2 : pyStripList l = (l.reverse.dropWhile pyIsSpace).reverse := by
    unfold pyStripList
    rw [hd]
  rw [h] at h2
  have h3 := congrArg List.reverse h2
  rw [List.reverse_reverse] at h3
  exact h3.symm

theorem pyStripList_fixed_of {l : List Char}
    (h1 : ∀ a, l.head? = some a → pyIsSpace a = false)
    (h2 : ∀ a, l.reverse.head? = some a → pyIsSpace a = false) :
    pyStripList l = l := by
  cases l with
  | nil => rfl
  | cons b t =>
    unfold pyStripList
    rw [List.dropWhile_cons, if_neg (by simp [h1 b rfl])]
    cases hr : (b :: t).reverse with
    | nil => simp at hr
    | cons c r =>
      have hc := h2 c (by rw [hr]; rfl)
      rw [List.dropWhile_cons]
      rw [if_neg (by simp [hc])]
      rw [← hr]
      exact List.reverse_reverse _

theorem fenceOpenJson_cons :
    fenceOpenJson = btick :: "``json\n".data := by decide

theorem fenceOpenJson_split :
    fenceOpenJson = "```json".data ++ ['\n'] := by decide

theorem fenceClose_reverse :
    fenceClose.reverse = "```".data ++ ['\n'] := by decide

theorem tdata_not_leads_nl (rest : List Char) :
    leadsList ("```".data) ('\n' :: rest) = false := by
  rw [show "```".data = btick :: btick :: btick :: [] from by decide]
  show (btick == '\n' && leadsList (btick :: btick :: []) rest) = false
  rw [show (btick == '\n') = false from by decide, Bool.false_and]

theorem full_strip_fixed (body : List Char) :
    pyStripList (fenceOpenJson ++ body ++ fenceClose) =
      fenceOpenJson ++ body ++ fenceClose := by
  apply pyStripList_fixed_of
  · intro a ha
    rw [fenceOpenJson_cons] at ha
    simp at ha
    subst ha
    decide
  · intro a ha
    rw [List.reverse_append, fenceClose_reverse,
      show ("```".data ++ ['\n'] : List Char) =
        btick :: btick :: btick :: '\n' :: [] from by decide] at ha
    simp at ha
    subst ha
    decide

theorem full_as_json_start (body : List Char) :
    fenceOpenJson ++ body ++ fenceClose =
      "```json".data ++ ('\n' :: (body ++ fenceClose)) := by
  rw [fenceOpenJson_split]
  simp

theorem full_drop7 (body : List Char) :
    (fenceOpenJson ++ body ++ fenceClose).drop 7 =
      '\n' :: (body ++ fenceClose) := by
  rw [full_as_json_start]
  rw [show (7 : Nat) = ("```json".data).length from rfl, List.drop_left]

theorem full_starts_json (body : List Char) :
    startsWithList ("```json".data) (fenceOpenJson ++ body ++ fenceClose) = true := by
  rw [full_as_json_start]
  exact leadsList_append_self _ _

theorem body_append_close_ends (body : List Char) :
    endsWithList ("```".data) (body ++ fenceClose) = true := by
  unfold endsWithList
  rw [List.reverse_append, fenceClose_reverse, List.append_assoc]
  exact leadsList_append_self _ _

theorem body_append_close_take (body : List Char) :
    (body ++ fenceClose).take ((body ++ fenceClose).length - 3) =
      body ++ ['\n'] := by
  have hlen : (body ++ fenceClose).length = body.length + 4 := by
    simp [fenceClose]
  rw [hlen, show body.length + 4 - 3 = body.length + 1 from by omega,
    List.take_append]
  rfl

theorem fence_strip_wizard {body : List Char}
    (hb : pyStripList body = body) :
    cleanMarkdownList (fenceOpenJson ++ body ++ fenceClose) = body := by
  unfold cleanMarkdownList
  rw [full_strip_fixed]
  have hhead : stripFenceHead (fenceOpenJson ++ body ++ fenceClose) =
      (body ++ fenceClose).dropWhile isNlCr := by
    unfold stripFenceHead
    rw [if_pos (full_starts_json body), full_drop7,
      List.dropWhile_cons, if_pos (by decide)]
  rw [hhead]
  cases body with
  | nil => decide
  | cons b t =>
    have hbhead : pyIsSpace b = false := pyStripList_head hb
    have hbnl : isNlCr b = false := by
      by_contra hx
      rw [Bool.not_eq_false] at hx
      rw [isNlCr_pyIsSpace hx] at hbhead
      cases hbhead
    rw [List.cons_append, List.dropWhile_cons, if_neg (by simp [hbnl]),
      ← List.cons_append]
    have htail : stripFenceTail ((b :: t) ++ fenceClose) = b :: t := by
      unfold stripFenceTail
      rw [if_pos (body_append_close_ends (b :: t)), body_append_close_take,
        List.reverse_append]
      show (List.dropWhile isNlCr ('\n' :: (b :: t).reverse)).reverse = b :: t
      rw [List.dropWhile_cons, if_pos (by decide),
        dropWhile_fix_of_imp (fun c hc => isNlCr_pyIsSpace hc)
          (pyStripList_reverse_fix hb),
        List.reverse_reverse]
    rw [htail]
    exact hb

theorem fence_strip_outline {body : List Char}
    (hb : pyStripList body = body) :
    cleanFencesOutlineList (fenceOpenJson ++ body ++ fenceClose) = body := by
  unfold cleanFencesOutlineList
  rw [full_strip_fixed]
  have h1 : dropFenceJson (fenceOpenJson ++ body ++ fenceClose) =
      '\n' :: (body ++ fenceClose) := by
    unfold dropFenceJson
    rw [if_pos (full_starts_json body), full_drop7]
  rw [h1]
  have h2 : dropFence3 ('\n' :: (body ++ fenceClose)) =
      '\n' :: (body ++ fenceClose) := by
    unfold dropFence3
    rw [if_neg (by simp [show startsWithList ("```".data)
      ('\n' :: (body ++ fenceClose)) = false from tdata_not_leads_nl _])]
  rw [h2]
  have h3 : dropFenceEnd ('\n' :: (body ++ fenceClose)) =
      '\n' :: (body ++ ['\n']) := by
    unfold dropFenceEnd
    have hend : endsWithList ("```".data) ('\n' :: (body ++ fenceClose)) = true := by
      unfold endsWithList
      rw [show ("```".data).reverse = "```".data from by decide,
        List.reverse_cons, List.reverse_append, fenceClose_reverse]
      rw [show (("```".data ++ ['\n']) ++ body.reverse) ++ ['\n'] =
          "```".data ++ ('\n' :: (body.reverse ++ ['\n'])) from by simp]
      exact leadsList_append_self _ _
    rw [if_pos hend]
    have hlen : ('\n' :: (body ++ fenceClose)).length = body.length + 5 := by
      simp [fenceClose]
    rw [hlen, show body.length + 5 - 3 = body.length + 1 + 1 from by omega]
    rw [List.take_succ_cons]
    congr 1
    rw [List.take_append]
    rfl
  rw [h3]
  cases body with
  | nil => decide
  | cons b t =>
    have hbhead : pyIsSpace b = false := pyStripList_head hb
    unfold pyStripList
    rw [List.dropWhile_cons, if_pos (by decide), List.cons_append,
      List.dropWhile_cons, if_neg (by simp [hbhead]), ← List.cons_append,
      List.reverse_append]
    show (List.dropWhile pyIsSpace ('\n' :: (b :: t).reverse)).reverse = b :: t
    rw [List.dropWhile_cons, if_pos (by decide),
      pyStripList_reverse_fix hb, List.reverse_reverse]


theorem charactersBatchGo_success_length (requested : Nat)
    (attempts : Nat → ModelAttempt CharData) :
    ∀ (fuel retryCount : Nat) (xs : List CharData),
      charactersBatchGo requested attempts fuel retryCount = .success xs →
      xs.length = requested := by
  intro fuel
  induction fuel with
  | zero =>
    intro rc xs h
    simp [charactersBatchGo] at h
  | succ fuel ih =>
    intro rc xs h
    rw [charactersBatchGo] at h
    cases hatt : attempts rc with
    | parseError =>
      rw [hatt] at h
      exact ih _ _ h
    | items ys =>
      rw [hatt] at h
      simp only at h
      by_cases hcnt : ys.length ≠ requested
      · rw [if_pos hcnt] at h
        by_cases hrc : rc < MAX_RETRIES - 1
        · rw [if_pos hrc] at h
          exact ih _ _ h
        · rw [if_neg hrc] at h
          cases h
      · rw [if_neg hcnt] at h
        cases h
        exact not_not.mp hcnt

theorem charactersBatchGo_congr (requested : Nat)
    (a1 a2 : Nat → ModelAttempt CharData) :
    ∀ (fuel retryCount : Nat),
      (∀ i, i < retryCount + fuel → a1 i = a2 i) →
      charactersBatchGo requested a1 fuel retryCount =
        charactersBatchGo requested a2 fuel retryCount := by
  intro fuel
  induction fuel with
  | zero => intro rc h; rfl
  | succ fuel ih =>
    intro rc h
    rw [charactersBatchGo, charactersBatchGo, ← h rc (by omega)]
    cases a1 rc with
    | parseError =>
      exact ih (rc + 1) (fun i hi => h i (by omega))
    | items ys =>
      simp only
      by_cases hcnt : ys.length ≠ requested
      · rw [if_pos hcnt, if_pos hcnt]
        by_cases hrc : rc < MAX_RETRIES - 1
        · rw [if_pos hrc, if_pos hrc]
          exact ih (rc + 1) (fun i hi => h i (by omega))
        · rw [if_neg hrc, if_neg hrc]
      · rw [if_neg hcnt, if_neg hcnt]

/-- C8 (corrected): the three batched-generation paths behave differently.
A wizard character batch never truncates: it succeeds only with an exact
item count, and the outcome is decided by at most `MAX_RETRIES = 3` model
attempts.  The wizard outline stage truncates the aggregated result to the
requested chapter count at persistence time.  Outline continuation saves
however many items the model returned, with no count validation.  Markdown
JSON fences around the model output are stripped before parsing in both
the wizard cleanup and `_parse_ai_response`. -/
theorem batch_validation_and_fences :
    (∀ (requested : Nat) (attempts : Nat → ModelAttempt CharData)
        (xs : List CharData),
      characters_batch requested attempts = .success xs →
        xs.length = requested) ∧
    (∀ (requested : Nat) (a1 a2 : Nat → ModelAttempt CharData),
      (∀ i, i < MAX_RETRIES → a1 i = a2 i) →
        characters_batch requested a1 = characters_batch requested a2) ∧
    (∀ (pid : String) (items : List OutlineData) (cnt : Nat)
        (ids : Nat → String × String),
      (wizardSaveOutlines pid items cnt ids).1.length = min cnt items.length ∧
      (wizardSaveOutlines pid items cnt ids).2.length = min cnt items.length) ∧
    (∀ (pid : String) (items : List OutlineData) (start : Int)
        (ids : Nat → String × String),
      (save_outlines pid items start ids).1.length = items.length ∧
      (save_outlines pid items start ids).2.length = items.length) ∧
    (∀ s : String, pyStrip s = s →
      cleanMarkdownWizard ("```json\n" ++ s ++ "\n```") = s ∧
      cleanFencesOutline ("```json\n" ++ s ++ "\n```") = s) := by
  refine ⟨?_, ?_, ?_, ?_, ?_⟩
  · intro requested attempts xs h
    exact charactersBatchGo_success_length requested attempts MAX_RETRIES 0 xs h
  · intro requested a1 a2 h
    exact charactersBatchGo_congr requested a1 a2 MAX_RETRIES 0
      (fun i hi => h i (by omega))
  · intro pid items cnt ids
    constructor <;>
      simp [wizardSaveOutlines, List.length_take, Nat.min_comm]
  · intro pid items start ids
    constructor <;> simp [save_outlines]
  · intro s hs
    have hdata : ("```json\n" ++ s ++ "\n```").data =
        fenceOpenJson ++ s.data ++ fenceClose := by
      rw [String.data_append, String.data_append]
      rfl
    have hsl : pyStripList s.data = s.data := by
      have := congrArg String.data hs
      exact this
    constructor
    · unfold cleanMarkdownWizard
      rw [hdata, fence_strip_wizard hsl]
    · unfold cleanFencesOutline
      rw [hdata, fence_strip_outline hsl]

/-- C8 counterexample: a character batch for which the model returns four
items when three were requested is failed (after the retries), not
truncated to the first three and persisted. -/
theorem characters_batch_overcount_not_truncated :
    characters_batch 3 (fun _ => .items
      [{ name := some "A", isOrganization := false, roleType := none,
         relationshipsArray := none, organizationMemberships := none,
         relationshipsLegacy := none },
       { name := some "B", isOrganization := false, roleType := none,
         relationshipsArray := none, organizationMemberships := none,
         relationshipsLegacy := none },
       { name := some "C", isOrganization := false, roleType := none,
         relationshipsArray := none, organizationMemberships := none,
         relationshipsLegacy := none },
       { name := some "D", isOrganization := false, roleType := none,
         relationshipsArray := none, organizationMemberships := none,
         relationshipsLegacy := none }]) =
      .failure "批次生成数量不正确: 期望3个, 实际4个" := by
  rfl

/-! ### C7 — wizard character persistence theorems -/

theorem foldl_invariant {α β : Type} (P : α → Prop) (f : List α → β → List α)
    (hf : ∀ acc b, (∀ x ∈ acc, P x) → ∀ x ∈ f acc b, P x) :
    ∀ (l : List β) (acc : List α), (∀ x ∈ acc, P x) → ∀ x ∈ l.foldl f acc, P x := by
  intro l
  induction l with
  | nil => intro acc h x hx; exact h x hx
  | cons b t ih => intro acc h x hx; exact ih (f acc b) (hf acc b h) x hx

theorem foldl_invariant_mem {α β : Type} (P : α → Prop) (f : List α → β → List α) :
    ∀ (l : List β) (acc : List α),
      (∀ b ∈ l, ∀ acc2, (∀ x ∈ acc2, P x) → ∀ x ∈ f acc2 b, P x) →
      (∀ x ∈ acc, P x) → ∀ x ∈ l.foldl f acc, P x := by
  intro l
  induction l with
  | nil => intro acc _ h x hx; exact h x hx
  | cons b t ih =>
    intro acc hst h x hx
    exact ih (f acc b)
      (fun b2 hb2 => hst b2 (List.mem_cons_of_mem _ hb2))
      (hst b (List.mem_cons_self b t) acc h) x hx

theorem nameToId_mem (rows : List CharRow) (n : String) (i : Nat)
    (h : nameToId rows n = some i) : ∃ row ∈ rows, row.id = i := by
  unfold nameToId at h
  cases hf : rows.reverse.find? (·.name = n) with
  | none => rw [hf] at h; cases h
  | some row =>
    rw [hf] at h
    refine ⟨row, List.mem_reverse.mp (List.mem_of_find?_eq_some hf), ?_⟩
    simpa using h

theorem orgNameToId_mem (rows : List CharRow) (n : String) (i : Nat)
    (h : orgNameToId rows n = some i) :
    ∃ row ∈ rows, row.id = i ∧ row.isOrganization = true := by
  unfold orgNameToId at h
  cases hf : (rows.filter (·.isOrganization)).reverse.find? (·.name = n) with
  | none => rw [hf] at h; cases h
  | some row =>
    rw [hf] at h
    have hm : row ∈ rows.filter (·.isOrganization) :=
      List.mem_reverse.mp (List.mem_of_find?_eq_some hf)
    have hmf := List.mem_filter.mp hm
    exact ⟨row, hmf.1, by simpa using h, hmf.2⟩

theorem createRelationships_mem (rows : List CharRow) (batch : List CharData) :
    ∀ r ∈ createRelationships rows batch,
      (∃ row ∈ rows, row.id = r.fromId ∧ row.isOrganization = false) ∧
      (∃ row ∈ rows, row.id = r.toId) := by
  unfold createRelationships
  refine foldl_invariant_mem _ _ (rows.zip batch) [] ?_
    (fun x hx => absurd hx (List.not_mem_nil x))
  intro p hp acc hacc x hx
  beta_reduce at hx
  by_cases ho : p.1.isOrganization = true
  · rw [if_pos ho] at hx
    exact hacc x hx
  · rw [if_neg ho] at hx
    refine foldl_invariant _ _ ?_ (relsOf p.2) acc hacc x hx
    intro acc2 rel hacc2 y hy
    beta_reduce at hy
    cases htn : rel.targetCharacterName with
    | none => simp only [htn] at hy; exact hacc2 y hy
    | some tn =>
      simp only [htn] at hy
      by_cases he : tn = ""
      · rw [if_pos he] at hy; exact hacc2 y hy
      · rw [if_neg he] at hy
        cases hni : nameToId rows tn with
        | none => simp only [hni] at hy; exact hacc2 y hy
        | some toId =>
          simp only [hni] at hy
          by_cases hdup : acc2.any (fun r => r.fromId = p.1.id ∧ r.toId = toId) = true
          · rw [if_pos hdup] at hy; exact hacc2 y hy
          · rw [if_neg hdup] at hy
            rcases List.mem_append.mp hy with h1 | h1
            · exact hacc2 y h1
            · rw [List.mem_singleton] at h1
              subst h1
              exact ⟨⟨p.1, (List.of_mem_zip hp).1, rfl, Bool.eq_false_iff.mpr ho⟩,
                nameToId_mem rows tn toId hni⟩

theorem createMemberships_mem (rows : List CharRow) (batch : List CharData) :
    ∀ m ∈ createMemberships rows batch,
      (∃ row ∈ rows, row.id = m.orgId ∧ row.isOrganization = true) ∧
      (∃ row ∈ rows, row.id = m.charId ∧ row.isOrganization = false) := by
  unfold createMemberships
  refine foldl_invariant_mem _ _ (rows.zip batch) [] ?_
    (fun x hx => absurd hx (List.not_mem_nil x))
  intro p hp acc hacc x hx
  beta_reduce at hx
  by_cases ho : p.1.isOrganization = true
  · rw [if_pos ho] at hx
    exact hacc x hx
  · rw [if_neg ho] at hx
    refine foldl_invariant _ _ ?_ (p.2.organizationMemberships.getD []) acc hacc x hx
    intro acc2 mem2 hacc2 y hy
    beta_reduce at hy
    cases hon : mem2.organizationName with
    | none => simp only [hon] at hy; exact hacc2 y hy
    | some orgName =>
      simp only [hon] at hy
      by_cases he : orgName = ""
      · rw [if_pos he] at hy; exact hacc2 y hy
      · rw [if_neg he] at hy
        cases hni : orgNameToId rows orgName with
        | none => simp only [hni] at hy; exact hacc2 y hy
        | some oid =>
          simp only [hni] at hy
          by_cases hdup : acc2.any (fun m => m.orgId = oid ∧ m.charId = p.1.id) = true
          · rw [if_pos hdup] at hy; exact hacc2 y hy
          · rw [if_neg hdup] at hy
            rcases List.mem_append.mp hy with h1 | h1
            · exact hacc2 y h1
            · rw [List.mem_singleton] at h1
              subst h1
              exact ⟨orgNameToId_mem rows orgName oid hni,
                ⟨p.1, (List.of_mem_zip hp).1, rfl, Bool.eq_false_iff.mpr ho⟩⟩

theorem createdRows_map_name (l : List CharData) :
    (createdRows l).map (fun r => r.name) =
      l.map (fun cd => cd.name.getD "未命名角色") := by
  unfold createdRows
  rw [List.map_map]
  rw [show ((fun (r : CharRow) => r.name) ∘ fun (p : Nat × CharData) =>
      ({ id := p.1
         name := p.2.name.getD "未命名角色"
         isOrganization := p.2.isOrganization } : CharRow)) =
      ((fun (cd : CharData) => cd.name.getD "未命名角色") ∘ Prod.snd) from rfl]
  rw [← List.map_map, List.enum_map_snd]

theorem createdRows_map_isOrg (l : List CharData) :
    (createdRows l).map (fun r => r.isOrganization) =
      l.map (fun cd => cd.isOrganization) := by
  unfold createdRows
  rw [List.map_map]
  rw [show ((fun (r : CharRow) => r.isOrganization) ∘ fun (p : Nat × CharData) =>
      ({ id := p.1
         name := p.2.name.getD "未命名角色"
         isOrganization := p.2.isOrganization } : CharRow)) =
      ((fun (cd : CharData) => cd.isOrganization) ∘ Prod.snd) from rfl]
  rw [← List.map_map, List.enum_map_snd]

theorem cleanBatch_map_name (batch : List CharData) :
    (cleanBatch batch).map (fun cd => cd.name.getD "未命名角色") =
      batch.map (fun cd => cd.name.getD "未命名角色") := by
  unfold cleanBatch
  rw [List.map_map]
  rfl

theorem cleanBatch_map_isOrg (batch : List CharData) :
    (cleanBatch batch).map (fun cd => cd.isOrganization) =
      batch.map (fun cd => cd.isOrganization) := by
  unfold cleanBatch
  rw [List.map_map]
  rfl

theorem mem_optFilter {α : Type} (p : α → Bool) (o : Option (List α)) (x : α)
    (hx : x ∈ (o.map (fun l => l.filter p)).getD []) : p x = true := by
  cases o with
  | none => simp at hx
  | some l =>
    simp only [Option.map_some', Option.getD_some] at hx
    exact (List.mem_filter.mp hx).2

/-- C7: after the wizard character stage persists a generated batch, one
character row is created per generated entity, in order, carrying the
entity's name (default 未命名角色) and organisation flag; every created
relationship edge has a non-organisation source row and a target row of
this batch; every created membership links a non-organisation row to a
batch row with is_organization = true; and after the hallucination
cleanup every surviving relationship-array entry targets a batch entity
name and every surviving membership entry names a batch organisation, so
entries naming entities outside the batch produce no rows. -/
theorem wizard_character_persistence (batch : List CharData) :
    (persistCharacters batch).1.map (fun r => r.name) =
        batch.map (fun cd => cd.name.getD "未命名角色") ∧
    (persistCharacters batch).1.map (fun r => r.isOrganization) =
        batch.map (fun cd => cd.isOrganization) ∧
    ((persistCharacters batch).2.1.all (fun r =>
        (persistCharacters batch).1.any (fun row =>
          row.id == r.fromId && !row.isOrganization) &&
        (persistCharacters batch).1.any (fun row => row.id == r.toId))) = true ∧
    ((persistCharacters batch).2.2.all (fun m =>
        (persistCharacters batch).1.any (fun row =>
          row.id == m.orgId && row.isOrganization) &&
        (persistCharacters batch).1.any (fun row =>
          row.id == m.charId && !row.isOrganization))) = true ∧
    ((cleanBatch batch).all (fun cd =>
        (cd.relationshipsArray.getD []).all (fun rel =>
          (validEntityNames batch).contains (rel.targetCharacterName.getD "")) &&
        (cd.organizationMemberships.getD []).all (fun m2 =>
          (validOrganizationNames batch).contains (m2.organizationName.getD "")))) = true := by
  refine ⟨?_, ?_, ?_, ?_, ?_⟩
  · show (createdRows (cleanBatch batch)).map (fun r => r.name) = _
    rw [createdRows_map_name, cleanBatch_map_name]
  · show (createdRows (cleanBatch batch)).map (fun r => r.isOrganization) = _
    rw [createdRows_map_isOrg, cleanBatch_map_isOrg]
  · rw [List.all_eq_true]
    intro r hr
    have h := createRelationships_mem (createdRows (cleanBatch batch))
      (cleanBatch batch) r hr
    rcases h with ⟨⟨row1, hm1, hid1, ho1⟩, ⟨row2, hm2, hid2⟩⟩
    simp only [Bool.and_eq_true, List.any_eq_true]
    exact ⟨⟨row1, hm1, by simp [hid1, ho1]⟩, ⟨row2, hm2, by simp [hid2]⟩⟩
  · rw [List.all_eq_true]
    intro m hm
    have h := createMemberships_mem (createdRows (cleanBatch batch))
      (cleanBatch batch) m hm
    rcases h with ⟨⟨row1, hm1, hid1, ho1⟩, ⟨row2, hm2, hid2, ho2⟩⟩
    simp only [Bool.and_eq_true, List.any_eq_true]
    exact ⟨⟨row1, hm1, by simp [hid1, ho1]⟩, ⟨row2, hm2, by simp [hid2, ho2]⟩⟩
  · rw [List.all_eq_true]
    intro cd hcd
    unfold cleanBatch at hcd
    rcases List.mem_map.mp hcd with ⟨cd0, hcd0, hEq⟩
    subst hEq
    simp only [Bool.and_eq_true, List.all_eq_true]
    constructor
    · intro rel hrel
      exact mem_optFilter _ cd0.relationshipsArray rel hrel
    · intro m2 hm2
      exact mem_optFilter _ cd0.organizationMemberships m2 hm2

/-! ### C6 — word-count bookkeeping theorems -/

theorem find?_decomp {α : Type} (p : α → Bool) (l : List α) (c : α)
    (h : l.find? p = some c) :
    ∃ l1 l2, l = l1 ++ c :: l2 ∧ (∀ y ∈ l1, p y = false) ∧ p c = true := by
  induction l with
  | nil => cases h
  | cons x xs ih =>
    cases hx : p x with
    | true =>
      rw [List.find?_cons_of_pos _ hx] at h
      cases h
      refine ⟨[], xs, rfl, ?_, hx⟩
      intro y hy
      cases hy
    | false =>
      rw [List.find?_cons_of_neg _ (by simp [hx])] at h
      rcases ih h with ⟨l1, l2, heq, hl1, hc⟩
      refine ⟨x :: l1, l2, by rw [heq]; rfl, ?_, hc⟩
      intro y hy
      rcases List.mem_cons.mp hy with h1 | h1
      · rw [h1]; exact hx
      · exact hl1 y h1

theorem mapFirstP_append_cons {α : Type} (p : α → Bool) (f : α → α)
    (l1 l2 : List α) (c : α) (hl1 : ∀ y ∈ l1, p y = false) (hc : p c = true) :
    mapFirstP p f (l1 ++ c :: l2) = l1 ++ f c :: l2 := by
  induction l1 with
  | nil =>
    simp only [List.nil_append, mapFirstP]
    rw [if_pos hc]
  | cons x xs ih =>
    have hx : p x = false := hl1 x (List.mem_cons_self x xs)
    simp only [List.cons_append, mapFirstP]
    rw [if_neg (by simp [hx])]
    exact congrArg (x :: ·) (ih (fun y hy => hl1 y (List.mem_cons_of_mem x hy)))

theorem eraseP_append_cons {α : Type} (p : α → Bool)
    (l1 l2 : List α) (c : α) (hl1 : ∀ y ∈ l1, p y = false) (hc : p c = true) :
    (l1 ++ c :: l2).eraseP p = l1 ++ l2 := by
  induction l1 with
  | nil => simp [List.eraseP_cons, hc]
  | cons x xs ih =>
    have hx : p x = false := hl1 x (List.mem_cons_self x xs)
    simp only [List.cons_append, List.eraseP_cons, hx]
    simp [ih (fun y hy => hl1 y (List.mem_cons_of_mem x hy))]

theorem wordSum_nil (pid : String) : wordSum [] pid = 0 := rfl

theorem wordSum_cons (c : Chapter) (t : List Chapter) (pid : String) :
    wordSum (c :: t) pid =
      (if c.projectId = pid then (c.wordCount : Int) else 0) + wordSum t pid := by
  unfold wordSum
  by_cases h : c.projectId = pid
  · rw [List.filter_cons_of_pos (by simp [h]), List.map_cons, List.sum_cons, if_pos h]
  · rw [List.filter_cons_of_neg (by simp [h]), if_neg h, zero_add]

theorem wordSum_append (a b : List Chapter) (pid : String) :
    wordSum (a ++ b) pid = wordSum a pid + wordSum b pid := by
  unfold wordSum
  rw [List.filter_append, List.map_append, List.sum_append]

theorem wordSum_decomp (L1 L2 : List Chapter) (c : Chapter) (pid : String) :
    wordSum (L1 ++ c :: L2) pid =
      wordSum L1 pid + (if c.projectId = pid then (c.wordCount : Int) else 0) +
        wordSum L2 pid := by
  rw [wordSum_append, wordSum_cons]
  ring

theorem wordSum_nonneg (l : List Chapter) (pid : String) : 0 ≤ wordSum l pid := by
  unfold wordSum
  apply List.sum_nonneg
  intro x hx
  rcases List.mem_map.mp hx with ⟨c, _, rfl⟩
  exact Int.natCast_nonneg c.wordCount

theorem map_if_id {γ : Type} (l : List γ) (q : γ → Prop) [DecidablePred q]
    (f : γ → γ) (h : ∀ y ∈ l, ¬ q y) :
    l.map (fun y => if q y then f y else y) = l := by
  induction l with
  | nil => rfl
  | cons x xs ih =>
    rw [List.map_cons, if_neg (h x (List.mem_cons_self x xs)),
      ih (fun y hy => h y (List.mem_cons_of_mem x hy))]

theorem mapFirstP_eq_map_projects (l : List Project) (pid : String)
    (g : Project → Project) (hnd : (l.map (fun p => p.id)).Nodup) :
    mapFirstP (fun p => p.id = pid) g l =
      l.map (fun p => if p.id = pid then g p else p) := by
  induction l with
  | nil => rfl
  | cons x xs ih =>
    rw [List.map_cons] at hnd
    rcases List.nodup_cons.mp hnd with ⟨hx, hxs⟩
    by_cases h : x.id = pid
    · simp only [mapFirstP, List.map_cons]
      rw [if_pos (by simp [h]), if_pos h]
      refine congrArg (g x :: ·) ?_
      refine (map_if_id xs (fun y => y.id = pid) g ?_).symm
      intro y hy hyp
      exact hx (List.mem_map.mpr ⟨y, hy, by rw [hyp, h]⟩)
    · simp only [mapFirstP, List.map_cons]
      rw [if_neg (by simp [h]), if_neg h, ih hxs]

theorem mapFirstP_projects_invariant (projects : List Project)
    (chapters chapters' : List Chapter) (pid : String) (g : Project → Project)
    (hnd : (projects.map (fun p => p.id)).Nodup)
    (hinv : ∀ p ∈ projects, p.currentWords = wordSum chapters p.id)
    (hgid : ∀ p, (g p).id = p.id)
    (htarget : ∀ p ∈ projects, p.id = pid →
      (g p).currentWords = wordSum chapters' p.id)
    (hother : ∀ x, x ≠ pid → wordSum chapters' x = wordSum chapters x) :
    ∀ q ∈ mapFirstP (fun p => p.id = pid) g projects,
      q.currentWords = wordSum chapters' q.id := by
  rw [mapFirstP_eq_map_projects projects pid g hnd]
  intro q hq
  rcases List.mem_map.mp hq with ⟨p, hp, hpe⟩
  subst hpe
  by_cases h : p.id = pid
  · show (if p.id = pid then g p else p).currentWords =
      wordSum chapters' (if p.id = pid then g p else p).id
    rw [if_pos h, hgid p]
    exact htarget p hp h
  · show (if p.id = pid then g p else p).currentWords =
      wordSum chapters' (if p.id = pid then g p else p).id
    rw [if_neg h, hother p.id h]
    exact hinv p hp

theorem create_chapter_ok (db : ChapterDB) (req : ChapterCreateReq)
    (newId body : String)
    (hp : db.projects.any (·.id = req.projectId) = true)
    (hc : req.content = some body) :
    create_chapter db req newId = .ok (createChapterOk db req newId body) := by
  unfold create_chapter
  rw [hc, if_neg (by simp [hp])]

theorem update_chapter_found (db : ChapterDB) (cid : String)
    (req : ChapterUpdateReq) (c : Chapter)
    (hf : db.chapters.find? (·.id = cid) = some c) :
    update_chapter db cid req = .ok (updateChapterOk db cid req c) := by
  unfold update_chapter
  rw [hf]

theorem delete_chapter_found (db : ChapterDB) (cid : String) (c : Chapter)
    (hf : db.chapters.find? (·.id = cid) = some c) :
    delete_chapter db cid = .ok (deleteChapterOk db cid c) := by
  unfold delete_chapter
  rw [hf]

theorem generation_commit_found (db : ChapterDB) (cid full : String)
    (c : Chapter) (hf : db.chapters.find? (·.id = cid) = some c) :
    generation_commit db cid full = .ok (generationCommitOk db cid full c) := by
  unfold generation_commit
  rw [hf]

theorem recountRow_projectId (req : ChapterUpdateReq) (c : Chapter) :
    (recountRow req c).projectId = c.projectId := rfl

theorem recountRow_wordCount (req : ChapterUpdateReq) (c : Chapter) :
    (recountRow req c).wordCount =
      pyLen ((applyChapterUpdate req c).content.getD "") := rfl

theorem recountRow_content (req : ChapterUpdateReq) (c : Chapter) :
    (recountRow req c).content = (applyChapterUpdate req c).content := rfl

theorem applyChapterUpdate_projectId (req : ChapterUpdateReq) (c : Chapter) :
    (applyChapterUpdate req c).projectId = c.projectId := rfl

theorem applyChapterUpdate_wordCount (req : ChapterUpdateReq) (c : Chapter) :
    (applyChapterUpdate req c).wordCount = c.wordCount := rfl

theorem applyChapterUpdate_content_none (req : ChapterUpdateReq) (c : Chapter)
    (h : req.content = none) :
    (applyChapterUpdate req c).content = c.content := by
  show (match req.content with | some v => v | none => c.content) = c.content
  rw [h]

theorem newChapterRow_projectId (req : ChapterCreateReq) (newId body : String) :
    (newChapterRow req newId body).projectId = req.projectId := rfl

theorem newChapterRow_wordCount (req : ChapterCreateReq) (newId body : String) :
    (newChapterRow req newId body).wordCount = pyLen body := rfl

theorem generatedRow_projectId (full : String) (ch : Chapter) :
    (generatedRow full ch).projectId = ch.projectId := rfl

theorem generatedRow_wordCount (full : String) (ch : Chapter) :
    (generatedRow full ch).wordCount = pyLen full := rfl

/-- C6 (corrected): chapter creation, deletion and the streamed-generation
commit preserve both word-count invariants (project aggregate = sum of the
chapters' word counts, and word count = content length), and a chapter
update preserves them provided any `content` the request sets is truthy —
the code skips the recount whenever the updated content is falsy, which
happens both for an empty-string content and for an explicitly-null
content (pydantic keeps an explicitly-set null under `exclude_unset`, and
the nullable column commits it). On generation completion the project
counter is updated exactly as old − previous word count + new content
length. -/
theorem chapter_word_count_bookkeeping :
    (∀ (db : ChapterDB) (req : ChapterCreateReq) (newId : String) (db' : ChapterDB),
      (db.projects.map (fun p => p.id)).Nodup →
      projectWordInvariant db → chapterLenInvariant db →
      create_chapter db req newId = .ok db' →
      projectWordInvariant db' ∧ chapterLenInvariant db') ∧
    (∀ (db : ChapterDB) (cid : String) (req : ChapterUpdateReq) (db' : ChapterDB),
      (db.projects.map (fun p => p.id)).Nodup →
      projectWordInvariant db → chapterLenInvariant db →
      contentUpdateTruthy req = true →
      update_chapter db cid req = .ok db' →
      projectWordInvariant db' ∧ chapterLenInvariant db') ∧
    (∀ (db : ChapterDB) (cid : String) (db' : ChapterDB),
      (db.projects.map (fun p => p.id)).Nodup →
      projectWordInvariant db → chapterLenInvariant db →
      delete_chapter db cid = .ok db' →
      projectWordInvariant db' ∧ chapterLenInvariant db') ∧
    (∀ (db : ChapterDB) (cid full : String) (db' : ChapterDB),
      (db.projects.map (fun p => p.id)).Nodup →
      projectWordInvariant db → chapterLenInvariant db →
      generation_commit db cid full = .ok db' →
      projectWordInvariant db' ∧ chapterLenInvariant db') ∧
    (∀ (db : ChapterDB) (cid full : String) (db' : ChapterDB) (c : Chapter),
      db.chapters.find? (fun ch => ch.id = cid) = some c →
      generation_commit db cid full = .ok db' →
      db'.projects = mapFirstP (fun p => p.id = c.projectId)
        (fun p => { p with currentWords :=
            p.currentWords - (c.wordCount : Int) + (pyLen full : Int) })
        db.projects) := by
  refine ⟨?_, ?_, ?_, ?_, ?_⟩
  · -- create
    intro db req newId db' hnd hinv hlen hok
    have hinv' : ∀ p ∈ db.projects, p.currentWords = wordSum db.chapters p.id := hinv
    by_cases hp : db.projects.any (·.id = req.projectId) = true
    · cases hrc : req.content with
      | none =>
        exfalso
        unfold create_chapter at hok
        rw [hrc, if_neg (by simp [hp])] at hok
        exact Except.noConfusion hok
      | some body =>
        rw [create_chapter_ok db req newId body hp hrc] at hok
        cases hok
        constructor
        · intro q hq
          refine mapFirstP_projects_invariant db.projects db.chapters
            (db.chapters ++ [newChapterRow req newId body]) req.projectId
            (fun p => { p with currentWords := p.currentWords + (pyLen body : Int) })
            hnd hinv' (fun p => rfl) ?_ ?_ q hq
          · intro p hp2 hpe
            show p.currentWords + (pyLen body : Int) =
              wordSum (db.chapters ++ [newChapterRow req newId body]) p.id
            rw [wordSum_append, wordSum_cons, wordSum_nil,
              newChapterRow_projectId req newId body,
              newChapterRow_wordCount req newId body,
              if_pos hpe.symm, hinv' p hp2]
            omega
          · intro x hx
            rw [wordSum_append, wordSum_cons, wordSum_nil,
              newChapterRow_projectId req newId body,
              if_neg (fun hh => hx hh.symm)]
            omega
        · intro ch hch
          rcases List.mem_append.mp hch with h1 | h1
          · exact hlen ch h1
          · rw [List.mem_singleton.mp h1]
            rfl
    · exfalso
      unfold create_chapter at hok
      rw [if_pos (by simp [Bool.eq_false_iff.mpr hp])] at hok
      exact Except.noConfusion hok
  · -- update
    intro db cid req db' hnd hinv hlen hne hok
    have hinv' : ∀ p ∈ db.projects, p.currentWords = wordSum db.chapters p.id := hinv
    cases hf : db.chapters.find? (·.id = cid) with
    | none =>
      exfalso
      unfold update_chapter at hok
      rw [hf] at hok
      exact Except.noConfusion hok
    | some c =>
      rw [update_chapter_found db cid req c hf] at hok
      cases hok
      rcases find?_decomp _ _ _ hf with ⟨L1, L2, heqL, hL1, hcP⟩
      by_cases hcond :
          (req.content.isSome && truthyStr (applyChapterUpdate req c).content) = true
      · have hdb' : updateChapterOk db cid req c =
            { projects := mapFirstP (·.id = c.projectId)
                (fun p => { p with currentWords :=
                    p.currentWords - c.wordCount + pyLen ((applyChapterUpdate req c).content.getD "") })
                db.projects
              chapters := mapFirstP (·.id = cid) (fun _ => recountRow req c)
                db.chapters } := by
          unfold updateChapterOk
          rw [if_pos hcond]
        rw [hdb']
        have hchap : mapFirstP (fun ch => ch.id = cid) (fun _ => recountRow req c)
            db.chapters = L1 ++ recountRow req c :: L2 := by
          rw [heqL]
          exact mapFirstP_append_cons _ _ L1 L2 c hL1 hcP
        constructor
        · intro q hq
          refine mapFirstP_projects_invariant db.projects db.chapters
            (mapFirstP (fun ch => ch.id = cid) (fun _ => recountRow req c) db.chapters)
            c.projectId
            (fun p => { p with currentWords := p.currentWords - (c.wordCount : Int) +
              (pyLen ((applyChapterUpdate req c).content.getD "") : Int) })
            hnd hinv' (fun p => rfl) ?_ ?_ q hq
          · intro p hp2 hpe
            show p.currentWords - (c.wordCount : Int) +
                (pyLen ((applyChapterUpdate req c).content.getD "") : Int) =
              wordSum (mapFirstP (fun ch => ch.id = cid)
                (fun _ => recountRow req c) db.chapters) p.id
            rw [hchap, wordSum_decomp, recountRow_projectId req c,
              recountRow_wordCount req c, if_pos hpe.symm]
            have hold := hinv' p hp2
            rw [heqL, wordSum_decomp,
              if_pos (show c.projectId = p.id from hpe.symm)] at hold
            rw [hold]
            omega
          · intro x hx
            rw [hchap, wordSum_decomp, recountRow_projectId req c, heqL,
              wordSum_decomp, if_neg (fun hh => hx hh.symm),
              if_neg (fun hh => hx hh.symm)]
        · intro ch hch
          have hch2 : ch ∈ L1 ++ recountRow req c :: L2 := by
            rw [← hchap]
            exact hch
          rcases List.mem_append.mp hch2 with h1 | h1
          · exact hlen ch (by rw [heqL]; exact List.mem_append_left _ h1)
          · rcases List.mem_cons.mp h1 with h2 | h2
            · rw [h2, recountRow_wordCount req c, recountRow_content req c]
            · exact hlen ch (by
                rw [heqL]
                exact List.mem_append_right _ (List.mem_cons_of_mem c h2))
      · have hdb' : updateChapterOk db cid req c =
            { db with chapters :=
                mapFirstP (·.id = cid) (fun _ => applyChapterUpdate req c) db.chapters } := by
          unfold updateChapterOk
          rw [if_neg hcond]
        rw [hdb']
        have hrc : req.content = none := by
          cases hrcc : req.content with
          | none => rfl
          | some v =>
            exfalso
            apply hcond
            have hcv : (applyChapterUpdate req c).content = v := by
              show (match req.content with | some v => v | none => c.content) = v
              rw [hrcc]
            have hv : truthyStr v = true := by
              unfold contentUpdateTruthy at hne
              rw [hrcc] at hne
              exact hne
            rw [hrcc, hcv]
            simp [hv]
        have hcontent : (applyChapterUpdate req c).content = c.content :=
          applyChapterUpdate_content_none req c hrc
        have hchap : mapFirstP (fun ch => ch.id = cid)
            (fun _ => applyChapterUpdate req c) db.chapters =
            L1 ++ applyChapterUpdate req c :: L2 := by
          rw [heqL]
          exact mapFirstP_append_cons _ _ L1 L2 c hL1 hcP
        constructor
        · intro q hq
          show q.currentWords = wordSum (mapFirstP (fun ch => ch.id = cid)
            (fun _ => applyChapterUpdate req c) db.chapters) q.id
          rw [hchap, wordSum_decomp, applyChapterUpdate_projectId req c,
            applyChapterUpdate_wordCount req c, hinv' q hq, heqL, wordSum_decomp]
        · intro ch hch
          have hch2 : ch ∈ L1 ++ applyChapterUpdate req c :: L2 := by
            rw [← hchap]
            exact hch
          rcases List.mem_append.mp hch2 with h1 | h1
          · exact hlen ch (by rw [heqL]; exact List.mem_append_left _ h1)
          · rcases List.mem_cons.mp h1 with h2 | h2
            · rw [h2, applyChapterUpdate_wordCount req c, hcontent]
              exact hlen c (by
                rw [heqL]
                exact List.mem_append_right _ (List.mem_cons_self c L2))
            · exact hlen ch (by
                rw [heqL]
                exact List.mem_append_right _ (List.mem_cons_of_mem c h2))
  · -- delete
    intro db cid db' hnd hinv hlen hok
    have hinv' : ∀ p ∈ db.projects, p.currentWords = wordSum db.chapters p.id := hinv
    cases hf : db.chapters.find? (·.id = cid) with
    | none =>
      exfalso
      unfold delete_chapter at hok
      rw [hf] at hok
      exact Except.noConfusion hok
    | some c =>
      rw [delete_chapter_found db cid c hf] at hok
      cases hok
      rcases find?_decomp _ _ _ hf with ⟨L1, L2, heqL, hL1, hcP⟩
      have hErase : db.chapters.eraseP (fun ch => ch.id = cid) = L1 ++ L2 := by
        rw [heqL]
        exact eraseP_append_cons _ L1 L2 c hL1 hcP
      constructor
      · intro q hq
        refine mapFirstP_projects_invariant db.projects db.chapters
          (db.chapters.eraseP (fun ch => ch.id = cid)) c.projectId
          (fun p => { p with currentWords := max 0 (p.currentWords - (c.wordCount : Int)) })
          hnd hinv' (fun p => rfl) ?_ ?_ q hq
        · intro p hp2 hpe
          show max 0 (p.currentWords - (c.wordCount : Int)) =
            wordSum (db.chapters.eraseP (fun ch => ch.id = cid)) p.id
          rw [hErase, wordSum_append]
          have hold := hinv' p hp2
          rw [heqL, wordSum_decomp,
            if_pos (show c.projectId = p.id from hpe.symm)] at hold
          rw [hold]
          have n1 := wordSum_nonneg L1 p.id
          have n2 := wordSum_nonneg L2 p.id
          omega
        · intro x hx
          rw [hErase, wordSum_append, heqL, wordSum_decomp,
            if_neg (fun hh => hx hh.symm)]
          omega
      · intro ch hch
        have hch2 : ch ∈ L1 ++ L2 := by
          rw [← hErase]
          exact hch
        rcases List.mem_append.mp hch2 with h1 | h1
        · exact hlen ch (by rw [heqL]; exact List.mem_append_left _ h1)
        · exact hlen ch (by
            rw [heqL]
            exact List.mem_append_right _ (List.mem_cons_of_mem c h1))
  · -- generation commit
    intro db cid full db' hnd hinv hlen hok
    have hinv' : ∀ p ∈ db.projects, p.currentWords = wordSum db.chapters p.id := hinv
    cases hf : db.chapters.find? (·.id = cid) with
    | none =>
      exfalso
      unfold generation_commit at hok
      rw [hf] at hok
      exact Except.noConfusion hok
    | some c =>
      rw [generation_commit_found db cid full c hf] at hok
      cases hok
      rcases find?_decomp _ _ _ hf with ⟨L1, L2, heqL, hL1, hcP⟩
      have hchap : mapFirstP (fun ch => ch.id = cid) (generatedRow full)
          db.chapters = L1 ++ generatedRow full c :: L2 := by
        rw [heqL]
        exact mapFirstP_append_cons _ _ L1 L2 c hL1 hcP
      constructor
      · intro q hq
        refine mapFirstP_projects_invariant db.projects db.chapters
          (mapFirstP (fun ch => ch.id = cid) (generatedRow full) db.chapters)
          c.projectId
          (fun p => { p with currentWords := p.currentWords - (c.wordCount : Int) +
            (pyLen full : Int) })
          hnd hinv' (fun p => rfl) ?_ ?_ q hq
        · intro p hp2 hpe
          show p.currentWords - (c.wordCount : Int) + (pyLen full : Int) =
            wordSum (mapFirstP (fun ch => ch.id = cid)
              (generatedRow full) db.chapters) p.id
          rw [hchap, wordSum_decomp, generatedRow_projectId full c,
            generatedRow_wordCount full c, if_pos hpe.symm]
          have hold := hinv' p hp2
          rw [heqL, wordSum_decomp,
            if_pos (show c.projectId = p.id from hpe.symm)] at hold
          rw [hold]
          omega
        · intro x hx
          rw [hchap, wordSum_decomp, generatedRow_projectId full c, heqL,
            wordSum_decomp, if_neg (fun hh => hx hh.symm),
            if_neg (fun hh => hx hh.symm)]
      · intro ch hch
        have hch2 : ch ∈ L1 ++ generatedRow full c :: L2 := by
          rw [← hchap]
          exact hch
        rcases List.mem_append.mp hch2 with h1 | h1
        · exact hlen ch (by rw [heqL]; exact List.mem_append_left _ h1)
        · rcases List.mem_cons.mp h1 with h2 | h2
          · rw [h2, generatedRow_wordCount full c]
            rfl
          · exact hlen ch (by
              rw [heqL]
              exact List.mem_append_right _ (List.mem_cons_of_mem c h2))
  · -- the generation counter formula
    intro db cid full db' c hf hok
    rw [generation_commit_found db cid full c hf] at hok
    cases hok
    rfl

/-- C6 counterexample: on a store satisfying both word-count invariants,
updating the chapter with the empty string as content — and likewise with
an explicitly-null content, which `model_dump(exclude_unset=True)` keeps
and the nullable column commits — commits the cleared content but skips
the recount (`if "content" in update_data and chapter.content:` is falsy),
so `word_count` stays 2 while the content is empty or null and the per-row
length invariant no longer holds. -/
theorem update_chapter_empty_content_skips_recount :
    projectWordInvariant exChapterDB ∧ chapterLenInvariant exChapterDB ∧
    update_chapter exChapterDB "ch1" exEmptyContentReq =
      .ok { projects := [{ id := "p1", currentWords := 2 }]
            chapters := [{ id := "ch1", projectId := "p1", chapterNumber := 1,
                           title := "t", content := some "", summary := none,
                           wordCount := 2, status := "draft" }] } ∧
    ¬ chapterLenInvariant
      { projects := [{ id := "p1", currentWords := 2 }]
        chapters := [{ id := "ch1", projectId := "p1", chapterNumber := 1,
                       title := "t", content := some "", summary := none,
                       wordCount := 2, status := "draft" }] } ∧
    update_chapter exChapterDB "ch1" exNullContentReq =
      .ok { projects := [{ id := "p1", currentWords := 2 }]
            chapters := [{ id := "ch1", projectId := "p1", chapterNumber := 1,
                           title := "t", content := none, summary := none,
                           wordCount := 2, status := "draft" }] } ∧
    ¬ chapterLenInvariant
      { projects := [{ id := "p1", currentWords := 2 }]
        chapters := [{ id := "ch1", projectId := "p1", chapterNumber := 1,
                       title := "t", content := none, summary := none,
                       wordCount := 2, status := "draft" }] } :=
  ⟨by decide, by decide, by rfl, by decide, by rfl, by decide⟩

/-- Witness for the update conjunct of the bookkeeping theorem: a
three-character content update on a concrete store keeps both
invariants. -/
theorem chapter_word_count_bookkeeping_witness :
    projectWordInvariant exChapterDBXyz ∧ chapterLenInvariant exChapterDBXyz :=
  chapter_word_count_bookkeeping.2.1 exChapterDB "ch1" exXyzContentReq
    exChapterDBXyz (by decide) (by decide) (by decide) (by decide) (by rfl)

/-! ### C4 / C5 — outline↔chapter pairing and contiguity theorems -/

theorem stepO_id (o : Outline) (e : ReorderEntry) : (stepO o e).id = o.id := by
  unfold stepO
  split <;> rfl

theorem stepO_projectId (o : Outline) (e : ReorderEntry) :
    (stepO o e).projectId = o.projectId := by
  unfold stepO
  split <;> rfl

theorem stepC_id (c : Chapter) (e : ReorderEntry) : (stepC c e).id = c.id := by
  unfold stepC
  cases hc : e.chapterId with
  | none => rfl
  | some cid =>
    show (if c.id = cid then
      ({ c with chapterNumber := e.newOrder, title := e.outlineTitle } : Chapter)
      else c).id = c.id
    split <;> rfl

theorem stepD_id (x : Outline) (sub : Outline) : (stepD x sub).id = x.id := by
  unfold stepD
  split <;> rfl

theorem stepO_of_ne (o : Outline) (e : ReorderEntry) (h : e.outlineId ≠ o.id) :
    stepO o e = o := by
  unfold stepO
  rw [if_neg (fun hh => h hh.symm)]

theorem stepC_of_ne (c : Chapter) (e : ReorderEntry)
    (h : e.chapterId ≠ some c.id) : stepC c e = c := by
  unfold stepC
  cases hc : e.chapterId with
  | none => rfl
  | some cid =>
    show (if c.id = cid then
      ({ c with chapterNumber := e.newOrder, title := e.outlineTitle } : Chapter)
      else c) = c
    rw [if_neg]
    intro hh
    exact h (by rw [hc, hh])

theorem stepD_of_ne (x : Outline) (sub : Outline) (h : sub.id ≠ x.id) :
    stepD x sub = x := by
  unfold stepD
  rw [if_neg (fun hh => h hh.symm)]

theorem stepO_foldl_none (es : List ReorderEntry) (o : Outline)
    (h : ∀ e ∈ es, e.outlineId ≠ o.id) : es.foldl stepO o = o := by
  induction es with
  | nil => rfl
  | cons e t ih =>
    rw [List.foldl_cons, stepO_of_ne o e (h e (List.mem_cons_self e t))]
    exact ih (fun e2 h2 => h e2 (List.mem_cons_of_mem e h2))

theorem stepC_foldl_none (es : List ReorderEntry) (c : Chapter)
    (h : ∀ e ∈ es, e.chapterId ≠ some c.id) : es.foldl stepC c = c := by
  induction es with
  | nil => rfl
  | cons e t ih =>
    rw [List.foldl_cons, stepC_of_ne c e (h e (List.mem_cons_self e t))]
    exact ih (fun e2 h2 => h e2 (List.mem_cons_of_mem e h2))

theorem stepD_foldl_none (es : List Outline) (x : Outline)
    (h : ∀ sub ∈ es, sub.id ≠ x.id) : es.foldl stepD x = x := by
  induction es with
  | nil => rfl
  | cons e t ih =>
    rw [List.foldl_cons, stepD_of_ne x e (h e (List.mem_cons_self e t))]
    exact ih (fun e2 h2 => h e2 (List.mem_cons_of_mem e h2))

theorem stepO_foldl_single (E1 E2 : List ReorderEntry) (e : ReorderEntry)
    (o : Outline) (h1 : ∀ x ∈ E1, x.outlineId ≠ o.id) (he : e.outlineId = o.id)
    (h2 : ∀ x ∈ E2, x.outlineId ≠ o.id) :
    (E1 ++ e :: E2).foldl stepO o = { o with orderIndex := e.newOrder } := by
  rw [List.foldl_append, stepO_foldl_none E1 o h1, List.foldl_cons]
  rw [show stepO o e = { o with orderIndex := e.newOrder } from by
    unfold stepO; rw [if_pos he.symm]]
  exact stepO_foldl_none E2 _ (fun x hx => h2 x hx)

theorem stepC_foldl_single (E1 E2 : List ReorderEntry) (e : ReorderEntry)
    (c : Chapter) (h1 : ∀ x ∈ E1, x.chapterId ≠ some c.id)
    (he : e.chapterId = some c.id)
    (h2 : ∀ x ∈ E2, x.chapterId ≠ some c.id) :
    (E1 ++ e :: E2).foldl stepC c =
      { c with
          chapterNumber := e.newOrder
          title := e.outlineTitle } := by
  rw [List.foldl_append, stepC_foldl_none E1 c h1, List.foldl_cons]
  rw [show stepC c e = { c with chapterNumber := e.newOrder, title := e.outlineTitle }
    from by
      unfold stepC
      rw [he]
      show (if c.id = c.id then
        ({ c with chapterNumber := e.newOrder, title := e.outlineTitle } : Chapter)
        else c) = _
      rw [if_pos rfl]]
  exact stepC_foldl_none E2 _ (fun x hx => h2 x hx)

theorem stepD_foldl_single (E1 E2 : List Outline) (sub : Outline)
    (x : Outline) (h1 : ∀ y ∈ E1, y.id ≠ x.id) (he : sub.id = x.id)
    (h2 : ∀ y ∈ E2, y.id ≠ x.id) :
    (E1 ++ sub :: E2).foldl stepD x = { x with orderIndex := x.orderIndex - 1 } := by
  rw [List.foldl_append, stepD_foldl_none E1 x h1, List.foldl_cons]
  rw [show stepD x sub = { x with orderIndex := x.orderIndex - 1 } from by
    unfold stepD; rw [if_pos he.symm]]
  exact stepD_foldl_none E2 _ (fun y hy => h2 y hy)

theorem mapFirstP_eq_map_outlineId (l : List Outline) (k : String)
    (g : Outline → Outline) (hnd : (l.map (·.id)).Nodup) :
    mapFirstP (·.id = k) g l = l.map (fun x => if x.id = k then g x else x) := by
  induction l with
  | nil => rfl
  | cons x xs ih =>
    rw [List.map_cons] at hnd
    rcases List.nodup_cons.mp hnd with ⟨hx, hxs⟩
    by_cases h : x.id = k
    · simp only [mapFirstP, List.map_cons]
      rw [if_pos (by simp [h]), if_pos h]
      refine congrArg (g x :: ·) ?_
      refine (map_if_id xs (fun y => y.id = k) g ?_).symm
      intro y hy hyp
      exact hx (List.mem_map.mpr ⟨y, hy, by rw [hyp, h]⟩)
    · simp only [mapFirstP, List.map_cons]
      rw [if_neg (by simp [h]), if_neg h, ih hxs]

theorem mapFirstP_eq_map_chapterId (l : List Chapter) (k : String)
    (g : Chapter → Chapter) (hnd : (l.map (·.id)).Nodup) :
    mapFirstP (·.id = k) g l = l.map (fun x => if x.id = k then g x else x) := by
  induction l with
  | nil => rfl
  | cons x xs ih =>
    rw [List.map_cons] at hnd
    rcases List.nodup_cons.mp hnd with ⟨hx, hxs⟩
    by_cases h : x.id = k
    · simp only [mapFirstP, List.map_cons]
      rw [if_pos (by simp [h]), if_pos h]
      refine congrArg (g x :: ·) ?_
      refine (map_if_id xs (fun y => y.id = k) g ?_).symm
      intro y hy hyp
      exact hx (List.mem_map.mpr ⟨y, hy, by rw [hyp, h]⟩)
    · simp only [mapFirstP, List.map_cons]
      rw [if_neg (by simp [h]), if_neg h, ih hxs]

theorem reorder_fold_char (entries : List ReorderEntry) :
    ∀ (lo : List Outline) (lc : List Chapter),
      (lo.map (·.id)).Nodup → (lc.map (·.id)).Nodup →
      entries.foldl applyReorderEntry (lo, lc) =
        (lo.map (fun o => entries.foldl stepO o),
         lc.map (fun c => entries.foldl stepC c)) := by
  induction entries with
  | nil =>
    intro lo lc _ _
    simp
  | cons e t ih =>
    intro lo lc hndo hndc
    have hids_o : (lo.map (fun o => stepO o e)).map (·.id) = lo.map (·.id) := by
      rw [List.map_map]
      exact List.map_congr_left (fun o _ => stepO_id o e)
    have hids_c : (lc.map (fun c => stepC c e)).map (·.id) = lc.map (·.id) := by
      rw [List.map_map]
      exact List.map_congr_left (fun c _ => stepC_id c e)
    have h1 : applyReorderEntry (lo, lc) e =
        (lo.map (fun o => stepO o e), lc.map (fun c => stepC c e)) := by
      unfold applyReorderEntry
      refine congrArg₂ Prod.mk ?_ ?_
      · rw [mapFirstP_eq_map_outlineId lo e.outlineId _ hndo]
        exact List.map_congr_left (fun o _ => by unfold stepO; rfl)
      · cases hc : e.chapterId with
        | none =>
          show lc = lc.map (fun c => stepC c e)
          have hid : ∀ c ∈ lc, stepC c e = c := fun c _ => by
            unfold stepC
            rw [hc]
          symm
          rw [List.map_congr_left hid]
          simp
        | some cid =>
          show mapFirstP (·.id = cid)
            (fun c => { c with chapterNumber := e.newOrder, title := e.outlineTitle })
            lc = lc.map (fun c => stepC c e)
          rw [mapFirstP_eq_map_chapterId lc cid _ hndc]
          refine List.map_congr_left (fun c _ => ?_)
          show (if c.id = cid then
            ({ c with chapterNumber := e.newOrder, title := e.outlineTitle } : Chapter)
            else c) = stepC c e
          unfold stepC
          rw [hc]
    rw [List.foldl_cons, h1, ih _ _ (hids_o ▸ hndo) (hids_c ▸ hndc),
      List.map_map, List.map_map]
    rfl

theorem mapFirstP_map_key {γ : Type} (p : γ → Bool) (f : γ → γ)
    (key : γ → String) (hf : ∀ x, p x = true → key (f x) = key x) :
    ∀ l : List γ, (mapFirstP p f l).map key = l.map key := by
  intro l
  induction l with
  | nil => rfl
  | cons x xs ih =>
    simp only [mapFirstP]
    by_cases hx : p x = true
    · rw [if_pos hx, List.map_cons, List.map_cons, hf x hx]
    · rw [if_neg hx, List.map_cons, List.map_cons, ih]

theorem upsertItem_ids (acc : List ReorderItem) (it : ReorderItem)
    (h : (acc.map (·.id)).Nodup) : ((upsertItem acc it).map (·.id)).Nodup := by
  unfold upsertItem
  by_cases ha : acc.any (·.id = it.id) = true
  · rw [if_pos ha]
    rw [mapFirstP_map_key _ _ _ (fun x hx => by
      have hxe : x.id = it.id := by simpa using hx
      simp [hxe])]
    exact h
  · rw [if_neg ha]
    rw [List.map_append]
    refine List.Nodup.append h (List.nodup_singleton it.id) ?_
    intro a ha1 ha2
    rcases List.mem_map.mp ha1 with ⟨x, hx, hxe⟩
    have ha2' : a = it.id := by simpa using ha2
    apply ha
    rw [List.any_eq_true]
    exact ⟨x, hx, by simp [hxe, ha2']⟩

theorem foldl_upsert_ids (items : List ReorderItem) :
    ∀ acc : List ReorderItem, (acc.map (·.id)).Nodup →
      ((items.foldl upsertItem acc).map (·.id)).Nodup := by
  induction items with
  | nil => intro acc h; exact h
  | cons it t ih =>
    intro acc h
    exact ih (upsertItem acc it) (upsertItem_ids acc it h)

theorem dedupItems_ids (items : List ReorderItem) :
    ((dedupItems items).map (·.id)).Nodup := by
  unfold dedupItems
  exact foldl_upsert_ids items [] (by simp)

theorem filterMap_map_sublist {γ δ : Type} (f : γ → Option δ) (g : δ → String)
    (k : γ → String) (hgk : ∀ a b, f a = some b → g b = k a) (l : List γ) :
    ((l.filterMap f).map g).Sublist (l.map k) := by
  induction l with
  | nil => simp
  | cons a t ih =>
    rw [List.filterMap_cons, List.map_cons]
    cases hfa : f a with
    | none => exact ih.cons (k a)
    | some b =>
      rw [List.map_cons, hgk a b hfa]
      exact ih.cons₂ (k a)

theorem collect_entry_spec (db : StoreDB) (items : List ReorderItem)
    (e : ReorderEntry) (he : e ∈ collectReorderEntries db items) :
    ∃ o ∈ db.outlines, e.outlineId = o.id ∧ e.outlineTitle = o.title ∧
      e.oldOrder = o.orderIndex ∧
      e.chapterId = (db.chapters.find? (fun c =>
        c.projectId = o.projectId && c.chapterNumber = o.orderIndex)).map (·.id) := by
  unfold collectReorderEntries at he
  rcases List.mem_filterMap.mp he with ⟨it, hit, hfm⟩
  rcases Option.map_eq_some'.mp hfm with ⟨o, hfo, hrec⟩
  refine ⟨o, List.mem_of_find?_eq_some hfo, ?_, ?_, ?_, ?_⟩ <;> rw [← hrec]

theorem collect_ids_nodup (db : StoreDB) (items : List ReorderItem) :
    ((collectReorderEntries db items).map (·.outlineId)).Nodup := by
  unfold collectReorderEntries
  refine List.Nodup.sublist (filterMap_map_sublist _ _ _ ?_ _) (dedupItems_ids items)
  intro it e hfe
  rcases Option.map_eq_some'.mp hfe with ⟨o, hfo, hrec⟩
  rw [← hrec]
  show o.id = it.id
  simpa using List.find?_some hfo

theorem mem_pairwise_eq {γ : Type} (P : γ → γ → Prop) (l : List γ)
    (hp : l.Pairwise P) (a b : γ) (ha : a ∈ l) (hb : b ∈ l)
    (hab : ¬ P a b) (hba : ¬ P b a) : a = b := by
  induction l with
  | nil => cases ha
  | cons x xs ih =>
    rcases List.pairwise_cons.mp hp with ⟨hx, hxs⟩
    rcases List.mem_cons.mp ha with h1 | h1
    · rcases List.mem_cons.mp hb with h2 | h2
      · rw [h1, h2]
      · rw [h1] at hab ⊢
        exact absurd (hx b h2) hab
    · rcases List.mem_cons.mp hb with h2 | h2
      · rw [h2] at hba ⊢
        exact absurd (hx a h1) hba
      · exact ih hxs h1 h2

theorem key_inj_of_nodup_map {γ : Type} (key : γ → String) (l : List γ)
    (h : (l.map key).Nodup) (a b : γ) (ha : a ∈ l) (hb : b ∈ l)
    (hk : key a = key b) : a = b := by
  have hp : l.Pairwise (fun x y => key x ≠ key y) := List.pairwise_map.mp h
  exact mem_pairwise_eq _ l hp a b ha hb (fun hne => hne hk) (fun hne => hne hk.symm)

theorem find?_some_of_mem {γ : Type} (p : γ → Bool) (l : List γ) (a : γ)
    (ha : a ∈ l) (hp : p a = true) :
    ∃ b, l.find? p = some b ∧ p b = true ∧ b ∈ l := by
  induction l with
  | nil => cases ha
  | cons x xs ih =>
    cases hx : p x with
    | true => exact ⟨x, List.find?_cons_of_pos _ hx, hx, List.mem_cons_self x xs⟩
    | false =>
      have ha2 : a ∈ xs := by
        rcases List.mem_cons.mp ha with h2 | h2
        · rw [← h2, hp] at hx
          cases hx
        · exact h2
      rcases ih ha2 with ⟨b, hf, hpb, hmb⟩
      exact ⟨b, by rw [List.find?_cons_of_neg _ (by simp [hx]), hf], hpb,
        List.mem_cons_of_mem x hmb⟩

theorem entry_chapter_unique (db : StoreDB) (items : List ReorderItem)
    (hwf : wfStore db) (e : ReorderEntry)
    (he : e ∈ collectReorderEntries db items) (c : Chapter) (hc : c ∈ db.chapters)
    (o : Outline) (ho : o ∈ db.outlines)
    (hproj : c.projectId = o.projectId) (hnum : c.chapterNumber = o.orderIndex)
    (hcid : e.chapterId = some c.id) : e.outlineId = o.id := by
  rcases collect_entry_spec db items e he with ⟨o2, ho2, heid, _, _, hchap⟩
  rw [hchap] at hcid
  rcases Option.map_eq_some'.mp hcid with ⟨c2, hf2, hc2id⟩
  have hc2mem : c2 ∈ db.chapters := List.mem_of_find?_eq_some hf2
  have hp2 := List.find?_some hf2
  simp only [Bool.and_eq_true, decide_eq_true_eq] at hp2
  have hceq : c2 = c :=
    key_inj_of_nodup_map (fun x => x.id) db.chapters hwf.2.1 c2 c hc2mem hc hc2id
  have hproj2 : o2.projectId = o.projectId := by
    rw [← hp2.1, hceq]
    exact hproj
  have hord2 : o2.orderIndex = o.orderIndex := by
    rw [← hp2.2, hceq]
    exact hnum
  have ho2o : o2 = o :=
    mem_pairwise_eq _ db.outlines hwf.2.2.1 o2 o ho2 ho
      (fun hP => (hP hproj2) hord2) (fun hP => (hP hproj2.symm) hord2.symm)
  rw [heid, ho2o]

theorem reorder_preserves_pairing (db : StoreDB) (items : List ReorderItem)
    (hwf : wfStore db) (hpair : pairedDB db = true) :
    pairedDB (reorder_outlines db items) = true := by
  have hchar : reorder_outlines db items =
      { db with
          outlines := db.outlines.map
            (fun o => (collectReorderEntries db items).foldl stepO o)
          chapters := db.chapters.map
            (fun c => (collectReorderEntries db items).foldl stepC c) } := by
    unfold reorder_outlines
    rw [reorder_fold_char (collectReorderEntries db items) db.outlines db.chapters
      hwf.1 hwf.2.1]
  rw [hchar]
  have hpair' : ∀ x ∈ db.outlines, pairedOutline db.chapters x = true :=
    List.all_eq_true.mp hpair
  unfold pairedDB
  rw [List.all_eq_true]
  intro o2 ho2
  rcases List.mem_map.mp ho2 with ⟨o, ho, rfl⟩
  have hp := hpair' o ho
  unfold pairedOutline at hp
  rw [List.any_eq_true] at hp
  rcases hp with ⟨c, hc, hcb⟩
  simp only [Bool.and_eq_true, decide_eq_true_eq] at hcb
  obtain ⟨⟨⟨hproj, hnum⟩, htitle⟩, hsum⟩ := hcb
  by_cases hex : ∃ e ∈ collectReorderEntries db items, e.outlineId = o.id
  · rcases hex with ⟨e, he, heid⟩
    rcases collect_entry_spec db items e he with ⟨o2, ho2b, heid2, htitle2, _, hchap2⟩
    have ho2o : o2 = o := key_inj_of_nodup_map (fun x => x.id) db.outlines hwf.1
      o2 o ho2b ho (by show o2.id = o.id; rw [← heid2, heid])
    rw [ho2o] at htitle2 hchap2
    have hcpred :
        (fun ch => ch.projectId = o.projectId && ch.chapterNumber = o.orderIndex) c
          = true := by
      simp [hproj, hnum]
    rcases find?_some_of_mem
      (fun ch => ch.projectId = o.projectId && ch.chapterNumber = o.orderIndex)
      db.chapters c hc hcpred with ⟨c2, hf2, hp2, hm2⟩
    simp only [Bool.and_eq_true, decide_eq_true_eq] at hp2
    have hpc : c2.projectId = c.projectId := by rw [hp2.1, hproj]
    have hnc : c2.chapterNumber = c.chapterNumber := by rw [hp2.2, hnum]
    have hceq : c2 = c := mem_pairwise_eq _ db.chapters hwf.2.2.2 c2 c hm2 hc
      (fun hP => (hP hpc) hnc) (fun hP => (hP hpc.symm) hnc.symm)
    have hecid : e.chapterId = some c.id := by
      rw [hchap2, hf2]
      simp [hceq]
    rcases List.append_of_mem he with ⟨E1, E2, heqE⟩
    have hnod := collect_ids_nodup db items
    rw [heqE, List.map_append, List.map_cons] at hnod
    rcases List.nodup_append.mp hnod with ⟨hnd1, hnd2, hdisj⟩
    rcases List.nodup_cons.mp hnd2 with ⟨hnotin2, _⟩
    have hne1 : ∀ x ∈ E1, x.outlineId ≠ o.id := by
      intro x hx heq2
      exact hdisj (List.mem_map.mpr ⟨x, hx, rfl⟩) (by
        rw [heq2, ← heid]
        exact List.mem_cons_self _ _)
    have hne2 : ∀ x ∈ E2, x.outlineId ≠ o.id := by
      intro x hx heq2
      apply hnotin2
      rw [heid, ← heq2]
      exact List.mem_map.mpr ⟨x, hx, rfl⟩
    have hcne1 : ∀ x ∈ E1, x.chapterId ≠ some c.id := by
      intro x hx heq2
      exact hne1 x hx (entry_chapter_unique db items hwf x
        (by rw [heqE]; exact List.mem_append_left _ hx) c hc o ho hproj hnum heq2)
    have hcne2 : ∀ x ∈ E2, x.chapterId ≠ some c.id := by
      intro x hx heq2
      exact hne2 x hx (entry_chapter_unique db items hwf x
        (by rw [heqE]; exact List.mem_append_right _ (List.mem_cons_of_mem e hx))
        c hc o ho hproj hnum heq2)
    rw [heqE, stepO_foldl_single E1 E2 e o hne1 heid hne2]
    unfold pairedOutline
    rw [List.any_eq_true]
    refine ⟨{ c with chapterNumber := e.newOrder, title := e.outlineTitle }, ?_, ?_⟩
    · refine List.mem_map.mpr ⟨c, hc, ?_⟩
      exact stepC_foldl_single E1 E2 e c hcne1 hecid hcne2
    · simp [hproj, hsum, htitle2]
  · have hnoe : ∀ e ∈ collectReorderEntries db items, e.outlineId ≠ o.id :=
      fun e he heq => hex ⟨e, he, heq⟩
    have hoo : (collectReorderEntries db items).foldl stepO o = o :=
      stepO_foldl_none _ o hnoe
    have hcc : (collectReorderEntries db items).foldl stepC c = c :=
      stepC_foldl_none _ c (fun e he heq =>
        hnoe e he (entry_chapter_unique db items hwf e he c hc o ho hproj hnum heq))
    rw [hoo]
    unfold pairedOutline
    rw [List.any_eq_true]
    refine ⟨c, List.mem_map.mpr ⟨c, hc, hcc⟩, ?_⟩
    simp [hproj, hnum, htitle, hsum]

theorem dPartO_id (pre : List Outline) (x : Outline) : (dPartO pre x).id = x.id := by
  unfold dPartO
  split <;> rfl

theorem dPartO_projectId (pre : List Outline) (x : Outline) :
    (dPartO pre x).projectId = x.projectId := by
  unfold dPartO
  split <;> rfl

theorem dPartO_title (pre : List Outline) (x : Outline) :
    (dPartO pre x).title = x.title := by
  unfold dPartO
  split <;> rfl

theorem dPartO_content (pre : List Outline) (x : Outline) :
    (dPartO pre x).content = x.content := by
  unfold dPartO
  split <;> rfl

theorem dPartO_nil (x : Outline) : dPartO [] x = x := by
  unfold dPartO
  simp

theorem deleteFC_nil (pid : String) (c : Chapter) : deleteFC pid [] c = c := by
  unfold deleteFC
  simp

theorem delete_chapter_step (pid : String) (j : Int) (preOrds : List Int)
    (hlt : ∀ k ∈ preOrds, k < j) :
    ∀ lc : List Chapter,
      lc.Pairwise (fun a b => a.projectId = b.projectId →
        a.chapterNumber ≠ b.chapterNumber) →
      mapFirstP (fun c => c.projectId = pid && c.chapterNumber = j)
        (fun c => { c with chapterNumber := j - 1 })
        (lc.map (deleteFC pid preOrds)) =
      lc.map (deleteFC pid (preOrds ++ [j])) := by
  intro lc
  induction lc with
  | nil => intro _; rfl
  | cons c t ih =>
    intro hp
    rcases List.pairwise_cons.mp hp with ⟨hc, ht⟩
    rw [List.map_cons, List.map_cons]
    simp only [mapFirstP]
    by_cases hAC : c.projectId = pid ∧ c.chapterNumber = j
    · have hnotpre : ¬ (c.chapterNumber ∈ preOrds) := by
        intro hmem
        have h2 := hlt c.chapterNumber hmem
        rw [hAC.2] at h2
        exact absurd h2 (lt_irrefl j)
      have hFCc : deleteFC pid preOrds c = c := by
        unfold deleteFC
        rw [if_neg (fun hh => hnotpre hh.2)]
      rw [hFCc, if_pos (by simp [hAC.1, hAC.2])]
      have hhead : deleteFC pid (preOrds ++ [j]) c =
          { c with chapterNumber := j - 1 } := by
        unfold deleteFC
        rw [if_pos ⟨hAC.1, by
          rw [hAC.2]
          exact List.mem_append_right _ (List.mem_singleton.mpr rfl)⟩, hAC.2]
      rw [hhead]
      refine congrArg (_ :: ·) ?_
      refine List.map_congr_left (fun y hy => ?_)
      unfold deleteFC
      by_cases hyB : y.projectId = pid ∧ y.chapterNumber ∈ preOrds
      · rw [if_pos hyB, if_pos ⟨hyB.1, List.mem_append_left _ hyB.2⟩]
      · rw [if_neg hyB]
        rw [if_neg (by
          intro hh
          rcases List.mem_append.mp hh.2 with hmem | hmem
          · exact hyB ⟨hh.1, hmem⟩
          · rw [List.mem_singleton] at hmem
            exact ((hc y hy) (by rw [hAC.1, hh.1])) (by rw [hAC.2, hmem]))]
    · have hcond : ¬ ((deleteFC pid preOrds c).projectId = pid ∧
          (deleteFC pid preOrds c).chapterNumber = j) := by
        unfold deleteFC
        by_cases hcB : c.projectId = pid ∧ c.chapterNumber ∈ preOrds
        · rw [if_pos hcB]
          intro hh
          have h1 : c.chapterNumber - 1 = j := hh.2
          have h2 := hlt c.chapterNumber hcB.2
          omega
        · rw [if_neg hcB]
          exact hAC
      rw [if_neg (by
        simp only [Bool.and_eq_true, decide_eq_true_eq]
        exact hcond)]
      have hheadeq : deleteFC pid (preOrds ++ [j]) c = deleteFC pid preOrds c := by
        unfold deleteFC
        by_cases hcB : c.projectId = pid ∧ c.chapterNumber ∈ preOrds
        · rw [if_pos hcB, if_pos ⟨hcB.1, List.mem_append_left _ hcB.2⟩]
        · rw [if_neg hcB]
          rw [if_neg (by
            intro hh
            rcases List.mem_append.mp hh.2 with hmem | hmem
            · exact hcB ⟨hh.1, hmem⟩
            · rw [List.mem_singleton] at hmem
              exact hAC ⟨hh.1, hmem⟩)]
      rw [hheadeq]
      exact congrArg (_ :: ·) (ih ht)

theorem delete_outline_step (sub : Outline) (pre : List Outline)
    (hnotpre : sub.id ∉ pre.map (·.id)) (lo : List Outline)
    (hnd : (lo.map (·.id)).Nodup) :
    mapFirstP (·.id = sub.id) (fun x => { x with orderIndex := x.orderIndex - 1 })
      (lo.map (dPartO pre)) = lo.map (dPartO (pre ++ [sub])) := by
  have hids : (lo.map (dPartO pre)).map (·.id) = lo.map (·.id) := by
    rw [List.map_map]
    exact List.map_congr_left (fun x _ => dPartO_id pre x)
  rw [mapFirstP_eq_map_outlineId _ sub.id _ (by rw [hids]; exact hnd), List.map_map]
  refine List.map_congr_left (fun x _ => ?_)
  show (if (dPartO pre x).id = sub.id then
      { dPartO pre x with orderIndex := (dPartO pre x).orderIndex - 1 }
    else dPartO pre x) = dPartO (pre ++ [sub]) x
  rw [dPartO_id pre x]
  by_cases hx : x.id = sub.id
  · rw [if_pos hx]
    have hxpre : ¬ x.id ∈ pre.map (·.id) := by
      rw [hx]
      exact hnotpre
    have h1 : dPartO pre x = x := by
      unfold dPartO
      rw [if_neg hxpre]
    rw [h1]
    unfold dPartO
    rw [if_pos (by
      rw [List.map_append]
      exact List.mem_append_right _ (by simp [hx]))]
  · rw [if_neg hx]
    unfold dPartO
    by_cases hxpre : x.id ∈ pre.map (·.id)
    · rw [if_pos hxpre, if_pos (by
        rw [List.map_append]
        exact List.mem_append_left _ hxpre)]
    · rw [if_neg hxpre]
      rw [if_neg (by
        rw [List.map_append]
        intro hh
        rcases List.mem_append.mp hh with h2 | h2
        · exact hxpre h2
        · exact hx (by simpa using h2))]

theorem delete_fold_char (pid : String) (subs : List Outline)
    (lo : List Outline) (lc : List Chapter)
    (hndo : (lo.map (·.id)).Nodup)
    (hpc : lc.Pairwise (fun a b => a.projectId = b.projectId →
      a.chapterNumber ≠ b.chapterNumber))
    (hsubnd : (subs.map (·.id)).Nodup)
    (hsorted : subs.Pairwise (fun a b => a.orderIndex < b.orderIndex)) :
    ∀ (suf pre : List Outline), subs = pre ++ suf →
      suf.foldl (deleteStep pid)
        (lo.map (dPartO pre), lc.map (deleteFC pid (pre.map (·.orderIndex)))) =
      (lo.map (dPartO subs), lc.map (deleteFC pid (subs.map (·.orderIndex)))) := by
  intro suf
  induction suf with
  | nil =>
    intro pre hpre
    rw [List.append_nil] at hpre
    rw [hpre]
    rfl
  | cons sub suf ih =>
    intro pre hpre
    have hprenot : sub.id ∉ pre.map (·.id) := by
      have h := hsubnd
      rw [hpre, List.map_append, List.map_cons] at h
      rcases List.nodup_append.mp h with ⟨_, _, hdisj⟩
      intro hmem
      exact hdisj hmem (List.mem_cons_self _ _)
    have hlt : ∀ k ∈ pre.map (·.orderIndex), k < sub.orderIndex := by
      intro k hk
      rcases List.mem_map.mp hk with ⟨y, hy, rfl⟩
      have h := hsorted
      rw [hpre] at h
      rcases List.pairwise_append.mp h with ⟨_, _, hrel⟩
      exact hrel y hy sub (List.mem_cons_self _ _)
    rw [List.foldl_cons]
    have hstep : deleteStep pid
        (lo.map (dPartO pre), lc.map (deleteFC pid (pre.map (·.orderIndex)))) sub =
        (lo.map (dPartO (pre ++ [sub])),
         lc.map (deleteFC pid ((pre ++ [sub]).map (·.orderIndex)))) := by
      unfold deleteStep
      refine congrArg₂ Prod.mk ?_ ?_
      · exact delete_outline_step sub pre hprenot lo hndo
      · rw [delete_chapter_step pid sub.orderIndex (pre.map (·.orderIndex)) hlt lc hpc]
        rw [List.map_append]
        rfl
    rw [hstep]
    exact ih (pre ++ [sub]) (by rw [hpre]; simp)

theorem deleteSubs_mem_proj (db : StoreDB) (oid : String) (pid : String) (d : Int)
    (x : Outline) (hx : x ∈ deleteSubs db oid pid d) :
    x ∈ outlinesAfterErase db oid ∧ x.projectId = pid ∧ d < x.orderIndex := by
  unfold deleteSubs at hx
  have hx2 := (List.perm_insertionSort _ _).subset hx
  rcases List.mem_filter.mp hx2 with ⟨hmem, hpred⟩
  simp only [Bool.and_eq_true, decide_eq_true_eq] at hpred
  exact ⟨hmem, hpred.1, hpred.2⟩

theorem delete_outline_char (db : StoreDB) (oid : String) (o : Outline)
    (hf : db.outlines.find? (·.id = oid) = some o) (hwf : wfStore db) :
    delete_outline db oid =
      { db with
          outlines := (outlinesAfterErase db oid).map
            (dPartO (deleteSubs db oid o.projectId o.orderIndex))
          chapters := (chaptersAfterDelete db o.projectId o.orderIndex).map
            (deleteFC o.projectId
              ((deleteSubs db oid o.projectId o.orderIndex).map (·.orderIndex))) } := by
  have hndo : ((outlinesAfterErase db oid).map (·.id)).Nodup :=
    List.Nodup.sublist (List.Sublist.map _ (List.eraseP_sublist _)) hwf.1
  have hpc : (chaptersAfterDelete db o.projectId o.orderIndex).Pairwise
      (fun a b => a.projectId = b.projectId → a.chapterNumber ≠ b.chapterNumber) :=
    List.Pairwise.sublist (List.filter_sublist _) hwf.2.2.2
  have hfilnd : (((outlinesAfterErase db oid).filter
      (fun x => x.projectId = o.projectId && o.orderIndex < x.orderIndex)).map
        (·.id)).Nodup :=
    List.Nodup.sublist (List.Sublist.map _ (List.filter_sublist _)) hndo
  have hpermsub := List.perm_insertionSort
    (fun a b : Outline => a.orderIndex ≤ b.orderIndex)
    ((outlinesAfterErase db oid).filter
      (fun x => x.projectId = o.projectId && o.orderIndex < x.orderIndex))
  have hsubnd : ((deleteSubs db oid o.projectId o.orderIndex).map (·.id)).Nodup := by
    unfold deleteSubs
    exact (List.Perm.nodup_iff (hpermsub.map (·.id))).mpr hfilnd
  haveI instTot : IsTotal Outline (fun a b => a.orderIndex ≤ b.orderIndex) :=
    ⟨fun a b => Int.le_total _ _⟩
  haveI instTrans : IsTrans Outline (fun a b => a.orderIndex ≤ b.orderIndex) :=
    ⟨fun _ _ _ hab hbc => le_trans hab hbc⟩
  have hsorted : (deleteSubs db oid o.projectId o.orderIndex).Pairwise
      (fun a b => a.orderIndex < b.orderIndex) := by
    have hle : (deleteSubs db oid o.projectId o.orderIndex).Pairwise
        (fun a b => a.orderIndex ≤ b.orderIndex) :=
      List.sorted_insertionSort _ _
    have hR0 : db.outlines.Pairwise
        (fun a b => a.projectId = b.projectId → a.orderIndex ≠ b.orderIndex) :=
      hwf.2.2.1
    have hR1 : ((outlinesAfterErase db oid).filter
        (fun x => x.projectId = o.projectId && o.orderIndex < x.orderIndex)).Pairwise
        (fun a b => a.projectId = b.projectId → a.orderIndex ≠ b.orderIndex) :=
      List.Pairwise.sublist
        ((List.filter_sublist _).trans (List.eraseP_sublist _)) hR0
    have hRsym : Symmetric (fun a b : Outline =>
        a.projectId = b.projectId → a.orderIndex ≠ b.orderIndex) :=
      fun a b h hproj hord => (h hproj.symm) hord.symm
    have hR2 : (deleteSubs db oid o.projectId o.orderIndex).Pairwise
        (fun a b => a.projectId = b.projectId → a.orderIndex ≠ b.orderIndex) := by
      unfold deleteSubs
      exact (List.Perm.pairwise_iff (fun hab => hRsym hab) hpermsub).mpr hR1
    have hne : (deleteSubs db oid o.projectId o.orderIndex).Pairwise
        (fun a b => a.orderIndex ≠ b.orderIndex) := by
      refine List.Pairwise.imp_of_mem ?_ hR2
      intro a b ha hb hR
      exact hR (by
        rw [(deleteSubs_mem_proj db oid _ _ a ha).2.1,
          (deleteSubs_mem_proj db oid _ _ b hb).2.1])
    exact (hle.and hne).imp (fun h => lt_of_le_of_ne h.1 h.2)
  unfold delete_outline
  rw [hf]
  show ({ db with
      outlines := ((deleteSubs db oid o.projectId o.orderIndex).foldl
        (deleteStep o.projectId)
        (outlinesAfterErase db oid,
         chaptersAfterDelete db o.projectId o.orderIndex)).1
      chapters := ((deleteSubs db oid o.projectId o.orderIndex).foldl
        (deleteStep o.projectId)
        (outlinesAfterErase db oid,
         chaptersAfterDelete db o.projectId o.orderIndex)).2 } : StoreDB) = _
  have hmain := delete_fold_char o.projectId
    (deleteSubs db oid o.projectId o.orderIndex)
    (outlinesAfterErase db oid) (chaptersAfterDelete db o.projectId o.orderIndex)
    hndo hpc hsubnd hsorted (deleteSubs db oid o.projectId o.orderIndex) []
    (by simp)
  simp only [List.map_nil] at hmain
  rw [show (outlinesAfterErase db oid).map (dPartO []) =
      outlinesAfterErase db oid from by
    rw [List.map_congr_left (fun x _ => dPartO_nil x)]
    simp] at hmain
  rw [show (chaptersAfterDelete db o.projectId o.orderIndex).map
      (deleteFC o.projectId []) =
      chaptersAfterDelete db o.projectId o.orderIndex from by
    rw [List.map_congr_left (fun c _ => deleteFC_nil o.projectId c)]
    simp] at hmain
  rw [hmain]

theorem deleteFC_title (pid : String) (orders : List Int) (c : Chapter) :
    (deleteFC pid orders c).title = c.title := by
  unfold deleteFC
  split <;> rfl

theorem deleteFC_summary (pid : String) (orders : List Int) (c : Chapter) :
    (deleteFC pid orders c).summary = c.summary := by
  unfold deleteFC
  split <;> rfl

theorem delete_preserves_pairing (db : StoreDB) (oid : String)
    (hwf : wfStore db) (hpair : pairedDB db = true) :
    pairedDB (delete_outline db oid) = true := by
  cases hf : db.outlines.find? (·.id = oid) with
  | none =>
    unfold delete_outline
    rw [hf]
    exact hpair
  | some o =>
    rw [delete_outline_char db oid o hf hwf]
    have hpair' : ∀ x ∈ db.outlines, pairedOutline db.chapters x = true :=
      List.all_eq_true.mp hpair
    have homem : o ∈ db.outlines := List.mem_of_find?_eq_some hf
    rcases find?_decomp _ _ _ hf with ⟨L1, L2, heqL, hL1, hoP⟩
    have hErase : outlinesAfterErase db oid = L1 ++ L2 := by
      unfold outlinesAfterErase
      rw [heqL]
      exact eraseP_append_cons _ L1 L2 o hL1 hoP
    unfold pairedDB
    rw [List.all_eq_true]
    intro x' hx'
    rcases List.mem_map.mp hx' with ⟨x, hx, rfl⟩
    have hxdb : x ∈ db.outlines := by
      rw [heqL]
      rw [hErase] at hx
      rcases List.mem_append.mp hx with h1 | h1
      · exact List.mem_append_left _ h1
      · exact List.mem_append_right _ (List.mem_cons_of_mem o h1)
    have hxneo : ¬(x.projectId = o.projectId ∧ x.orderIndex = o.orderIndex) := by
      intro hand
      have hxo : x = o := mem_pairwise_eq _ db.outlines hwf.2.2.1 x o hxdb homem
        (fun hP => (hP hand.1) hand.2) (fun hP => (hP hand.1.symm) hand.2.symm)
      rw [hErase] at hx
      rw [hxo] at hx
      have hnod := hwf.1
      rw [heqL, List.map_append, List.map_cons] at hnod
      rcases List.nodup_append.mp hnod with ⟨_, hnd2, hdisj⟩
      rcases List.nodup_cons.mp hnd2 with ⟨hnotin2, _⟩
      rcases List.mem_append.mp hx with h1 | h1
      · exact hdisj (List.mem_map.mpr ⟨o, h1, rfl⟩) (List.mem_cons_self _ _)
      · exact hnotin2 (List.mem_map.mpr ⟨o, h1, rfl⟩)
    have hp := hpair' x hxdb
    unfold pairedOutline at hp
    rw [List.any_eq_true] at hp
    rcases hp with ⟨c, hc, hcb⟩
    simp only [Bool.and_eq_true, decide_eq_true_eq] at hcb
    obtain ⟨⟨⟨hproj, hnum⟩, htitle⟩, hsum⟩ := hcb
    have hcnotdel : ¬(c.projectId = o.projectId ∧ c.chapterNumber = o.orderIndex) :=
      fun hand => hxneo ⟨by rw [← hproj]; exact hand.1, by rw [← hnum]; exact hand.2⟩
    have hcmem : c ∈ chaptersAfterDelete db o.projectId o.orderIndex := by
      unfold chaptersAfterDelete
      refine List.mem_filter.mpr ⟨hc, ?_⟩
      simp
      exact not_and_or.mp hcnotdel
    by_cases hcond : x.projectId = o.projectId ∧ o.orderIndex < x.orderIndex
    · have hxsubs : x ∈ deleteSubs db oid o.projectId o.orderIndex := by
        unfold deleteSubs
        refine (List.perm_insertionSort _ _).mem_iff.mpr ?_
        refine List.mem_filter.mpr ⟨hx, ?_⟩
        simp [hcond.1, hcond.2]
      have hdx : dPartO (deleteSubs db oid o.projectId o.orderIndex) x =
          { x with orderIndex := x.orderIndex - 1 } := by
        unfold dPartO
        rw [if_pos (List.mem_map.mpr ⟨x, hxsubs, rfl⟩)]
      rw [hdx]
      unfold pairedOutline
      rw [List.any_eq_true]
      refine ⟨{ c with chapterNumber := c.chapterNumber - 1 }, ?_, ?_⟩
      · refine List.mem_map.mpr ⟨c, hcmem, ?_⟩
        unfold deleteFC
        rw [if_pos ⟨(by rw [hproj]; exact hcond.1),
          (by rw [hnum]; exact List.mem_map.mpr ⟨x, hxsubs, rfl⟩)⟩]
      · simp [hproj, hnum, htitle, hsum]
    · have hxnsubs : x.id ∉ (deleteSubs db oid o.projectId o.orderIndex).map (·.id) := by
        intro hmem
        rcases List.mem_map.mp hmem with ⟨y, hy, hye⟩
        rcases deleteSubs_mem_proj db oid _ _ y hy with ⟨hymem, hyproj, hyord⟩
        have hydb : y ∈ db.outlines := by
          rw [hErase] at hymem
          rw [heqL]
          rcases List.mem_append.mp hymem with h1 | h1
          · exact List.mem_append_left _ h1
          · exact List.mem_append_right _ (List.mem_cons_of_mem o h1)
        have hxy : y = x :=
          key_inj_of_nodup_map (fun z => z.id) db.outlines hwf.1 y x hydb hxdb hye
        rw [hxy] at hyproj hyord
        exact hcond ⟨hyproj, hyord⟩
      have hdx : dPartO (deleteSubs db oid o.projectId o.orderIndex) x = x := by
        unfold dPartO
        rw [if_neg hxnsubs]
      rw [hdx]
      have hcFC : deleteFC o.projectId
          ((deleteSubs db oid o.projectId o.orderIndex).map (·.orderIndex)) c = c := by
        unfold deleteFC
        rw [if_neg (by
          intro hh
          rcases List.mem_map.mp hh.2 with ⟨y, hy, hye⟩
          rcases deleteSubs_mem_proj db oid _ _ y hy with ⟨hymem, hyproj, hyord⟩
          have hydb : y ∈ db.outlines := by
            rw [hErase] at hymem
            rw [heqL]
            rcases List.mem_append.mp hymem with h1 | h1
            · exact List.mem_append_left _ h1
            · exact List.mem_append_right _ (List.mem_cons_of_mem o h1)
          have e1 : y.projectId = x.projectId := by
            rw [hyproj, ← hh.1, hproj]
          have e2 : y.orderIndex = x.orderIndex := by
            rw [hye, ← hnum]
          have hyx : y = x := mem_pairwise_eq _ db.outlines hwf.2.2.1 y x hydb hxdb
            (fun hP => (hP e1) e2) (fun hP => (hP e1.symm) e2.symm)
          rw [hyx] at hyproj hyord
          exact hcond ⟨hyproj, hyord⟩)]
      unfold pairedOutline
      rw [List.any_eq_true]
      refine ⟨c, List.mem_map.mpr ⟨c, hcmem, hcFC⟩, ?_⟩
      simp [hproj, hnum, htitle, hsum]

theorem updatedOutlineRow_projectId (req : OutlineUpdateReq) (o : Outline) :
    (updatedOutlineRow req o).projectId = o.projectId := rfl

theorem updatedOutlineRow_orderIndex (req : OutlineUpdateReq) (o : Outline) :
    (updatedOutlineRow req o).orderIndex = o.orderIndex := rfl

theorem updatedOutlineRow_title (req : OutlineUpdateReq) (o : Outline) :
    (updatedOutlineRow req o).title = req.title.getD o.title := rfl

theorem updatedOutlineRow_content (req : OutlineUpdateReq) (o : Outline) :
    (updatedOutlineRow req o).content = req.content.getD o.content := rfl

theorem syncChapterRow_projectId (req : OutlineUpdateReq) (o1 : Outline)
    (c : Chapter) : (syncChapterRow req o1 c).projectId = c.projectId := by
  unfold syncChapterRow syncTitleRow
  split <;> split <;> rfl

theorem syncChapterRow_chapterNumber (req : OutlineUpdateReq) (o1 : Outline)
    (c : Chapter) : (syncChapterRow req o1 c).chapterNumber = c.chapterNumber := by
  unfold syncChapterRow syncTitleRow
  split <;> split <;> rfl

theorem syncChapterRow_title_some (req : OutlineUpdateReq) (o1 : Outline)
    (c : Chapter) (hT : req.title.isSome = true) :
    (syncChapterRow req o1 c).title = o1.title := by
  unfold syncChapterRow syncTitleRow
  rw [if_pos hT]
  split <;> rfl

theorem syncChapterRow_title_none (req : OutlineUpdateReq) (o1 : Outline)
    (c : Chapter) (hT : req.title = none) :
    (syncChapterRow req o1 c).title = c.title := by
  unfold syncChapterRow syncTitleRow
  rw [show req.title.isSome = false from by simp [hT]]
  simp only [Bool.false_eq_true, if_false]
  split <;> rfl

theorem syncChapterRow_summary_some (req : OutlineUpdateReq) (o1 : Outline)
    (c : Chapter) (hC : req.content.isSome = true) :
    (syncChapterRow req o1 c).summary = some (pyTake o1.content 500) := by
  unfold syncChapterRow
  rw [if_pos hC]

theorem syncChapterRow_summary_none (req : OutlineUpdateReq) (o1 : Outline)
    (c : Chapter) (hC : req.content = none) :
    (syncChapterRow req o1 c).summary = c.summary := by
  unfold syncChapterRow syncTitleRow
  rw [if_neg (by simp [hC])]
  split <;> rfl

theorem create_preserves_pairing (db : StoreDB) (req : OutlineCreateReq)
    (noid ncid : String) (db' : StoreDB)
    (hpair : pairedDB db = true)
    (hok : create_outline db req noid ncid = .ok db') :
    pairedDB db' = true := by
  unfold create_outline at hok
  by_cases hp : db.projectIds.contains req.projectId = true
  · rw [if_neg (by simp; exact List.elem_iff.mp hp)] at hok
    cases hok
    unfold pairedDB
    rw [List.all_eq_true]
    intro x hx
    rcases List.mem_append.mp hx with h1 | h1
    · have hp2 := List.all_eq_true.mp hpair x h1
      unfold pairedOutline at hp2 ⊢
      rw [List.any_eq_true] at hp2 ⊢
      rcases hp2 with ⟨c, hc, hcb⟩
      exact ⟨c, List.mem_append_left _ hc, hcb⟩
    · rw [List.mem_singleton.mp h1]
      unfold pairedOutline
      rw [List.any_eq_true]
      refine ⟨{ id := ncid, projectId := req.projectId,
                chapterNumber := req.orderIndex, title := req.title,
                content := none, summary := some (pyTake req.content 500),
                wordCount := 0, status := "draft" }, ?_, ?_⟩
      · exact List.mem_append_right _ (List.mem_singleton.mpr rfl)
      · simp
  · rw [if_pos (by
      simp
      exact fun hmem => hp (List.elem_iff.mpr hmem))] at hok
    exact Except.noConfusion hok

theorem update_preserves_pairing (db : StoreDB) (oid : String)
    (req : OutlineUpdateReq) (db' : StoreDB)
    (hwf : wfStore db) (hpair : pairedDB db = true)
    (hok : update_outline db oid req = .ok db') :
    pairedDB db' = true := by
  cases hf : db.outlines.find? (·.id = oid) with
  | none =>
    unfold update_outline at hok
    rw [hf] at hok
    exact Except.noConfusion hok
  | some o =>
    have hfound : update_outline db oid req = .ok (updateOutlineOk db oid req o) := by
      unfold update_outline
      rw [hf]
    rw [hfound] at hok
    cases hok
    rcases find?_decomp _ _ _ hf with ⟨L1, L2, heqL, hL1, hoP⟩
    have homem : o ∈ db.outlines := List.mem_of_find?_eq_some hf
    have hOut : mapFirstP (·.id = oid) (fun _ => updatedOutlineRow req o)
        db.outlines = L1 ++ updatedOutlineRow req o :: L2 := by
      rw [heqL]
      exact mapFirstP_append_cons _ _ L1 L2 o hL1 hoP
    have hpo := List.all_eq_true.mp hpair o homem
    unfold pairedOutline at hpo
    rw [List.any_eq_true] at hpo
    rcases hpo with ⟨c, hc, hcb⟩
    simp only [Bool.and_eq_true, decide_eq_true_eq] at hcb
    obtain ⟨⟨⟨hproj, hnum⟩, htitle⟩, hsum⟩ := hcb
    have hother : ∀ x, x ∈ L1 ∨ x ∈ L2 →
        ¬(x.projectId = o.projectId ∧ x.orderIndex = o.orderIndex) := by
      intro x hmem hand
      have hxdb : x ∈ db.outlines := by
        rw [heqL]
        rcases hmem with h1 | h1
        · exact List.mem_append_left _ h1
        · exact List.mem_append_right _ (List.mem_cons_of_mem o h1)
      have hxo : x = o := mem_pairwise_eq _ db.outlines hwf.2.2.1 x o hxdb homem
        (fun hP => (hP hand.1) hand.2) (fun hP => (hP hand.1.symm) hand.2.symm)
      have hnod := hwf.1
      rw [heqL, List.map_append, List.map_cons] at hnod
      rcases List.nodup_append.mp hnod with ⟨_, hnd2, hdisj⟩
      rcases List.nodup_cons.mp hnd2 with ⟨hnotin2, _⟩
      rcases hmem with h1 | h1
      · rw [hxo] at h1
        exact hdisj (List.mem_map.mpr ⟨o, h1, rfl⟩) (List.mem_cons_self _ _)
      · rw [hxo] at h1
        exact hnotin2 (List.mem_map.mpr ⟨o, h1, rfl⟩)
    have hpair' : ∀ x ∈ db.outlines, pairedOutline db.chapters x = true :=
      List.all_eq_true.mp hpair
    by_cases hbr : (req.title.isSome || req.content.isSome) = true
    · have hdb' : updateOutlineOk db oid req o =
          { db with
              outlines := mapFirstP (·.id = oid)
                (fun _ => updatedOutlineRow req o) db.outlines
              chapters := mapFirstP
                (fun c => c.projectId = (updatedOutlineRow req o).projectId &&
                  c.chapterNumber = (updatedOutlineRow req o).orderIndex)
                (syncChapterRow req (updatedOutlineRow req o))
                db.chapters } := by
        unfold updateOutlineOk
        rw [if_pos hbr]
      rw [hdb']
      have hcpred : (fun ch => ch.projectId = (updatedOutlineRow req o).projectId &&
          ch.chapterNumber = (updatedOutlineRow req o).orderIndex) c = true := by
        simp [updatedOutlineRow_projectId, updatedOutlineRow_orderIndex, hproj, hnum]
      rcases find?_some_of_mem
        (fun ch => ch.projectId = (updatedOutlineRow req o).projectId &&
          ch.chapterNumber = (updatedOutlineRow req o).orderIndex)
        db.chapters c hc hcpred with ⟨c2, hf2, hp2, hm2⟩
      simp only [Bool.and_eq_true, decide_eq_true_eq, updatedOutlineRow_projectId,
        updatedOutlineRow_orderIndex] at hp2
      have e1 : c2.projectId = c.projectId := by rw [hp2.1, hproj]
      have e2 : c2.chapterNumber = c.chapterNumber := by rw [hp2.2, hnum]
      have hceq : c2 = c := mem_pairwise_eq _ db.chapters hwf.2.2.2 c2 c hm2 hc
        (fun hP => (hP e1) e2) (fun hP => (hP e1.symm) e2.symm)
      rcases find?_decomp _ _ _ hf2 with ⟨M1, M2, heqM, hM1, hcP⟩
      have hChap : mapFirstP
          (fun ch => ch.projectId = (updatedOutlineRow req o).projectId &&
            ch.chapterNumber = (updatedOutlineRow req o).orderIndex)
          (syncChapterRow req (updatedOutlineRow req o)) db.chapters =
          M1 ++ syncChapterRow req (updatedOutlineRow req o) c2 :: M2 := by
        rw [heqM]
        exact mapFirstP_append_cons _ _ M1 M2 c2 hM1 hcP
      unfold pairedDB
      rw [List.all_eq_true]
      intro x hx
      have hx2 : x ∈ L1 ++ updatedOutlineRow req o :: L2 := by
        rw [← hOut]
        exact hx
      unfold pairedOutline
      rw [List.any_eq_true]
      rcases List.mem_append.mp hx2 with h1 | h1
      · -- x in L1: old outline, untouched witness
        have hxdb : x ∈ db.outlines := by
          rw [heqL]
          exact List.mem_append_left _ h1
        have hpx := hpair' x hxdb
        unfold pairedOutline at hpx
        rw [List.any_eq_true] at hpx
        rcases hpx with ⟨cx, hcx, hcxb⟩
        simp only [Bool.and_eq_true, decide_eq_true_eq] at hcxb
        obtain ⟨⟨⟨hxproj, hxnum⟩, hxtitle⟩, hxsum⟩ := hcxb
        have hcxne : cx ≠ c2 := by
          intro hcc
          refine hother x (Or.inl h1) ⟨?_, ?_⟩
          · rw [← hxproj, hcc, hceq, hproj]
          · rw [← hxnum, hcc, hceq, hnum]
        have hcxmem : cx ∈ M1 ++ M2 := by
          have : cx ∈ M1 ++ c2 :: M2 := by rw [← heqM]; exact hcx
          rcases List.mem_append.mp this with h2 | h2
          · exact List.mem_append_left _ h2
          · rcases List.mem_cons.mp h2 with h3 | h3
            · exact absurd h3 hcxne
            · exact List.mem_append_right _ h3
        refine ⟨cx, ?_, by simp [hxproj, hxnum, hxtitle, hxsum]⟩
        rw [hChap]
        rcases List.mem_append.mp hcxmem with h2 | h2
        · exact List.mem_append_left _ h2
        · exact List.mem_append_right _ (List.mem_cons_of_mem _ h2)
      · rcases List.mem_cons.mp h1 with h2 | h2
        · -- x is the updated row
          rw [h2]
          refine ⟨syncChapterRow req (updatedOutlineRow req o) c2, ?_, ?_⟩
          · rw [hChap]
            exact List.mem_append_right _ (List.mem_cons_self _ _)
          · rw [hceq]
            simp only [Bool.and_eq_true, decide_eq_true_eq]
            refine ⟨⟨⟨?_, ?_⟩, ?_⟩, ?_⟩
            · rw [syncChapterRow_projectId, hproj, updatedOutlineRow_projectId]
            · rw [syncChapterRow_chapterNumber, hnum, updatedOutlineRow_orderIndex]
            · cases hT : req.title with
              | some v =>
                rw [syncChapterRow_title_some _ _ _ (by rw [hT]; rfl)]
              | none =>
                rw [syncChapterRow_title_none _ _ _ hT, htitle,
                  updatedOutlineRow_title, hT]
                rfl
            · cases hC : req.content with
              | some v =>
                rw [syncChapterRow_summary_some _ _ _ (by rw [hC]; rfl)]
              | none =>
                rw [syncChapterRow_summary_none _ _ _ hC, hsum,
                  updatedOutlineRow_content, hC]
                rfl
        · -- x in L2
          have hxdb : x ∈ db.outlines := by
            rw [heqL]
            exact List.mem_append_right _ (List.mem_cons_of_mem o h2)
          have hpx := hpair' x hxdb
          unfold pairedOutline at hpx
          rw [List.any_eq_true] at hpx
          rcases hpx with ⟨cx, hcx, hcxb⟩
          simp only [Bool.and_eq_true, decide_eq_true_eq] at hcxb
          obtain ⟨⟨⟨hxproj, hxnum⟩, hxtitle⟩, hxsum⟩ := hcxb
          have hcxne : cx ≠ c2 := by
            intro hcc
            refine hother x (Or.inr h2) ⟨?_, ?_⟩
            · rw [← hxproj, hcc, hceq, hproj]
            · rw [← hxnum, hcc, hceq, hnum]
          have hcxmem : cx ∈ M1 ++ M2 := by
            have : cx ∈ M1 ++ c2 :: M2 := by rw [← heqM]; exact hcx
            rcases List.mem_append.mp this with h3 | h3
            · exact List.mem_append_left _ h3
            · rcases List.mem_cons.mp h3 with h4 | h4
              · exact absurd h4 hcxne
              · exact List.mem_append_right _ h4
          refine ⟨cx, ?_, by simp [hxproj, hxnum, hxtitle, hxsum]⟩
          rw [hChap]
          rcases List.mem_append.mp hcxmem with h3 | h3
          · exact List.mem_append_left _ h3
          · exact List.mem_append_right _ (List.mem_cons_of_mem _ h3)
    · have hdb' : updateOutlineOk db oid req o =
          { db with
              outlines := mapFirstP (·.id = oid)
                (fun _ => updatedOutlineRow req o) db.outlines } := by
        unfold updateOutlineOk
        rw [if_neg hbr]
      rw [hdb']
      have hT : req.title = none := by
        cases h : req.title with
        | none => rfl
        | some v => exact absurd (by simp [h]) hbr
      have hC : req.content = none := by
        cases h : req.content with
        | none => rfl
        | some v => exact absurd (by simp [h]) hbr
      unfold pairedDB
      rw [List.all_eq_true]
      intro x hx
      have hx2 : x ∈ L1 ++ updatedOutlineRow req o :: L2 := by
        rw [← hOut]
        exact hx
      unfold pairedOutline
      rw [List.any_eq_true]
      rcases List.mem_append.mp hx2 with h1 | h1
      · have hxdb : x ∈ db.outlines := by
          rw [heqL]
          exact List.mem_append_left _ h1
        have hpx := hpair' x hxdb
        unfold pairedOutline at hpx
        rw [List.any_eq_true] at hpx
        exact hpx
      · rcases List.mem_cons.mp h1 with h2 | h2
        · rw [h2]
          refine ⟨c, hc, ?_⟩
          simp only [Bool.and_eq_true, decide_eq_true_eq]
          refine ⟨⟨⟨?_, ?_⟩, ?_⟩, ?_⟩
          · rw [hproj, updatedOutlineRow_projectId]
          · rw [hnum, updatedOutlineRow_orderIndex]
          · rw [htitle, updatedOutlineRow_title, hT]
            rfl
          · rw [hsum, updatedOutlineRow_content, hC]
            rfl
        · have hxdb : x ∈ db.outlines := by
            rw [heqL]
            exact List.mem_append_right _ (List.mem_cons_of_mem o h2)
          have hpx := hpair' x hxdb
          unfold pairedOutline at hpx
          rw [List.any_eq_true] at hpx
          exact hpx

/-- C4: every outline operation — create, update, delete and reorder —
preserves the outline↔chapter pairing invariant: for each outline with
`order_index = k` there is a chapter of the same project with
`chapter_number = k` carrying the outline's title and the first 500
characters of its content as summary.  Update, delete and reorder
additionally assume the schema-level uniqueness of primary keys and of
`(project, order)` pairs (`wfStore`), which the database enforces. -/
theorem outline_chapter_pairing :
    (∀ (db : StoreDB) (req : OutlineCreateReq) (noid ncid : String)
       (db' : StoreDB), pairedDB db = true →
       create_outline db req noid ncid = .ok db' → pairedDB db' = true) ∧
    (∀ (db : StoreDB) (oid : String) (req : OutlineUpdateReq) (db' : StoreDB),
       wfStore db → pairedDB db = true →
       update_outline db oid req = .ok db' → pairedDB db' = true) ∧
    (∀ (db : StoreDB) (oid : String), wfStore db → pairedDB db = true →
       pairedDB (delete_outline db oid) = true) ∧
    (∀ (db : StoreDB) (items : List ReorderItem), wfStore db →
       pairedDB db = true → pairedDB (reorder_outlines db items) = true) := by
  refine ⟨?_, ?_, ?_, ?_⟩
  · intro db req noid ncid db' hpair hok
    exact create_preserves_pairing db req noid ncid db' hpair hok
  · intro db oid req db' hwf hpair hok
    exact update_preserves_pairing db oid req db' hwf hpair hok
  · intro db oid hwf hpair
    exact delete_preserves_pairing db oid hwf hpair
  · intro db items hwf hpair
    exact reorder_preserves_pairing db items hwf hpair

/-- Witness: the pairing invariant survives a concrete swap-reorder and a
concrete delete on a two-outline store. -/
theorem outline_chapter_pairing_witness :
    pairedDB (reorder_outlines exStoreDB exReorderItems) = true ∧
    pairedDB (delete_outline exStoreDB "o1") = true :=
  ⟨outline_chapter_pairing.2.2.2 exStoreDB exReorderItems (by decide) (by decide),
   outline_chapter_pairing.2.2.1 exStoreDB "o1" (by decide) (by decide)⟩

theorem rangeIcc1_length (n : Nat) : (rangeIcc1 n).length = n := by
  unfold rangeIcc1
  rw [List.length_map, List.length_range]

theorem mem_rangeIcc1 (n : Nat) (v : Int) :
    v ∈ rangeIcc1 n ↔ 1 ≤ v ∧ v ≤ (n : Int) := by
  unfold rangeIcc1
  simp only [List.mem_map, List.mem_range]
  constructor
  · rintro ⟨i, hi, hv⟩
    omega
  · intro hv
    refine ⟨(v - 1).toNat, ?_, ?_⟩ <;> omega

theorem rangeIcc1_sorted (n : Nat) :
    List.Sorted (fun a b : Int => a ≤ b) (rangeIcc1 n) := by
  show List.Pairwise _ _
  unfold rangeIcc1
  refine List.pairwise_map.mpr ?_
  refine List.Pairwise.imp ?_ (List.pairwise_lt_range n)
  intro a b hab
  omega

theorem contiguous_of_perm_range (l : List Int) (n : Nat)
    (h : l.Perm (rangeIcc1 n)) :
    List.insertionSort (fun a b => a ≤ b) l = rangeIcc1 l.length := by
  haveI instTot : IsTotal Int (fun a b => a ≤ b) :=
    ⟨fun a b => le_total a b⟩
  haveI instTrans : IsTrans Int (fun a b => a ≤ b) :=
    ⟨fun a b c hab hbc => le_trans hab hbc⟩
  haveI instAnti : IsAntisymm Int (fun a b => a ≤ b) :=
    ⟨fun a b hab hba => le_antisymm hab hba⟩
  have hlen : l.length = n := by
    rw [h.length_eq, rangeIcc1_length]
  rw [hlen]
  exact List.eq_of_perm_of_sorted ((List.perm_insertionSort _ l).trans h)
    (List.sorted_insertionSort _ l) (rangeIcc1_sorted n)

theorem rangeIcc1_append (a b : Nat) :
    rangeIcc1 (a + b) =
      rangeIcc1 a ++
        (List.range b).map (fun i => ((a : Int) + ((i : Nat) : Int) + 1)) := by
  unfold rangeIcc1
  rw [List.range_add, List.map_append, List.map_map]
  congr 1

theorem erase_map_dec (k n : Nat) (hk : 1 ≤ k) (hkn : k ≤ n) :
    ((rangeIcc1 n).erase (k : Int)).map (decIf (k : Int)) =
      rangeIcc1 (n - 1) := by
  obtain ⟨m, rfl⟩ : ∃ m, n = (k - 1) + (1 + m) := ⟨n - k, by omega⟩
  have hsplit : rangeIcc1 ((k - 1) + (1 + m)) =
      rangeIcc1 (k - 1) ++ (k : Int) ::
        (List.range m).map (fun i => ((k : Int) + ((i : Nat) : Int) + 1)) := by
    rw [rangeIcc1_append (k - 1) (1 + m), List.range_add, List.map_append,
      List.map_map]
    congr 1
    show List.map _ (List.range 1) ++ _ = _
    have h1 : (List.range 1).map
        (fun i => (((k - 1 : Nat) : Int) + ((i : Nat) : Int) + 1)) =
        [(k : Int)] := by
      show [(((k - 1 : Nat) : Int) + (((0 : Nat) : Nat) : Int) + 1)] = [(k : Int)]
      congr 1
      push_cast
      omega
    rw [h1]
    show _ = [(k : Int)] ++ _
    congr 1
    apply List.map_congr_left
    intro i _
    show (((k - 1 : Nat) : Int) + ((1 + i : Nat) : Int) + 1) =
      (k : Int) + ((i : Nat) : Int) + 1
    push_cast
    omega
  rw [hsplit]
  have hknot : (k : Int) ∉ rangeIcc1 (k - 1) := by
    rw [mem_rangeIcc1]
    omega
  rw [List.erase_append_right _ hknot, List.erase_cons_head, List.map_append,
    List.map_map]
  have hleft : (rangeIcc1 (k - 1)).map (decIf (k : Int)) = rangeIcc1 (k - 1) := by
    rw [show rangeIcc1 (k - 1) = (rangeIcc1 (k - 1)).map (fun v => v) from
      (List.map_id' (rangeIcc1 (k - 1))).symm]
    rw [List.map_map]
    apply List.map_congr_left
    intro v hv
    rcases (mem_rangeIcc1 (k - 1) v).mp hv with ⟨h1, h2⟩
    show decIf (k : Int) v = v
    unfold decIf
    rw [if_neg (by omega)]
  rw [hleft]
  have hright : (List.range m).map
      ((decIf (k : Int)) ∘ (fun i => ((k : Int) + ((i : Nat) : Int) + 1))) =
      (List.range m).map
        (fun i => ((((k - 1 : Nat)) : Int) + ((i : Nat) : Int) + 1)) := by
    apply List.map_congr_left
    intro i _
    show decIf (k : Int) ((k : Int) + ((i : Nat) : Int) + 1) =
      (((k - 1 : Nat)) : Int) + ((i : Nat) : Int) + 1
    unfold decIf
    rw [if_pos (by omega)]
    omega
  rw [hright]
  have hfin : (k - 1) + (1 + m) - 1 = (k - 1) + m := by omega
  rw [hfin, rangeIcc1_append (k - 1) m]

theorem dec_perm (n : Nat) (d : Int) (l : List Int)
    (h : (d :: l).Perm (rangeIcc1 n)) :
    (l.map (decIf d)).Perm (rangeIcc1 (n - 1)) := by
  have hd : d ∈ rangeIcc1 n := h.mem_iff.mp (List.mem_cons_self d l)
  rcases (mem_rangeIcc1 n d).mp hd with ⟨h1, h2⟩
  have hl : l.Perm ((rangeIcc1 n).erase d) :=
    (h.trans (List.perm_cons_erase hd)).cons_inv
  have hperm2 : (l.map (decIf d)).Perm (((rangeIcc1 n).erase d).map (decIf d)) :=
    hl.map _
  have heq : ((rangeIcc1 n).erase d).map (decIf d) = rangeIcc1 (n - 1) := by
    have hdk : ((d.toNat : Nat) : Int) = d := by omega
    rw [← hdk]
    exact erase_map_dec d.toNat n (by omega) (by omega)
  rw [heq] at hperm2
  exact hperm2

theorem deleteSubs_mem_iff (db : StoreDB) (oid : String) (o : Outline) (x : Outline)
    (hxE : x ∈ outlinesAfterErase db oid) (hxq : x.projectId = o.projectId) :
    x ∈ deleteSubs db oid o.projectId o.orderIndex ↔
      o.orderIndex < x.orderIndex := by
  constructor
  · intro hx
    exact (deleteSubs_mem_proj db oid o.projectId o.orderIndex x hx).2.2
  · intro hlt
    unfold deleteSubs
    refine (List.perm_insertionSort _ _).mem_iff.mpr ?_
    exact List.mem_filter.mpr ⟨hxE, by simp [hxq, hlt]⟩

theorem delete_preserves_contiguity (db : StoreDB) (oid : String) (pid : String)
    (hwf : wfStore db) (hbef : contiguousOrders db pid) :
    contiguousOrders (delete_outline db oid) pid := by
  cases hf : db.outlines.find? (·.id = oid) with
  | none =>
    unfold delete_outline
    rw [hf]
    exact hbef
  | some o =>
    rcases find?_decomp _ _ _ hf with ⟨L1, L2, heqL, hL1, hpo⟩
    have hE : outlinesAfterErase db oid = L1 ++ L2 := by
      unfold outlinesAfterErase
      rw [heqL]
      exact eraseP_append_cons _ L1 L2 o hL1 hpo
    have hndE : ((outlinesAfterErase db oid).map (fun y => y.id)).Nodup :=
      List.Nodup.sublist (List.Sublist.map _ (List.eraseP_sublist _)) hwf.1
    rw [delete_outline_char db oid o hf hwf]
    unfold contiguousOrders
    have hords : ordersOf { db with
        outlines := (outlinesAfterErase db oid).map
          (dPartO (deleteSubs db oid o.projectId o.orderIndex))
        chapters := (chaptersAfterDelete db o.projectId o.orderIndex).map
          (deleteFC o.projectId
            ((deleteSubs db oid o.projectId o.orderIndex).map (·.orderIndex))) }
        pid =
      (((outlinesAfterErase db oid).map
        (dPartO (deleteSubs db oid o.projectId o.orderIndex))).filter
          (·.projectId = pid)).map (·.orderIndex) := rfl
    rw [hords]
    have hcomm : ((outlinesAfterErase db oid).map
        (dPartO (deleteSubs db oid o.projectId o.orderIndex))).filter
          (·.projectId = pid) =
        ((outlinesAfterErase db oid).filter (·.projectId = pid)).map
          (dPartO (deleteSubs db oid o.projectId o.orderIndex)) := by
      rw [List.filter_map]
      congr 1
      apply List.filter_congr
      intro x _
      show decide ((dPartO _ x).projectId = pid) = decide (x.projectId = pid)
      rw [dPartO_projectId]
    rw [hcomm]
    unfold contiguousOrders ordersOf at hbef
    by_cases hpq : pid = o.projectId
    · have hval : ∀ x ∈ (outlinesAfterErase db oid).filter (·.projectId = pid),
          (dPartO (deleteSubs db oid o.projectId o.orderIndex) x).orderIndex =
            decIf o.orderIndex x.orderIndex := by
        intro x hx
        rcases List.mem_filter.mp hx with ⟨hxE, hxq'⟩
        have hxq : x.projectId = o.projectId :=
          (of_decide_eq_true hxq').trans hpq
        unfold dPartO decIf
        by_cases hlt : o.orderIndex < x.orderIndex
        · rw [if_pos (List.mem_map.mpr
            ⟨x, (deleteSubs_mem_iff db oid o x hxE hxq).mpr hlt, rfl⟩),
            if_pos hlt]
        · rw [if_neg ?_, if_neg hlt]
          intro hmem
          rcases List.mem_map.mp hmem with ⟨s, hs, hsid⟩
          have h3 := deleteSubs_mem_proj db oid o.projectId o.orderIndex s hs
          have hsx : s = x := key_inj_of_nodup_map (fun y => y.id)
            (outlinesAfterErase db oid) hndE s x h3.1 hxE hsid
          rw [hsx] at h3
          exact hlt h3.2.2
      have hX : (((outlinesAfterErase db oid).filter (·.projectId = pid)).map
          (dPartO (deleteSubs db oid o.projectId o.orderIndex))).map
            (·.orderIndex) =
          (((outlinesAfterErase db oid).filter (·.projectId = pid)).map
            (·.orderIndex)).map (decIf o.orderIndex) := by
        rw [List.map_map, List.map_map]
        apply List.map_congr_left
        intro x hx
        exact hval x hx
      rw [hX]
      have hFsplit : db.outlines.filter (·.projectId = pid) =
          (L1.filter (·.projectId = pid)) ++ o ::
            (L2.filter (·.projectId = pid)) := by
        rw [heqL, List.filter_append]
        congr 1
        rw [List.filter_cons_of_pos]
        simp [hpq]
      have hFE : (outlinesAfterErase db oid).filter (·.projectId = pid) =
          (L1.filter (·.projectId = pid)) ++ (L2.filter (·.projectId = pid)) := by
        rw [hE, List.filter_append]
      have hperm1 : ((db.outlines.filter (·.projectId = pid)).map
          (·.orderIndex)).Perm (o.orderIndex ::
            (((outlinesAfterErase db oid).filter (·.projectId = pid)).map
              (·.orderIndex))) := by
        rw [hFsplit, hFE, List.map_append, List.map_append, List.map_cons]
        exact List.perm_middle
      have hperm2 : ((db.outlines.filter (·.projectId = pid)).map
          (·.orderIndex)).Perm (rangeIcc1
            ((db.outlines.filter (·.projectId = pid)).map
              (·.orderIndex)).length) := by
        have h1 := (List.perm_insertionSort (fun a b : Int => a ≤ b)
          ((db.outlines.filter (·.projectId = pid)).map (·.orderIndex))).symm
        rw [hbef] at h1
        exact h1
      have hperm3 := (hperm1.symm.trans hperm2)
      have hdec := dec_perm
        ((db.outlines.filter (·.projectId = pid)).map (·.orderIndex)).length
        o.orderIndex
        (((outlinesAfterErase db oid).filter (·.projectId = pid)).map
          (·.orderIndex)) hperm3
      exact contiguous_of_perm_range _ _ hdec
    · have hid : ∀ x ∈ (outlinesAfterErase db oid).filter (·.projectId = pid),
          dPartO (deleteSubs db oid o.projectId o.orderIndex) x =
            (fun y => y) x := by
        intro x hx
        rcases List.mem_filter.mp hx with ⟨hxE, hxp'⟩
        have hxp : x.projectId = pid := of_decide_eq_true hxp'
        show dPartO _ x = x
        unfold dPartO
        rw [if_neg ?_]
        intro hmem
        rcases List.mem_map.mp hmem with ⟨s, hs, hsid⟩
        have h3 := deleteSubs_mem_proj db oid o.projectId o.orderIndex s hs
        have hsx : s = x := key_inj_of_nodup_map (fun y => y.id)
          (outlinesAfterErase db oid) hndE s x h3.1 hxE hsid
        rw [hsx] at h3
        exact hpq (by rw [← hxp, h3.2.1])
      have hmapid : ((outlinesAfterErase db oid).filter (·.projectId = pid)).map
          (dPartO (deleteSubs db oid o.projectId o.orderIndex)) =
          (outlinesAfterErase db oid).filter (·.projectId = pid) := by
        rw [List.map_congr_left hid, List.map_id']
      have hEfil : (outlinesAfterErase db oid).filter (·.projectId = pid) =
          db.outlines.filter (·.projectId = pid) := by
        rw [hE, heqL, List.filter_append, List.filter_append]
        congr 1
        rw [List.filter_cons_of_neg]
        simp
        exact fun h => hpq h.symm
      rw [hmapid, hEfil]
      exact hbef

theorem foldl_upsert_eq_append :
    ∀ (items acc : List ReorderItem),
      ((acc ++ items).map (·.id)).Nodup →
      items.foldl upsertItem acc = acc ++ items := by
  intro items
  induction items with
  | nil =>
    intro acc _
    simp
  | cons it t ih =>
    intro acc hnd
    have hitid : it.id ∉ acc.map (·.id) := by
      rw [List.map_append, List.map_cons] at hnd
      rcases List.nodup_append.mp hnd with ⟨_, _, hdisj⟩
      intro hmem
      exact hdisj hmem (List.mem_cons_self _ _)
    have hups : upsertItem acc it = acc ++ [it] := by
      unfold upsertItem
      rw [if_neg ?_]
      intro hany
      rcases List.any_eq_true.mp hany with ⟨y, hy, hye⟩
      exact hitid (List.mem_map.mpr ⟨y, hy, of_decide_eq_true hye⟩)
    rw [List.foldl_cons, hups, ih (acc ++ [it]) (by
      rw [List.append_assoc]
      exact hnd)]
    rw [List.append_assoc]
    rfl

theorem dedupItems_eq_self (items : List ReorderItem)
    (h : (items.map (·.id)).Nodup) : dedupItems items = items := by
  unfold dedupItems
  have h2 := foldl_upsert_eq_append items [] (by simpa using h)
  simpa using h2

theorem filterMap_total_maps {γ δ ε ζ : Type} (f : γ → Option δ)
    (g1 : δ → ε) (k1 : γ → ε) (g2 : δ → ζ) (k2 : γ → ζ)
    (hk : ∀ a b, f a = some b → g1 b = k1 a ∧ g2 b = k2 a) :
    ∀ l : List γ, (∀ a ∈ l, (f a).isSome = true) →
      (l.filterMap f).map g1 = l.map k1 ∧
        (l.filterMap f).map g2 = l.map k2 := by
  intro l
  induction l with
  | nil =>
    intro _
    exact ⟨rfl, rfl⟩
  | cons a t ih =>
    intro hall
    rcases Option.isSome_iff_exists.mp (hall a (List.mem_cons_self a t)) with
      ⟨b, hfb⟩
    rcases ih (fun y hy => hall y (List.mem_cons_of_mem a hy)) with ⟨ih1, ih2⟩
    rcases hk a b hfb with ⟨hk1, hk2⟩
    rw [List.filterMap_cons, hfb]
    constructor
    · show (b :: t.filterMap f).map g1 = (a :: t).map k1
      rw [List.map_cons, List.map_cons, hk1, ih1]
    · show (b :: t.filterMap f).map g2 = (a :: t).map k2
      rw [List.map_cons, List.map_cons, hk2, ih2]

theorem find?_append_cons {γ : Type} (p : γ → Bool) (E1 E2 : List γ) (e : γ)
    (h1 : ∀ y ∈ E1, p y = false) (he : p e = true) :
    (E1 ++ e :: E2).find? p = some e := by
  induction E1 with
  | nil =>
    rw [List.nil_append]
    exact List.find?_cons_of_pos _ he
  | cons a t ih =>
    rw [List.cons_append,
      List.find?_cons_of_neg _ (by simp [h1 a (List.mem_cons_self a t)])]
    exact ih (fun y hy => h1 y (List.mem_cons_of_mem a hy))

theorem entryNewOrder_of_items (entries : List ReorderEntry) :
    ∀ (items : List ReorderItem),
      entries.map (·.outlineId) = items.map (·.id) →
      entries.map (·.newOrder) = items.map (·.orderIndex) →
      (items.map (·.id)).Nodup →
      ∀ it ∈ items, entryNewOrder entries it.id = it.orderIndex := by
  induction entries with
  | nil =>
    intro items hids _ _ it hit
    cases items with
    | nil => cases hit
    | cons a t => simp at hids
  | cons e es ih =>
    intro items hids hords hnd it hit
    cases items with
    | nil => cases hit
    | cons a t =>
      rw [List.map_cons, List.map_cons] at hids hords
      injection hids with hh1 hh2
      injection hords with hh3 hh4
      rw [List.map_cons] at hnd
      rcases List.nodup_cons.mp hnd with ⟨hnotin, hndt⟩
      rcases List.mem_cons.mp hit with h5 | h5
      · rw [h5]
        unfold entryNewOrder
        rw [List.find?_cons_of_pos _ (by simp [hh1])]
        show e.newOrder = a.orderIndex
        exact hh3
      · have hne : ¬ a.id = it.id := by
          intro hcon
          apply hnotin
          rw [hcon]
          exact List.mem_map.mpr ⟨it, h5, rfl⟩
        unfold entryNewOrder
        rw [List.find?_cons_of_neg _ (by simp [hh1]; exact hne)]
        exact ih t hh2 hh4 hndt it h5

theorem foldl_stepO_projectId (es : List ReorderEntry) :
    ∀ (o : Outline), (es.foldl stepO o).projectId = o.projectId := by
  induction es with
  | nil =>
    intro o
    rfl
  | cons e t ih =>
    intro o
    rw [List.foldl_cons, ih (stepO o e), stepO_projectId]

theorem foldl_stepO_entry (entries : List ReorderEntry) (x : Outline)
    (hnd : (entries.map (·.outlineId)).Nodup)
    (hex : ∃ e ∈ entries, e.outlineId = x.id) :
    entries.foldl stepO x =
      { x with orderIndex := entryNewOrder entries x.id } := by
  rcases hex with ⟨e, hmem, hid⟩
  rcases List.append_of_mem hmem with ⟨E1, E2, rfl⟩
  rw [List.map_append, List.map_cons] at hnd
  rcases List.nodup_append.mp hnd with ⟨hnd1, hnd2, hdisj⟩
  rcases List.nodup_cons.mp hnd2 with ⟨hnotin, hnd3⟩
  have h1 : ∀ y ∈ E1, y.outlineId ≠ x.id := by
    intro y hy hcon
    apply hdisj (List.mem_map.mpr ⟨y, hy, rfl⟩)
    rw [hcon, ← hid]
    exact List.mem_cons_self _ _
  have h2 : ∀ y ∈ E2, y.outlineId ≠ x.id := by
    intro y hy hcon
    apply hnotin
    rw [hid, ← hcon]
    exact List.mem_map.mpr ⟨y, hy, rfl⟩
  have hv : entryNewOrder (E1 ++ e :: E2) x.id = e.newOrder := by
    unfold entryNewOrder
    rw [find?_append_cons _ E1 E2 e (fun y hy => by simp [h1 y hy])
      (by simp [hid])]
    rfl
  rw [hv]
  exact stepO_foldl_single E1 E2 e x h1 hid h2

theorem reorder_preserves_contiguity (db : StoreDB) (items : List ReorderItem)
    (pid : String) (hwf : wfStore db)
    (hndit : (items.map (·.id)).Nodup)
    (hall : ∀ it ∈ items, ∃ x ∈ db.outlines, x.id = it.id ∧ x.projectId = pid)
    (hpermids : ((db.outlines.filter (·.projectId = pid)).map (·.id)).Perm
      (items.map (·.id)))
    (hpermord : (items.map (·.orderIndex)).Perm (rangeIcc1 items.length)) :
    contiguousOrders (reorder_outlines db items) pid := by
  have hded : dedupItems items = items := dedupItems_eq_self items hndit
  have hfound : ∀ it ∈ items,
      (db.outlines.find? (fun y => y.id = it.id)).isSome = true := by
    intro it hit
    rcases hall it hit with ⟨x, hx, hxid, _⟩
    rcases find?_some_of_mem (fun y => decide (y.id = it.id)) db.outlines x hx
      (by simp [hxid]) with ⟨b, hfb, _, _⟩
    rw [hfb]
    rfl
  have hmaps : ((collectReorderEntries db items).map (·.outlineId) =
      items.map (·.id)) ∧
      ((collectReorderEntries db items).map (·.newOrder) =
        items.map (·.orderIndex)) := by
    unfold collectReorderEntries
    rw [hded]
    refine filterMap_total_maps _ _ _ _ _ ?_ items ?_
    · intro it e hfe
      rcases Option.map_eq_some'.mp hfe with ⟨o, hfo, hrec⟩
      constructor
      · rw [← hrec]
        show o.id = it.id
        simpa using List.find?_some hfo
      · rw [← hrec]
    · intro it hit
      have h := hfound it hit
      cases hfo : db.outlines.find? (fun y => y.id = it.id) with
      | none =>
        rw [hfo] at h
        cases h
      | some o =>
        rfl
  have hEnd : ((collectReorderEntries db items).map (·.outlineId)).Nodup :=
    collect_ids_nodup db items
  have hchar : reorder_outlines db items =
      { db with
          outlines := db.outlines.map
            (fun o => (collectReorderEntries db items).foldl stepO o)
          chapters := db.chapters.map
            (fun c => (collectReorderEntries db items).foldl stepC c) } := by
    unfold reorder_outlines
    rw [reorder_fold_char (collectReorderEntries db items) db.outlines db.chapters
      hwf.1 hwf.2.1]
  rw [hchar]
  unfold contiguousOrders
  have hords : ordersOf { db with
      outlines := db.outlines.map
        (fun o => (collectReorderEntries db items).foldl stepO o)
      chapters := db.chapters.map
        (fun c => (collectReorderEntries db items).foldl stepC c) } pid =
    ((db.outlines.map
      (fun o => (collectReorderEntries db items).foldl stepO o)).filter
        (·.projectId = pid)).map (·.orderIndex) := rfl
  rw [hords]
  have hcomm : (db.outlines.map
      (fun o => (collectReorderEntries db items).foldl stepO o)).filter
        (·.projectId = pid) =
      (db.outlines.filter (·.projectId = pid)).map
        (fun o => (collectReorderEntries db items).foldl stepO o) := by
    rw [List.filter_map]
    congr 1
    apply List.filter_congr
    intro x _
    show decide (((collectReorderEntries db items).foldl stepO x).projectId = pid)
      = decide (x.projectId = pid)
    rw [foldl_stepO_projectId]
  rw [hcomm]
  have hvmap : (((db.outlines.filter (·.projectId = pid)).map
      (fun o => (collectReorderEntries db items).foldl stepO o)).map
        (·.orderIndex)) =
      ((db.outlines.filter (·.projectId = pid)).map (fun y => y.id)).map
        (entryNewOrder (collectReorderEntries db items)) := by
    rw [List.map_map, List.map_map]
    apply List.map_congr_left
    intro x hx
    show ((collectReorderEntries db items).foldl stepO x).orderIndex =
      entryNewOrder (collectReorderEntries db items) x.id
    have hex : ∃ e ∈ collectReorderEntries db items, e.outlineId = x.id := by
      have hxid : x.id ∈ items.map (·.id) :=
        hpermids.mem_iff.mp (List.mem_map.mpr ⟨x, hx, rfl⟩)
      rw [← hmaps.1] at hxid
      rcases List.mem_map.mp hxid with ⟨e, he, heid⟩
      exact ⟨e, he, heid⟩
    rw [foldl_stepO_entry (collectReorderEntries db items) x hEnd hex]
  rw [hvmap]
  have hitems : items.map (·.orderIndex) =
      (items.map (fun y => y.id)).map
        (entryNewOrder (collectReorderEntries db items)) := by
    rw [List.map_map]
    symm
    apply List.map_congr_left
    intro it hit
    show entryNewOrder (collectReorderEntries db items) it.id = it.orderIndex
    exact entryNewOrder_of_items (collectReorderEntries db items) items
      hmaps.1 hmaps.2 hndit it hit
  have hfinal : (((db.outlines.filter (·.projectId = pid)).map (fun y => y.id)).map
      (entryNewOrder (collectReorderEntries db items))).Perm
      (rangeIcc1 items.length) := by
    refine ((hpermids.map (entryNewOrder (collectReorderEntries db items)))).trans ?_
    rw [← hitems]
    exact hpermord
  exact contiguous_of_perm_range _ _ hfinal

/-- C5 (corrected): after any outline delete the project's `order_index`
values again form `{1..N}` for the N remaining outlines, provided the
invariant held before and the schema-level uniqueness (`wfStore`) holds.
For a reorder request the same conclusion needs additional assumptions the
endpoint never validates: the request's ids must be distinct, each must
target an outline of the project, they must cover exactly the project's
outlines, and the new orders must be a permutation of `1..N`.  Without
them a committed reorder can break contiguity (see the counterexample),
so the claim's unconditional reorder half is false as stated. -/
theorem outline_order_contiguity :
    (∀ (db : StoreDB) (oid : String) (pid : String), wfStore db →
       contiguousOrders db pid →
       contiguousOrders (delete_outline db oid) pid) ∧
    (∀ (db : StoreDB) (items : List ReorderItem) (pid : String), wfStore db →
       (items.map (·.id)).Nodup →
       (∀ it ∈ items, ∃ x ∈ db.outlines, x.id = it.id ∧ x.projectId = pid) →
       ((db.outlines.filter (·.projectId = pid)).map (·.id)).Perm
         (items.map (·.id)) →
       (items.map (·.orderIndex)).Perm (rangeIcc1 items.length) →
       contiguousOrders (reorder_outlines db items) pid) := by
  constructor
  · intro db oid pid hwf hbef
    exact delete_preserves_contiguity db oid pid hwf hbef
  · intro db items pid hwf h1 h2 h3 h4
    exact reorder_preserves_contiguity db items pid hwf h1 h2 h3 h4

/-- Counterexample to the unconditional reorder half of the claim: a
well-formed single-outline store with contiguous orders, where a committed
reorder request assigning `order_index = 7` (accepted by the schema, which
only requires `ge=1`, and never validated as a permutation by the
endpoint) leaves the project's orders as `{7} ≠ {1}`. -/
theorem outline_order_contiguity_counterexample :
    wfStore exStoreOne ∧ contiguousOrders exStoreOne "p1" ∧
    ¬ contiguousOrders
        (reorder_outlines exStoreOne [{ id := "o1", orderIndex := 7 }]) "p1" := by
  refine ⟨by decide, by decide, by decide⟩

/-- Witness: the corrected theorem applies to a concrete two-outline
store — deleting the first outline renumbers the second to `1`, and a
swap-reorder keeps the orders `{1, 2}`. -/
theorem outline_order_contiguity_witness :
    contiguousOrders (delete_outline exStoreDB "o1") "p1" ∧
    contiguousOrders (reorder_outlines exStoreDB exReorderItems) "p1" := by
  constructor
  · exact outline_order_contiguity.1 exStoreDB "o1" "p1" (by decide) (by decide)
  · exact outline_order_contiguity.2 exStoreDB exReorderItems "p1" (by decide)
      (by decide) (by decide) (by decide) (by decide)

/-- Witness: on a two-chapter project whose first chapter is blank, the
precheck of chapter 2 rejects with the prerequisite error message. -/
theorem prerequisite_rejection_witness :
    generateStreamPrecheck exPrereqChapters "c2" =
      .httpError 400 (prerequisiteErrorMsg
        (incompletePriorNumbers exPrereqChapters exPrereqC2)) :=
  (prerequisite_rejection exPrereqChapters "c2" exPrereqC2 (by rfl)
    (by decide)).1.mpr (by decide)

/-- Witness: a batch answering exactly three characters succeeds with
three items, and fences around a concrete JSON body are stripped. -/
theorem batch_validation_and_fences_witness :
    exCharTriple.length = 3 ∧
    cleanMarkdownWizard ("```json\n" ++ "[]" ++ "\n```") = "[]" ∧
    cleanFencesOutline ("```json\n" ++ "[]" ++ "\n```") = "[]" := by
  refine ⟨?_, ?_, ?_⟩
  · exact batch_validation_and_fences.1 3 (fun _ => .items exCharTriple)
      exCharTriple (by rfl)
  · exact (batch_validation_and_fences.2.2.2.2 "[]" (by decide)).1
  · exact (batch_validation_and_fences.2.2.2.2 "[]" (by decide)).2

/-- Witness: a chapter stream cancelled after one chunk has flushed its
pending writes, committed no content, committed no task and spawned no
worker. -/
theorem sse_cancellation_rolls_back_witness :
    (runCancelled (chapterSegments 1) 1).pendingWrites = 0 ∧
    (runCancelled (chapterSegments 1) 1).contentCommitted = false ∧
    (runCancelled (chapterSegments 1) 1).taskCommitted = false ∧
    (runCancelled (chapterSegments 1) 1).workerSpawned = false := by
  refine ⟨(sse_cancellation_rolls_back 1 1 1).1, ?_, ?_, ?_⟩
  · exact ((sse_cancellation_rolls_back 1 1 1).2.2.1 (by decide)).1
  · exact ((sse_cancellation_rolls_back 1 1 1).2.2.1 (by decide)).2.1
  · exact ((sse_cancellation_rolls_back 1 1 1).2.2.1 (by decide)).2.2

end MuMu
